import Mathlib

/-!
# ZenGarden: message objects, the multiplier and the block scheduler

A shallow embedding of parts of `MessageMoses.cpp`, `MessageUnpack.cpp`, `MessagePow.cpp`,
`DspMultiply.cpp` and `PdGraph.cpp`.

Conventions of the embedding.

* C `float` and `double` values are exact rationals (`ℚ`).  Rounding, infinities and NaN are
  outside the model; `floorf`/`ceilf` followed by `lrintf` are `Int.floor`/`Int.ceil`.
* A sample buffer (`float *`) is a total map from the C index to the sample stored there;
  bounds of the allocation are outside the model.
* An object that calls `sendMessage` returns, next to its new state, the list of
  `(outletIndex, message)` pairs it sent, in call order.
-/

namespace ZenGarden

/-! ## Messages -/

/-- The element types of `MessageElementType`. -/
inductive MessageElementType where
  | FLOAT
  | SYMBOL
  | BANG
  | ANYTHING
  | LIST
  deriving DecidableEq, Repr

/-- A message element: a tagged value. -/
inductive MessageElement where
  | float (f : ℚ)
  | symbol (s : String)
  | bang
  | anything
  | list
  deriving DecidableEq

/-- The type tag of an element (`MessageElement::getType`). -/
def MessageElement.getType : MessageElement → MessageElementType
  | .float _ => .FLOAT
  | .symbol _ => .SYMBOL
  | .bang => .BANG
  | .anything => .ANYTHING
  | .list => .LIST

/-- A message: a timestamp in milliseconds and an ordered sequence of elements. -/
structure PdMessage where
  timestamp : ℚ
  elements : List MessageElement
  deriving DecidableEq

/-- Modelled from the spec: `PdMessage::getTimestamp`, the accessor of the timestamp
(class `PdMessage` is not among the sources). -/
def PdMessage.getTimestamp (m : PdMessage) : ℚ := m.timestamp

/-- Modelled from the spec: `PdMessage::getElement(index)`; a missing element is the null
pointer, here `none`. -/
def PdMessage.getElement (m : PdMessage) (index : Nat) : Option MessageElement :=
  m.elements.get? index

/-- Modelled from the spec: `PdMessage::isFloat(index)`, true when the element at `index`
exists and is a float. -/
def PdMessage.isFloat (m : PdMessage) (index : Nat) : Bool :=
  match m.getElement index with
  | some (.float _) => true
  | _ => false

/-- Modelled from the spec: `PdMessage::getFloat(index)`, the float stored at `index`
(`0` when the element is not a float). -/
def PdMessage.getFloat (m : PdMessage) (index : Nat) : ℚ :=
  match m.getElement index with
  | some (.float f) => f
  | _ => 0

/-- Modelled from the spec: `PdMessage::initWithTimestampAndFloat`, which makes the message a
single float with the given timestamp. -/
def PdMessage.initWithTimestampAndFloat (timestamp f : ℚ) : PdMessage :=
  { timestamp := timestamp, elements := [.float f] }

/-- Modelled from the spec: `PdMessage::getBlockIndex(blockStartTimestamp, sampleRate)`: the
timestamp minus the block start, converted from milliseconds to a fractional sample index. -/
def PdMessage.getBlockIndex (m : PdMessage) (blockStartTimestamp sampleRate : ℚ) : ℚ :=
  (m.timestamp - blockStartTimestamp) * sampleRate / 1000

/-- One `sendMessage(outletIndex, message)` call of an object. -/
abbrev Emission := Int × PdMessage

/-! ## `MessageMoses` -/

/-- The state of a `moses` object: the threshold. -/
structure MessageMoses where
  constant : ℚ
  deriving DecidableEq

/-- The body of `MessageMoses::processMessage`: the new state and the messages sent. -/
def MessageMoses.processMessage (self : MessageMoses) (inletIndex : Int) (message : PdMessage) :
    MessageMoses × List Emission :=
  if inletIndex = 0 then
    if message.isFloat 0 then
      if message.getFloat 0 < self.constant then
        (self, [(0, PdMessage.initWithTimestampAndFloat message.getTimestamp (message.getFloat 0))])
      else
        (self, [(1, PdMessage.initWithTimestampAndFloat message.getTimestamp (message.getFloat 0))])
    else (self, [])
  else if inletIndex = 1 then
    if message.isFloat 0 then
      ({ self with constant := message.getFloat 0 }, [])
    else (self, [])
  else (self, [])

/-- Feed a sequence of messages to inlet 0 of a moses object, collecting what it sends. -/
def MessageMoses.feed (self : MessageMoses) : List PdMessage → List Emission
  | [] => []
  | m :: ms => (self.processMessage 0 m).2 ++ MessageMoses.feed (self.processMessage 0 m).1 ms

/-- The messages of an emission list that left the given outlet, in order. -/
def emissionsAt (outletIndex : Int) (es : List Emission) : List PdMessage :=
  (es.filter (fun e => e.1 = outletIndex)).map Prod.snd

/-! ## `DspMultiply` -/

/-- The four states of `signalPrecedence` of an object with two mixed inlets. -/
inductive DspMessagePrecedence where
  | DSP_DSP
  | DSP_MESSAGE
  | MESSAGE_DSP
  | MESSAGE_MESSAGE
  deriving DecidableEq, Repr

/-- A sample buffer, addressed by the C index. -/
abbrev DspBuffer := Int → ℚ

/-- The float stored in an element (`MessageElement::getFloat`), `0` for other elements. -/
def MessageElement.getFloat : MessageElement → ℚ
  | .float f => f
  | _ => 0

/-- The state of a multiplier object: its constant, the precedence of the block, the cursor
`blockIndexOfLastMessage`, the two inlet buffers and the outlet buffer. -/
structure DspMultiply where
  constant : ℚ
  signalPrecedence : DspMessagePrecedence
  blockIndexOfLastMessage : ℚ
  localDspBufferAtInlet0 : DspBuffer
  localDspBufferAtInlet1 : DspBuffer
  localDspBufferAtOutlet0 : DspBuffer

/-- The loop `for (int i = start; i < blockIndexInt; i++) outputBuffer[i] = body(i);` run from
index `i` with at most `n` iterations left. -/
def sampleLoop (body : Int → ℚ) (blockIndexInt : Int) : Nat → Int → DspBuffer → DspBuffer
  | 0, _, outputBuffer => outputBuffer
  | n + 1, i, outputBuffer =>
    if i < blockIndexInt then
      sampleLoop body blockIndexInt n (i + 1) (Function.update outputBuffer i (body i))
    else outputBuffer

/-- The body of `DspMultiply::processDspToIndex`.  The loop runs `blockIndexInt - start` times
when that is positive and not at all otherwise. -/
def DspMultiply.processDspToIndex (self : DspMultiply) (blockIndex : ℚ) : DspMultiply :=
  match self.signalPrecedence with
  | .DSP_DSP =>
    let blockIndexInt : Int := ⌊blockIndex⌋
    let start : Int := ⌈self.blockIndexOfLastMessage⌉
    { self with
      localDspBufferAtOutlet0 :=
        sampleLoop (fun i => self.localDspBufferAtInlet0 i * self.localDspBufferAtInlet1 i)
          blockIndexInt (blockIndexInt - start).toNat start self.localDspBufferAtOutlet0
      blockIndexOfLastMessage := blockIndex }
  | .DSP_MESSAGE =>
    let blockIndexInt : Int := ⌊blockIndex⌋
    let start : Int := ⌈self.blockIndexOfLastMessage⌉
    { self with
      localDspBufferAtOutlet0 :=
        sampleLoop (fun i => self.localDspBufferAtInlet0 i * self.constant)
          blockIndexInt (blockIndexInt - start).toNat start self.localDspBufferAtOutlet0
      blockIndexOfLastMessage := blockIndex }
  | .MESSAGE_DSP => { self with blockIndexOfLastMessage := blockIndex }
  | .MESSAGE_MESSAGE => { self with blockIndexOfLastMessage := blockIndex }

/-- The body of `DspMultiply::processMessage`; `blockStartTimestamp` and `sampleRate` are what
the owning graph returns.  The result is `none` when `getElement(0)` is the null pointer, which
the code dereferences. -/
def DspMultiply.processMessage (self : DspMultiply) (blockStartTimestamp sampleRate : ℚ)
    (inletIndex : Int) (message : PdMessage) : Option DspMultiply :=
  if inletIndex = 1 then
    match message.getElement 0 with
    | none => none
    | some messageElement =>
      if messageElement.getType = .FLOAT then
        some { self.processDspToIndex (message.getBlockIndex blockStartTimestamp sampleRate) with
               constant := messageElement.getFloat }
      else some self
  else some self

/-- A multiplier at the start of a block, in state `DSP_MESSAGE` with constant one half, a
constant input of ones and an outlet buffer still holding sevens. -/
def multiplyAtBlockStart : DspMultiply :=
  { constant := 1 / 2
    signalPrecedence := .DSP_MESSAGE
    blockIndexOfLastMessage := 0
    localDspBufferAtInlet0 := fun _ => 1
    localDspBufferAtInlet1 := fun _ => 0
    localDspBufferAtOutlet0 := fun _ => 7 }

/-- A multiplier in state `MESSAGE_DSP` with constant two, right input of threes and an outlet
buffer of zeros. -/
def multiplyMessageDsp : DspMultiply :=
  { constant := 2
    signalPrecedence := .MESSAGE_DSP
    blockIndexOfLastMessage := 0
    localDspBufferAtInlet0 := fun _ => 0
    localDspBufferAtInlet1 := fun _ => 3
    localDspBufferAtOutlet0 := fun _ => 0 }

/-! ## The scheduler of the root graph

The state below is that of the root graph (`isRootGraph()` holds, the branch every scheduler
operation of `PdGraph` ends in).  The objects of the patch are an abstract world `W`; what an
object does when a message is sent from one of its outlets is a parameter, which returns the
new world and the calls the objects made back into the graph, in call order.
-/

/-- A pointer to a heap message: its address and the message stored there. -/
structure MessageRef where
  address : Nat
  value : PdMessage
  deriving DecidableEq

/-- The timestamp of the message behind the pointer (`message->getTimestamp()`). -/
def MessageRef.getTimestamp (m : MessageRef) : ℚ := m.value.getTimestamp

/-- An entry of the scheduler queue (`MessageDestination`): target object, outlet index and
message.  The field `seq` is the insertion sequence number of the spec's queue key
`(timestamp, insertion-sequence)`. -/
structure MessageDestination where
  object : Nat
  index : Int
  message : MessageRef
  seq : Nat
  deriving DecidableEq

/-- A call made by an object into its graph while it handles a message. -/
inductive GraphCall where
  | scheduleMessage (messageObject : Nat) (outletIndex : Int) (message : MessageRef)
  | cancelMessage (messageObject : Nat) (outletIndex : Int) (message : MessageRef)
  deriving DecidableEq

/-- The objects of a patch, seen from the graph: `sendMessage` of an object on one of its
outlets, and the audio pass `processDsp` over the signal objects (rails included). -/
structure ObjectWorld (W : Type) where
  sendMessage : W → Nat → Int → MessageRef → W × List GraphCall
  processDsp : W → W

/-- The scheduler state of the root graph. `reservation` holds, per message address, the
reservation count of that heap message. -/
structure PdGraph (W : Type) where
  messageCallbackQueue : List MessageDestination
  reservation : Nat → Int
  nextSeq : Nat
  blockStartTimestamp : ℚ
  blockDurationMs : ℚ
  world : W

/-- Modelled from the spec: `PdMessage::reserve`, which adds one to the reservation count of
the message (class `PdMessage` is not among the sources).  The object passed to `reserve` has
no part in the count. -/
def reserve (reservation : Nat → Int) (message : MessageRef) : Nat → Int :=
  Function.update reservation message.address (reservation message.address + 1)

/-- Modelled from the spec: `PdMessage::unreserve`, which takes one from the reservation count
of the message. -/
def unreserve (reservation : Nat → Int) (message : MessageRef) : Nat → Int :=
  Function.update reservation message.address (reservation message.address - 1)

/-- The order of the queue key `(timestamp, insertion-sequence)`. -/
def keyLt (a b : MessageDestination) : Prop :=
  a.message.getTimestamp < b.message.getTimestamp
    ∨ (a.message.getTimestamp = b.message.getTimestamp ∧ a.seq < b.seq)

instance (a b : MessageDestination) : Decidable (keyLt a b) := by
  unfold keyLt; infer_instance

/-- Modelled from the spec: `OrderedMessageQueue::insertMessage`, which puts the new entry at
its place in the order of the key `(timestamp, insertion-sequence)` (class
`OrderedMessageQueue` is not among the sources). -/
def insertMessage (queue : List MessageDestination) (d : MessageDestination) :
    List MessageDestination :=
  match queue with
  | [] => [d]
  | h :: t => if keyLt d h then d :: h :: t else h :: insertMessage t d

/-- The graph before any message was scheduled: `blockStartTimestamp = 0`, an empty queue. -/
def PdGraph.init {W : Type} (blockDurationMs : ℚ) (world : W) : PdGraph W :=
  { messageCallbackQueue := []
    reservation := fun _ => 0
    nextSeq := 0
    blockStartTimestamp := 0
    blockDurationMs := blockDurationMs
    world := world }

/-- The root branch of `PdGraph::scheduleMessage`: reserve the message, insert the entry. -/
def PdGraph.scheduleMessage {W : Type} (g : PdGraph W) (messageObject : Nat) (outletIndex : Int)
    (message : MessageRef) : PdGraph W :=
  { g with
    reservation := reserve g.reservation message
    messageCallbackQueue :=
      insertMessage g.messageCallbackQueue ⟨messageObject, outletIndex, message, g.nextSeq⟩
    nextSeq := g.nextSeq + 1 }

/-- The root branch of `PdGraph::cancelMessage`: the message is unreserved; the queue is not
touched (`TODO(mhroth): fill this in!`). -/
def PdGraph.cancelMessage {W : Type} (g : PdGraph W) (_messageObject : Nat) (_outletIndex : Int)
    (message : MessageRef) : PdGraph W :=
  { g with reservation := unreserve g.reservation message }

/-- Run the calls an object made into the graph, in order. -/
def PdGraph.applyCalls {W : Type} (g : PdGraph W) : List GraphCall → PdGraph W
  | [] => g
  | .scheduleMessage o i m :: cs => (g.scheduleMessage o i m).applyCalls cs
  | .cancelMessage o i m :: cs => (g.cancelMessage o i m).applyCalls cs

/-- One pass through the body of the `while` loop of `PdGraph::process` for the head entry
`destination`, `rest` being the queue behind it: remove the entry, unreserve its message, send
it from the outlet of the target object; the calls the objects make meanwhile are run on the
graph. -/
def PdGraph.deliverHead {W : Type} (env : ObjectWorld W) (g : PdGraph W)
    (destination : MessageDestination) (rest : List MessageDestination) : PdGraph W :=
  let g1 : PdGraph W := { g with messageCallbackQueue := rest }
  let g2 : PdGraph W := { g1 with reservation := unreserve g1.reservation destination.message }
  let sent := env.sendMessage g2.world destination.object destination.index destination.message
  ({ g2 with world := sent.1 }).applyCalls sent.2

/-- The `while` loop of `PdGraph::process` that sends the messages of the block.  `fuel` bounds
the number of times the loop condition is tested; the result is `none` when the loop has not
left by then.  Next to the final graph the loop returns the entries it delivered
(`sendMessage`), in order. -/
def PdGraph.sendBlockMessages {W : Type} (env : ObjectWorld W) (nextBlockStartTimestamp : ℚ) :
    Nat → PdGraph W → Option (PdGraph W × List MessageDestination)
  | 0, _ => none
  | fuel + 1, g =>
    match g.messageCallbackQueue with
    | [] => some (g, [])
    | destination :: rest =>
      if g.blockStartTimestamp ≤ destination.message.getTimestamp
          ∧ destination.message.getTimestamp < nextBlockStartTimestamp then
        match PdGraph.sendBlockMessages env nextBlockStartTimestamp fuel
            (g.deliverHead env destination rest) with
        | none => none
        | some (g2, delivered) => some (g2, destination :: delivered)
      else some (g, [])

/-- The body of `PdGraph::process`: send the messages of the block, run the audio pass, advance
`blockStartTimestamp`.  The second component lists the deliveries of this call, in order. -/
def PdGraph.process {W : Type} (env : ObjectWorld W) (fuel : Nat) (g : PdGraph W) :
    Option (PdGraph W × List MessageDestination) :=
  let nextBlockStartTimestamp := g.blockStartTimestamp + g.blockDurationMs
  match g.sendBlockMessages env nextBlockStartTimestamp fuel with
  | none => none
  | some (g1, delivered) =>
    some ({ g1 with
            world := env.processDsp g1.world
            blockStartTimestamp := nextBlockStartTimestamp }, delivered)

/-- The queue is in the order of its key and every sequence number in it has been given out. -/
def PdGraph.QueueOrdered {W : Type} (g : PdGraph W) : Prop :=
  g.messageCallbackQueue.Pairwise keyLt ∧ ∀ d ∈ g.messageCallbackQueue, d.seq < g.nextSeq

/-- No queued timestamp lies before the start of the current block. -/
def PdGraph.QueueFresh {W : Type} (g : PdGraph W) : Prop :=
  ∀ d ∈ g.messageCallbackQueue, g.blockStartTimestamp ≤ d.message.getTimestamp

/-- No delivery schedules a message with a timestamp below `t`. -/
def NoScheduleBefore {W : Type} (env : ObjectWorld W) (t : ℚ) : Prop :=
  ∀ (w : W) (o : Nat) (i : Int) (m : MessageRef) (o' : Nat) (i' : Int) (m' : MessageRef),
    GraphCall.scheduleMessage o' i' m' ∈ (env.sendMessage w o i m).2 → t ≤ m'.getTimestamp

/-- No delivery schedules a message with a timestamp below that of the message delivered. -/
def Causal {W : Type} (env : ObjectWorld W) : Prop :=
  ∀ (w : W) (o : Nat) (i : Int) (m : MessageRef) (o' : Nat) (i' : Int) (m' : MessageRef),
    GraphCall.scheduleMessage o' i' m' ∈ (env.sendMessage w o i m).2 →
      m.getTimestamp ≤ m'.getTimestamp

/-- Objects that never call back into the graph. -/
def quietWorld : ObjectWorld Unit :=
  { sendMessage := fun w _ _ _ => (w, [])
    processDsp := fun w => w }

/-- A heap message at `address` holding a bang with the given timestamp. -/
def bangAt (address : Nat) (timestamp : ℚ) : MessageRef :=
  { address := address, value := { timestamp := timestamp, elements := [.bang] } }

/-- Objects of which the delivery of the message at address 1 schedules the message at address
2 with timestamp 3. -/
def backdatingWorld : ObjectWorld Unit :=
  { sendMessage := fun w _ _ m =>
      (w, if m.address = 1 then [.scheduleMessage 0 0 (bangAt 2 3)] else [])
    processDsp := fun w => w }

/-- Objects of which the delivery of the message at address 1 schedules the message at address
2 with the same timestamp as the one delivered. -/
def echoWorld : ObjectWorld Unit :=
  { sendMessage := fun w _ _ m =>
      (w, if m.address = 1 then [.scheduleMessage 0 0 (bangAt 2 m.getTimestamp)] else [])
    processDsp := fun w => w }

/-- One `sendMessage(outletIndex, message)` call on an object, as a world of records keeps
it. -/
abbrev SendRecord := Nat × Int × MessageRef

/-- Objects whose world is the record of the `sendMessage` calls made on them, in order, and
of which the object that sends the message at address 1 schedules, on object 9, the message at
address 3 twelve milliseconds after the one it sends. -/
def delayWorld : ObjectWorld (List SendRecord) :=
  { sendMessage := fun w o i m =>
      (w ++ [(o, i, m)],
        if m.address = 1 then [.scheduleMessage 9 0 (bangAt 3 (m.getTimestamp + 12))] else [])
    processDsp := fun w => w }

/-! ## Concrete graphs -/

/-- Two messages of the first block, at 0 ms and 5 ms, scheduled on the initial graph. -/
def twoInWindow : PdGraph Unit :=
  ((PdGraph.init 10 ()).scheduleMessage 7 0 (bangAt 1 0)).scheduleMessage 8 1 (bangAt 2 5)

/-- A message dated before the block start, then one at the block start, scheduled on the
initial graph; the world is an empty record of `sendMessage` calls. -/
def staleHead : PdGraph (List SendRecord) :=
  ((PdGraph.init 10 []).scheduleMessage 7 0 (bangAt 1 (-1))).scheduleMessage 8 0 (bangAt 2 0)

/-- A message at the block start and one at the start of the next block; the world is an
empty record of `sendMessage` calls. -/
def atBothEnds : PdGraph (List SendRecord) :=
  ((PdGraph.init 10 []).scheduleMessage 7 0 (bangAt 1 0)).scheduleMessage 8 0 (bangAt 2 10)

/-- The graph after one silent block (block start at 10 ms), on which a message dated 5 ms and
then a message dated 10 ms are scheduled. -/
def lateArrival : PdGraph (List SendRecord) :=
  (({ PdGraph.init 10 [] with blockStartTimestamp := 10 } : PdGraph (List SendRecord)).scheduleMessage
    7 0 (bangAt 1 5)).scheduleMessage 8 0 (bangAt 2 10)

/-- One message at 5 ms scheduled on the initial graph. -/
def oneAtFive : PdGraph Unit :=
  (PdGraph.init 10 ()).scheduleMessage 0 0 (bangAt 1 5)

/-- Two messages at 5 ms scheduled on the initial graph, at addresses 1 and 3. -/
def twoAtFive : PdGraph Unit :=
  ((PdGraph.init 10 ()).scheduleMessage 0 0 (bangAt 1 5)).scheduleMessage 0 0 (bangAt 3 5)

/-- A message scheduled on the initial graph and then cancelled. -/
def scheduledThenCancelled : PdGraph Unit :=
  ((PdGraph.init 10 ()).scheduleMessage 7 0 (bangAt 1 0)).cancelMessage 7 0 (bangAt 1 0)

/-- A message at 2 ms, at address 4, scheduled on the initial graph and then cancelled. -/
def reservedThenCancelled : PdGraph Unit :=
  ((PdGraph.init 10 ()).scheduleMessage 3 0 (bangAt 4 2)).cancelMessage 3 0 (bangAt 4 2)

/-! ## The deliveries of a call and what they do -/

/-- The world after `sendMessage` was called for the entries of a list, one after the other,
from the world `w`: for each entry, `message` is sent from outlet `index` of `object`. -/
def worldAfter {W : Type} (env : ObjectWorld W) : W → List MessageDestination → W
  | w, [] => w
  | w, d :: ds => worldAfter env (env.sendMessage w d.object d.index d.message).1 ds

/-- The calls into the graph that the objects make while `sendMessage` is called for the
entries of a list, one after the other, from the world `w`. -/
def callsDuring {W : Type} (env : ObjectWorld W) : W → List MessageDestination → List GraphCall
  | _, [] => []
  | w, d :: ds =>
    (env.sendMessage w d.object d.index d.message).2
      ++ callsDuring env (env.sendMessage w d.object d.index d.message).1 ds

/-- While a message with a timestamp in `[start, next)` is handled, nothing is scheduled
before `next`. -/
def SchedulesPastWindow {W : Type} (env : ObjectWorld W) (start next : ℚ) : Prop :=
  ∀ (w : W) (o : Nat) (i : Int) (m : MessageRef) (o' : Nat) (i' : Int) (m' : MessageRef),
    start ≤ m.getTimestamp → m.getTimestamp < next →
    GraphCall.scheduleMessage o' i' m' ∈ (env.sendMessage w o i m).2 → next ≤ m'.getTimestamp

/-- As `twoInWindow`, with an empty record of calls as the world. -/
def recordedTwoInWindow : PdGraph (List SendRecord) :=
  ((PdGraph.init 10 []).scheduleMessage 7 0 (bangAt 1 0)).scheduleMessage 8 1 (bangAt 2 5)

/-! ## Objects, connections and the registry of named channels

The objects of a patch live in a heap addressed by natural numbers; a pointer to an object is
its address.  A graph is itself an object.  The registries of named sends and receives and the
print sink belong to the root graph; a graph is given to the operations below by the number of
its ancestors (`0` for the root graph, for which `isRootGraph()` holds), its parent having one
ancestor less.
-/

/-- An `ObjectLetPair`: an object and the index of one of its inlets or outlets. -/
structure ObjectLetPair where
  object : Nat
  index : Int
  deriving DecidableEq

/-- The state of an object as `MessageObject.h` declares it, with the fields of `PdGraph` that
hold the objects of a graph (empty for an object that is no graph).  `label` is what
`getObjectLabel()` returns, `name` what `getName()` returns for a send or a receive, and
`processesAudio` what `doesProcessAudio()` returns.  Signal connections are kept in the same
lists as message connections.  `switched` is the switch of a graph, on from its construction. -/
structure MessageObject where
  label : String
  name : String
  processesAudio : Bool
  numMessageInlets : Nat
  numMessageOutlets : Nat
  incomingMessageConnectionsListAtInlet : Int → List ObjectLetPair
  outgoingMessageConnectionsListAtOutlet : Int → List ObjectLetPair
  isOrdered : Bool
  nodeList : List Nat
  dspNodeList : List Nat
  inletList : List Nat
  outletList : List Nat
  switched : Bool

/-- The objects of a patch and the state of its root graph that the named channels use:
the heap, the next free address, the registered receives and sends in the order of their
registration, the names of the print functions installed on the root graph, and the lines
printed so far (through the print functions or `printf`). -/
structure Patch where
  objects : Nat → MessageObject
  nextObject : Nat
  messageReceiveList : List Nat
  messageSendList : List Nat
  printErrFunction : String
  printStdFunction : String
  printed : List String

/-- The outcome of an operation that may dereference a null pointer: it returns a result and
leaves a patch, or it fails, and what was printed until then is all that is left. -/
inductive Run (α : Type) where
  | done (result : α) (st : Patch)
  | nullDereference (printed : List String)

/-- Modelled from the spec: `MessageObject::addConnectionFromObjectToInlet`, which records
(source object, source outlet) at the end of the incoming list of the inlet (`MessageObject.cpp`
is not among the sources). -/
def MessageObject.addConnectionFromObjectToInlet (self : MessageObject) (messageObject : Nat)
    (outletIndex inletIndex : Int) : MessageObject :=
  { self with
    incomingMessageConnectionsListAtInlet :=
      Function.update self.incomingMessageConnectionsListAtInlet inletIndex
        (self.incomingMessageConnectionsListAtInlet inletIndex ++ [⟨messageObject, outletIndex⟩]) }

/-- Modelled from the spec: `MessageObject::addConnectionToObjectFromOutlet`, which records
(destination object, destination inlet) at the end of the outgoing list of the outlet. -/
def MessageObject.addConnectionToObjectFromOutlet (self : MessageObject) (messageObject : Nat)
    (inletIndex outletIndex : Int) : MessageObject :=
  { self with
    outgoingMessageConnectionsListAtOutlet :=
      Function.update self.outgoingMessageConnectionsListAtOutlet outletIndex
        (self.outgoingMessageConnectionsListAtOutlet outletIndex ++ [⟨messageObject, inletIndex⟩]) }

/-- The body of `PdGraph::connect(MessageObject *, int, MessageObject *, int)`: first the
destination records the connection, then the source. -/
def Patch.connect (st : Patch) (fromObject : Nat) (outletIndex : Int) (toObject : Nat)
    (inletIndex : Int) : Patch :=
  let st1 : Patch :=
    { st with
      objects := Function.update st.objects toObject
        ((st.objects toObject).addConnectionFromObjectToInlet fromObject outletIndex inletIndex) }
  { st1 with
    objects := Function.update st1.objects fromObject
      ((st1.objects fromObject).addConnectionToObjectFromOutlet toObject inletIndex outletIndex) }

/-- Modelled from the spec: `List::get(index)`, the element at `index`, the null pointer when
there is none (class `List` is not among the sources; `PdGraph::process` tests the result of
`get` against `NULL`). -/
def listGet (list : List Nat) (index : Int) : Option Nat :=
  if index < 0 then none else list.get? index.toNat

/-- The body of `PdGraph::connect(int, int, int, int)` on the graph at address `graph`: both
objects are fetched from the node list by index and connected; nothing is tested, so a null
pointer fetched for an index outside the list is dereferenced. -/
def Patch.connectAt (st : Patch) (graph : Nat)
    (fromObjectIndex outletIndex toObjectIndex inletIndex : Int) : Run Unit :=
  let fromObject := listGet (st.objects graph).nodeList fromObjectIndex
  let toObject := listGet (st.objects graph).nodeList toObjectIndex
  match toObject, fromObject with
  | some t, some f => .done () (st.connect f outletIndex t inletIndex)
  | _, _ => .nullDereference st.printed

/-- The body of `PdGraph::printErr`: on every graph the line ends at the print sink of the
root graph. -/
def Patch.printErr (st : Patch) (msg : String) : Patch :=
  { st with printed := st.printed ++ [msg] }

/-- The body of `PdGraph::getMessageSend`: the first registered send with the given name. -/
def Patch.getMessageSend (st : Patch) (name : String) : Option Nat :=
  st.messageSendList.find? (fun messageSend => decide ((st.objects messageSend).name = name))

/-- The body of `PdGraph::registerMessageReceive` on a graph with `depth` ancestors. -/
def Patch.registerMessageReceive : Nat → Patch → Nat → Patch
  | 0, st, messageReceive =>
    let st1 : Patch := { st with messageReceiveList := st.messageReceiveList ++ [messageReceive] }
    match st1.getMessageSend (st1.objects messageReceive).name with
    | some messageSend => st1.connect messageSend 0 messageReceive 0
    | none => st1
  | depth + 1, st, messageReceive => Patch.registerMessageReceive depth st messageReceive

/-- The loop of `PdGraph::registerMessageSend` over the registered receives. -/
def Patch.connectToReceivers (messageSend : Nat) : List Nat → Patch → Patch
  | [], st => st
  | messageReceive :: rest, st =>
    if (st.objects messageReceive).name = (st.objects messageSend).name then
      Patch.connectToReceivers messageSend rest (st.connect messageSend 0 messageReceive 0)
    else Patch.connectToReceivers messageSend rest st

/-- The body of `PdGraph::registerMessageSend` on a graph with `depth` ancestors. -/
def Patch.registerMessageSend : Nat → Patch → Nat → Patch
  | 0, st, messageSend =>
    if (st.getMessageSend (st.objects messageSend).name).isSome then
      st.printErr "[send] object with duplicate name added to graph."
    else
      let st1 : Patch := { st with messageSendList := st.messageSendList ++ [messageSend] }
      Patch.connectToReceivers messageSend st1.messageReceiveList st1
  | depth + 1, st, messageSend => Patch.registerMessageSend depth st messageSend

/-- One `receiveMessage(inletIndex, message)` call on an object. -/
abbrev ReceiveCall := Nat × Int × PdMessage

/-- The loop of `PdGraph::dispatchMessageToNamedReceivers` over the registered receives;
`receiveMessage` is what the receiving object does to the world of the objects.  The calls made
are returned in order. -/
def Patch.dispatchLoop {W : Type} (receiveMessage : W → Nat → Int → PdMessage → W) (st : Patch)
    (name : String) (message : PdMessage) : List Nat → W → W × List ReceiveCall
  | [], w => (w, [])
  | messageReceive :: rest, w =>
    if (st.objects messageReceive).name = name then
      let r := Patch.dispatchLoop receiveMessage st name message rest
        (receiveMessage w messageReceive 0 message)
      (r.1, (messageReceive, 0, message) :: r.2)
    else Patch.dispatchLoop receiveMessage st name message rest w

/-- The body of `PdGraph::dispatchMessageToNamedReceivers` on a graph with `depth` ancestors.
On a graph that is not the root the function calls itself on the same graph.  `fuel` bounds the
depth of the calls; the result is `none` when it is used up. -/
def Patch.dispatchMessageToNamedReceivers {W : Type}
    (receiveMessage : W → Nat → Int → PdMessage → W) :
    Nat → Nat → Patch → String → PdMessage → W → Option (W × List ReceiveCall)
  | 0, _, _, _, _, _ => none
  | _ + 1, 0, st, name, message, w =>
    some (Patch.dispatchLoop receiveMessage st name message st.messageReceiveList w)
  | fuel + 1, depth + 1, st, name, message, w =>
    Patch.dispatchMessageToNamedReceivers receiveMessage fuel (depth + 1) st name message w

/-- An object without connections. -/
def MessageObject.plain (label name : String) (processesAudio : Bool) : MessageObject :=
  { label := label
    name := name
    processesAudio := processesAudio
    numMessageInlets := 2
    numMessageOutlets := 2
    incomingMessageConnectionsListAtInlet := fun _ => []
    outgoingMessageConnectionsListAtOutlet := fun _ => []
    isOrdered := false
    nodeList := []
    dspNodeList := []
    inletList := []
    outletList := []
    switched := true }

/-- A patch with the given heap and nothing registered or printed. -/
def Patch.ofObjects (objects : Nat → MessageObject) (nextObject : Nat) : Patch :=
  { objects := objects
    nextObject := nextObject
    messageReceiveList := []
    messageSendList := []
    printErrFunction := "defaultPrintFunction"
    printStdFunction := "defaultPrintFunction"
    printed := [] }

/-! ## Concrete patches -/

/-- A heap with two sends named `foo` at addresses 1 and 2, receives named `foo` at addresses
3 and 5, a receive named `bar` at address 4, and a graph at address 0 whose node list holds
the objects at addresses 1 and 3. -/
def channelObjects : Nat → MessageObject := fun a =>
  if a = 0 then { MessageObject.plain "pd" "" true with nodeList := [1, 3] }
  else if a = 1 then MessageObject.plain "send" "foo" false
  else if a = 2 then MessageObject.plain "send" "foo" false
  else if a = 3 then MessageObject.plain "receive" "foo" false
  else if a = 4 then MessageObject.plain "receive" "bar" false
  else if a = 5 then MessageObject.plain "receive" "foo" false
  else MessageObject.plain "" "" false

/-- The patch over `channelObjects` with nothing registered. -/
def channelPatch : Patch := Patch.ofObjects channelObjects 6

/-- The send at address 1 registered on `channelPatch`. -/
def oneSendRegistered : Patch := channelPatch.registerMessageSend 0 1

/-- The receives at addresses 3, 4 and 5 registered on `channelPatch`, in this order. -/
def threeReceivesRegistered : Patch :=
  ((channelPatch.registerMessageReceive 0 3).registerMessageReceive 0 4).registerMessageReceive 0 5

/-- A world that counts the `receiveMessage` calls made on its objects. -/
def countingReceive : Nat → Nat → Int → PdMessage → Nat := fun w _ _ _ => w + 1

/-- A world that is the record of the `receiveMessage` calls made on its objects: each call
adds the receiving object, the inlet index and the message at the end. -/
def recordingReceive : List ReceiveCall → Nat → Int → PdMessage → List ReceiveCall :=
  fun w messageReceive inletIndex message => w ++ [(messageReceive, inletIndex, message)]

/-- A registration call: `registerMessageSend` or `registerMessageReceive`, made on a graph
with `depth` ancestors for the object at the given address. -/
inductive RegistryCall where
  | registerMessageSend (depth : Nat) (messageSend : Nat)
  | registerMessageReceive (depth : Nat) (messageReceive : Nat)
  deriving DecidableEq

/-- The object a registration call registers. -/
def RegistryCall.object : RegistryCall → Nat
  | .registerMessageSend _ s => s
  | .registerMessageReceive _ r => r

/-- The sends registered by a sequence of calls, in order. -/
def registeredSends : List RegistryCall → List Nat
  | [] => []
  | .registerMessageSend _ s :: cs => s :: registeredSends cs
  | .registerMessageReceive _ _ :: cs => registeredSends cs

/-- The receives registered by a sequence of calls, in order. -/
def registeredReceives : List RegistryCall → List Nat
  | [] => []
  | .registerMessageSend _ _ :: cs => registeredReceives cs
  | .registerMessageReceive _ r :: cs => r :: registeredReceives cs

/-- Run a sequence of registration calls, in order. -/
def Patch.applyRegistryCalls (st : Patch) : List RegistryCall → Patch
  | [] => st
  | .registerMessageSend d s :: cs => (st.registerMessageSend d s).applyRegistryCalls cs
  | .registerMessageReceive d r :: cs => (st.registerMessageReceive d r).applyRegistryCalls cs

/-- How often the connection from outlet 0 of `a` to inlet 0 of `b` is recorded at `a`. -/
def Patch.outgoingCount (st : Patch) (a b : Nat) : Nat :=
  ((st.objects a).outgoingMessageConnectionsListAtOutlet 0).count ⟨b, 0⟩

/-- How often the connection from outlet 0 of `a` to inlet 0 of `b` is recorded at `b`. -/
def Patch.incomingCount (st : Patch) (a b : Nat) : Nat :=
  ((st.objects b).incomingMessageConnectionsListAtInlet 0).count ⟨a, 0⟩

/-- The sends `sends` and the receives `receives` are registered, every object has the name
`name` gives it, and among the pairs of objects under watch the connection from a registered
send to a registered receive of the same name is recorded once at both ends, every other one
not at all. -/
def Patch.Wired (st : Patch) (name : Nat → String) (watched : Nat → Nat → Prop)
    (sends receives : List Nat) : Prop :=
  st.messageSendList = sends ∧ st.messageReceiveList = receives
  ∧ (∀ a, (st.objects a).name = name a)
  ∧ (∀ a b, watched a b → st.outgoingCount a b
      = if a ∈ sends ∧ b ∈ receives ∧ name a = name b then 1 else 0)
  ∧ (∀ a b, watched a b → st.incomingCount a b
      = if a ∈ sends ∧ b ∈ receives ∧ name a = name b then 1 else 0)

/-- The sends `foo` (address 1) and the receives `foo`, `bar`, `foo` (addresses 3, 4, 5) of
`channelObjects`, registered from graphs of different depth with the send between the
receives. -/
def channelCalls : List RegistryCall :=
  [.registerMessageReceive 1 3, .registerMessageSend 0 1, .registerMessageReceive 2 4,
   .registerMessageReceive 0 5]

/-! ## The planner of the process order -/

/-- Modelled from the spec: `MessageObject::isLeafNode`: an object without outgoing connections,
or a send, a throw or an outlet of the graph, whatever its connections. -/
def MessageObject.isLeafNode (self : MessageObject) : Bool :=
  (List.range self.numMessageOutlets).all
      (fun i => (self.outgoingMessageConnectionsListAtOutlet (i : Int)).isEmpty)
    || decide (self.label ∈ ["send", "send~", "throw~", "outlet", "outlet~"])

/-- Modelled from the spec: `MessageObject::isRootNode`: an object without incoming
connections, or a receive, a catch or an inlet of the graph, whatever its connections. -/
def MessageObject.isRootNode (self : MessageObject) : Bool :=
  (List.range self.numMessageInlets).all
      (fun i => (self.incomingMessageConnectionsListAtInlet (i : Int)).isEmpty)
    || decide (self.label ∈ ["receive", "receive~", "catch~", "inlet", "inlet~"])

/-- The objects connected to the inlets of an object, inlet by inlet. -/
def MessageObject.upstream (self : MessageObject) : List Nat :=
  (List.range self.numMessageInlets).flatMap
    (fun i => (self.incomingMessageConnectionsListAtInlet (i : Int)).map (fun p => p.object))

/-- Set the flag `isOrdered` of the object at an address. -/
def Patch.setOrdered (st : Patch) (object : Nat) : Patch :=
  { st with
    objects := Function.update st.objects object ({ st.objects object with isOrdered := true }) }

/-- Visit the objects of a list in order with `visit`, and concatenate the lists returned. -/
def visitAll (visit : Nat → Patch → Option (List Nat × Patch)) :
    List Nat → Patch → Option (List Nat × Patch)
  | [], st => some ([], st)
  | object :: rest, st =>
    match visit object st with
    | none => none
    | some (l1, st1) =>
      match visitAll visit rest st1 with
      | none => none
      | some (l2, st2) => some (l1 ++ l2, st2)

/-- The body of `PdGraph::computeDspProcessOrder` for the graph at address `graph`, with
`visit` for `getProcessOrder`: collect the leaves of the node list, concatenate their process
orders, and fill `dspNodeList` from the end of that list to its start with the objects that
process audio; the evaluation order is printed. -/
def Patch.planWith (visit : Nat → Patch → Option (List Nat × Patch)) (graph : Nat)
    (st : Patch) : Option Patch :=
  let leafNodeList := (st.objects graph).nodeList.filter (fun o => (st.objects o).isLeafNode)
  match visitAll visit leafNodeList st with
  | none => none
  | some (processList, st1) =>
    let dspNodeList := processList.reverse.filter (fun o => (st1.objects o).processesAudio)
    some { st1 with
           objects := Function.update st1.objects graph
             ({ st1.objects graph with dspNodeList := dspNodeList })
           printed := st1.printed ++ ["--- ordered evaluation list ---\n"]
             ++ dspNodeList.map (fun o => (st1.objects o).label ++ "\n") }

/-- Modelled from the spec: `getProcessOrder` of an object.  An object already ordered returns
the empty list; an object met again while its own upstream walk is in progress (`path`) is
reported and returns the empty list; a root node returns itself; any other object first visits
every upstream object, then appends itself and sets `isOrdered`.  A graph (`PdGraph::
getProcessOrder`, which the sources hold) first computes the process order of its own objects.
`fuel` bounds the depth of the calls; the result is `none` when it is used up. -/
def Patch.getProcessOrder : Nat → List Nat → Nat → Patch → Option (List Nat × Patch)
  | 0, _, _, _ => none
  | fuel + 1, path, object, st =>
    match (if (st.objects object).label = "pd" then
            Patch.planWith (Patch.getProcessOrder fuel path) object st
          else some st) with
    | none => none
    | some st0 =>
      if (st0.objects object).isOrdered then some ([], st0)
      else if object ∈ path then
        some ([], st0.printErr "signal cycle: object is already being ordered")
      else if (st0.objects object).isRootNode then some ([object], st0.setOrdered object)
      else
        match visitAll (Patch.getProcessOrder fuel (object :: path))
            (st0.objects object).upstream st0 with
        | none => none
        | some (processList, st1) => some (processList ++ [object], st1.setOrdered object)

/-- The body of `PdGraph::computeDspProcessOrder` for the graph at address `graph`. -/
def Patch.computeDspProcessOrder (fuel : Nat) (graph : Nat) (st : Patch) : Option Patch :=
  Patch.planWith (Patch.getProcessOrder fuel []) graph st

/-- The position of an object in a list, when it is there. -/
def positionOf (object : Nat) (list : List Nat) : Option Nat :=
  if object ∈ list then some (list.indexOf object) else none

/-- A heap with a graph at address 0 that holds an oscillator (address 1), a multiplier
(address 2) and a converter to the audio output (address 3). -/
def chainObjects : Nat → MessageObject := fun a =>
  if a = 0 then { MessageObject.plain "pd" "" true with nodeList := [1, 2, 3] }
  else if a = 1 then MessageObject.plain "osc~" "" true
  else if a = 2 then MessageObject.plain "*~" "" true
  else if a = 3 then MessageObject.plain "dac~" "" true
  else MessageObject.plain "" "" false

/-- The chain `osc~` to `*~` to `dac~`: outlet 0 of each connected to inlet 0 of the next. -/
def chainPatch : Patch :=
  ((Patch.ofObjects chainObjects 4).connect 1 0 2 0).connect 2 0 3 0

/-- Everything the planner reads but the flags is the same in both patches: labels, audio
capability, inlets with their incoming connections, and node lists. -/
def Patch.SameWiring (st st' : Patch) : Prop :=
  ∀ x, (st'.objects x).label = (st.objects x).label
    ∧ (st'.objects x).processesAudio = (st.objects x).processesAudio
    ∧ (st'.objects x).numMessageInlets = (st.objects x).numMessageInlets
    ∧ (st'.objects x).incomingMessageConnectionsListAtInlet
        = (st.objects x).incomingMessageConnectionsListAtInlet
    ∧ (st'.objects x).nodeList = (st.objects x).nodeList

/-- What a walk of the planner from patch `st` to patch `st'` with the process order `l` keeps,
the objects of `path` being in progress: `l` holds no object twice; its objects were not
ordered before and are ordered now; an ordered object stays ordered; an object in progress
that was not ordered is not ordered now; the wiring is untouched. -/
def VisitSpec (path : List Nat) (st : Patch) (l : List Nat) (st' : Patch) : Prop :=
  l.Nodup
  ∧ (∀ x ∈ l, (st.objects x).isOrdered = false ∧ (st'.objects x).isOrdered = true)
  ∧ (∀ x, (st.objects x).isOrdered = true → (st'.objects x).isOrdered = true)
  ∧ (∀ x ∈ path, (st.objects x).isOrdered = false → (st'.objects x).isOrdered = false)
  ∧ st.SameWiring st'

/-- Every returning call of `visit` meets `VisitSpec`. -/
def GoodVisit (visit : Nat → Patch → Option (List Nat × Patch)) (path : List Nat) : Prop :=
  ∀ (o : Nat) (st : Patch) (l : List Nat) (st' : Patch),
    visit o st = some (l, st') → VisitSpec path st l st'

/-- The number of objects of `reach` that are neither ordered nor in progress. -/
def Patch.unvisited (st : Patch) (reach path : List Nat) : Nat :=
  reach.countP (fun x => !(st.objects x).isOrdered && !decide (x ∈ path))

/-- The list `reach` holds every object the planner can reach from it: the upstream objects
of its objects and the nodes of its graphs; `rank` falls from a graph to its nodes and is at
most `bound`. -/
def Patch.Closed (st : Patch) (reach : List Nat) (rank : Nat → Nat) (bound : Nat) : Prop :=
  (∀ o ∈ reach, ∀ u ∈ (st.objects o).upstream, u ∈ reach)
  ∧ (∀ o ∈ reach, (st.objects o).label = "pd" →
      ∀ n ∈ (st.objects o).nodeList, n ∈ reach ∧ rank n < rank o)
  ∧ (∀ o ∈ reach, rank o ≤ bound)

/-! ## Construction of a graph from the records of a patch file -/

/-- A record of a patch file, with the tokens that select its kind already read: the hash type
(`#N`, `#X` or another) and the object type. -/
inductive PdRecord where
  | canvas
  | hashN (objectType : String)
  | obj (objectLabel objectInitString : String)
  | msg (objectInitString : String)
  | connect (fromObjectIndex outletIndex toObjectIndex inletIndex : Int)
  | floatatom
  | symbolatom
  | restore
  | text
  | declare
  | hashX (objectType : String)
  | other (hashType : String)
  deriving DecidableEq

/-- What the construction of a graph takes from outside the sources at hand:
`StaticUtils::isNumeric`, `StaticUtils::joinPaths`, the records that `PdFileParser::nextMessage`
returns one after the other for the file at a path (none for a file that cannot be read), and
the object that `new` builds for an object label and an initialisation string. -/
structure PdEnvironment where
  isNumeric : String → Bool
  joinPaths : String → String → String
  readFile : String → List PdRecord
  construct : String → String → MessageObject

/-- The labels that the chain of comparisons in `PdGraph::newObject` recognises. -/
def recognisedLabels : List String :=
  ["+", "-", "*", "/", "pow", "powtodb", "dbtopow", "log", "sqrt", ">", ">=", "<", "<=", "==",
   "!=", "abs", "atan", "atan2", "bang", "bng", "change", "cos", "delay", "exp", "float", "f",
   "inlet", "int", "loadbang", "metro", "pipe", "print", "outlet", "random", "receive", "r",
   "send", "s", "sin", "tan", "+~", "*~", "adc~", "dac~", "noise~", "osc~"]

/-- Whether `PdGraph::newObject` builds an object for the label of an `obj` record. -/
def PdEnvironment.recognises (env : PdEnvironment) (objectLabel : String) : Bool :=
  decide (objectLabel ∈ recognisedLabels) || env.isNumeric objectLabel

/-- The body of `PdGraph::newObject` for the object type `obj`: the object built for a
recognised label, or the null pointer after the error is printed. -/
def Patch.newObject (env : PdEnvironment) (st : Patch) (objectLabel objectInitString : String) :
    Option MessageObject × Patch :=
  if env.recognises objectLabel then (some (env.construct objectLabel objectInitString), st)
  else (none, st.printErr "Object not recognised.\n")

/-- Put a new object on the heap (`new`): its address and the patch that holds it. -/
def Patch.allocate (st : Patch) (object : MessageObject) : Nat × Patch :=
  (st.nextObject,
    { st with
      objects := Function.update st.objects st.nextObject object
      nextObject := st.nextObject + 1 })

/-- `nodeList->add(node)` on the graph at address `graph`. -/
def Patch.addNode (st : Patch) (graph node : Nat) : Patch :=
  { st with
    objects := Function.update st.objects graph
      ({ st.objects graph with nodeList := (st.objects graph).nodeList ++ [node] }) }

/-- `dspNodeList->add(node)` on the graph at address `graph`. -/
def Patch.addDspNode (st : Patch) (graph node : Nat) : Patch :=
  { st with
    objects := Function.update st.objects graph
      ({ st.objects graph with dspNodeList := (st.objects graph).dspNodeList ++ [node] }) }

/-- `inletList->add(node)` on the graph at address `graph`. -/
def Patch.addInlet (st : Patch) (graph node : Nat) : Patch :=
  { st with
    objects := Function.update st.objects graph
      ({ st.objects graph with inletList := (st.objects graph).inletList ++ [node] }) }

/-- `outletList->add(node)` on the graph at address `graph`. -/
def Patch.addOutlet (st : Patch) (graph node : Nat) : Patch :=
  { st with
    objects := Function.update st.objects graph
      ({ st.objects graph with outletList := (st.objects graph).outletList ++ [node] }) }

/-- The body of `PdGraph::addObject` on the graph at address `graph`, which has `depth`
ancestors. -/
def Patch.addObject (st : Patch) (depth graph node : Nat) : Patch :=
  let st1 := st.addNode graph node
  if (st1.objects node).label = "inlet" then st1.addInlet graph node
  else if (st1.objects node).label = "outlet" then st1.addOutlet graph node
  else if (st1.objects node).label = "send" then st1.registerMessageSend depth node
  else if (st1.objects node).label = "receive" then st1.registerMessageReceive depth node
  else st1

/-- The graph object at the start of the constructor `PdGraph::PdGraph`: a signal object with
16 inlets and outlets, labelled `pd`, with empty lists. -/
def newGraphObject : MessageObject :=
  { label := "pd"
    name := ""
    processesAudio := true
    numMessageInlets := 16
    numMessageOutlets := 16
    incomingMessageConnectionsListAtInlet := fun _ => []
    outgoingMessageConnectionsListAtOutlet := fun _ => []
    isOrdered := false
    nodeList := []
    dspNodeList := []
    inletList := []
    outletList := []
    switched := true }

/-- The body of `PdGraph::setPrintErr` followed by that of `PdGraph::setPrintStd`: on every
graph the functions end up installed on the root graph. -/
def Patch.setPrintFunctions (st : Patch) (printFunction : String) : Patch :=
  { st with printErrFunction := printFunction, printStdFunction := printFunction }

/-- The start of the constructor `PdGraph::PdGraph` for a graph with `depth` ancestors, up to
the loop over the records: the graph object is put on the heap, the print functions are set,
and a root graph gets empty registries.  Graph ids and arguments, audio buffers and the
scheduler queue are left out. -/
def Patch.enterGraph (st : Patch) (depth : Nat) : Nat × Patch :=
  let r := st.allocate newGraphObject
  let st1 := r.2.setPrintFunctions "defaultPrintFunction"
  (r.1, if depth = 0 then { st1 with messageReceiveList := [], messageSendList := [] } else st1)

mutual

/-- The loop over the records in the constructor `PdGraph::PdGraph` of the graph at address
`graph`, which has `depth` ancestors.  `records` is what the parser has yet to return and
`handled` what this loop has read so far.  The result holds the records the loop has read and
those it has left to the parser.  `fuel` bounds the number of loop tests and nested calls; the
result is `none` when it is used up. -/
def Patch.parseRecords (env : PdEnvironment) (directory libraryDirectory : String)
    (fuel depth graph : Nat) (records handled : List PdRecord) (st : Patch) :
    Option (Run (List PdRecord × List PdRecord)) :=
  match fuel with
  | 0 => none
  | fuel + 1 =>
    match records with
    | [] => some (.done (handled, []) st)
    | record :: rest =>
      match record with
      | .canvas =>
        match Patch.newGraph env directory libraryDirectory fuel (depth + 1) rest st with
        | none => none
        | some (.nullDereference printed) => some (.nullDereference printed)
        | some (.done (child, _, rest') st1) =>
          Patch.parseRecords env directory libraryDirectory fuel depth graph rest'
            (handled ++ [record]) ((st1.addNode graph child).addDspNode graph child)
      | .hashN _ =>
        Patch.parseRecords env directory libraryDirectory fuel depth graph rest
          (handled ++ [record]) (st.printErr "WARNING | Unrecognised #N object type")
      | .obj objectLabel objectInitString =>
        match st.newObject env objectLabel objectInitString with
        | (some object, st1) =>
          let r := st1.allocate object
          Patch.parseRecords env directory libraryDirectory fuel depth graph rest
            (handled ++ [record]) (r.2.addObject depth graph r.1)
        | (none, st1) =>
          let filename := env.joinPaths objectInitString ".pd"
          match Patch.newInstance env fuel directory filename libraryDirectory (depth + 1)
              st1 with
          | none => none
          | some (.nullDereference printed) => some (.nullDereference printed)
          | some (.done (some pdNode) st2) =>
            Patch.parseRecords env directory libraryDirectory fuel depth graph rest
              (handled ++ [record]) ((st2.addNode graph pdNode).addDspNode graph pdNode)
          | some (.done none st2) =>
            match Patch.newInstance env fuel libraryDirectory filename libraryDirectory
                (depth + 1) st2 with
            | none => none
            | some (.nullDereference printed) => some (.nullDereference printed)
            | some (.done (some pdNode) st3) =>
              Patch.parseRecords env directory libraryDirectory fuel depth graph rest
                (handled ++ [record]) ((st3.addNode graph pdNode).addDspNode graph pdNode)
            | some (.done none st3) =>
              some (.done (handled ++ [record], rest)
                (st3.printErr "ERROR | Unknown object or abstraction"))
      | .msg objectInitString =>
        let r := st.allocate (env.construct "msg" objectInitString)
        Patch.parseRecords env directory libraryDirectory fuel depth graph rest
          (handled ++ [record]) (r.2.addObject depth graph r.1)
      | .connect fromObjectIndex outletIndex toObjectIndex inletIndex =>
        match st.connectAt graph fromObjectIndex outletIndex toObjectIndex inletIndex with
        | .nullDereference printed => some (.nullDereference printed)
        | .done _ st1 =>
          Patch.parseRecords env directory libraryDirectory fuel depth graph rest
            (handled ++ [record]) st1
      | .floatatom =>
        let r := st.allocate (env.construct "float" "0.0")
        Patch.parseRecords env directory libraryDirectory fuel depth graph rest
          (handled ++ [record]) (r.2.addNode graph r.1)
      | .symbolatom =>
        Patch.parseRecords env directory libraryDirectory fuel depth graph rest
          (handled ++ [record]) st
      | .restore => some (.done (handled ++ [record], rest) st)
      | .text =>
        Patch.parseRecords env directory libraryDirectory fuel depth graph rest
          (handled ++ [record]) st
      | .declare =>
        Patch.parseRecords env directory libraryDirectory fuel depth graph rest
          (handled ++ [record]) st
      | .hashX _ =>
        Patch.parseRecords env directory libraryDirectory fuel depth graph rest
          (handled ++ [record]) (st.printErr "WARNING | Unrecognised #X object type on line")
      | .other _ =>
        Patch.parseRecords env directory libraryDirectory fuel depth graph rest
          (handled ++ [record]) (st.printErr "WARNING | Unrecognised hash type on line")
termination_by structural fuel

/-- The constructor `PdGraph::PdGraph` for a graph with `depth` ancestors, reading from a
parser that has `records` left.  The result holds the address of the graph, the records its
loop has read, and the records left to the parser. -/
def Patch.newGraph (env : PdEnvironment) (directory libraryDirectory : String)
    (fuel depth : Nat) (records : List PdRecord) (st : Patch) :
    Option (Run (Nat × List PdRecord × List PdRecord)) :=
  match fuel with
  | 0 => none
  | fuel + 1 =>
    match Patch.parseRecords env directory libraryDirectory fuel depth (st.enterGraph depth).1
        records [] (st.enterGraph depth).2 with
    | none => none
    | some (.nullDereference printed) => some (.nullDereference printed)
    | some (.done (handled, rest) st1) => some (.done ((st.enterGraph depth).1, handled, rest) st1)
termination_by structural fuel

/-- The body of `PdGraph::newInstance` for a graph with `depth` ancestors: the first record of
the file has to be a canvas; the graph is built from the records that follow.  Whether a graph
was built or not, `computeDspProcessOrder` is then called through the pointer to the graph. -/
def Patch.newInstance (env : PdEnvironment) (fuel : Nat)
    (directory filename libraryDirectory : String) (depth : Nat) (st : Patch) :
    Option (Run (Option Nat)) :=
  match fuel with
  | 0 => none
  | fuel + 1 =>
    match env.readFile (env.joinPaths directory filename) with
    | .canvas :: rest =>
      match Patch.newGraph env directory libraryDirectory fuel depth rest st with
      | none => none
      | some (.nullDereference printed) => some (.nullDereference printed)
      | some (.done (pdGraph, _, _) st1) =>
        match st1.computeDspProcessOrder fuel pdGraph with
        | none => none
        | some st2 => some (.done (some pdGraph) st2)
    | _ =>
      some (.nullDereference
        (st.printErr
          "WARNING | The first line of the pd file does not define a canvas").printed)
termination_by structural fuel

end

/-- The label `getObjectLabel()` returns for the class chosen for an object label: the short
forms and the numbers stand for the classes of `bang`, `float`, `receive` and `send`. -/
def classLabel (isNumeric : String → Bool) (objectLabel : String) : String :=
  if objectLabel = "bng" then "bang"
  else if objectLabel = "f" then "float"
  else if objectLabel = "r" then "receive"
  else if objectLabel = "s" then "send"
  else if isNumeric objectLabel then "float"
  else objectLabel

/-- An environment with three files.  `main.pd` holds a canvas with a declare record, two
objects and a connection between them; `broken.pd` holds a canvas with an object of an unknown
label followed by an adder; `headless.pd` holds an adder and no canvas.  Every other file
cannot be read. -/
def sampleEnvironment : PdEnvironment :=
  { isNumeric := fun _ => false
    joinPaths := fun a b => a ++ "/" ++ b
    readFile := fun path =>
      if path = "patches/main.pd" then
        [.canvas, .declare, .obj "+" "1", .obj "print" "", .connect 0 0 1 0]
      else if path = "patches/broken.pd" then
        [.canvas, .obj "foo" "1", .obj "+" "1"]
      else if path = "patches/headless.pd" then
        [.obj "+" "1"]
      else []
    construct := fun objectLabel objectInitString =>
      MessageObject.plain (classLabel (fun _ => false) objectLabel) objectInitString
        (decide (objectLabel ∈ ["+~", "*~", "adc~", "dac~", "noise~", "osc~"])) }

/-- The patch before anything is built: no object, nothing registered or printed. -/
def emptyPatch : Patch := Patch.ofObjects (fun _ => MessageObject.plain "" "" false) 0

/-- Patch `st'` holds the objects of patch `st` with their labels and node lists, and maybe
more objects. -/
def Patch.Extends (st st' : Patch) : Prop :=
  st.nextObject ≤ st'.nextObject
  ∧ ∀ a, a < st.nextObject → (st'.objects a).label = (st.objects a).label
      ∧ (st'.objects a).nodeList = (st.objects a).nodeList

/-- Modelled from the spec: `PdMessage::getNumElements`, the number of elements of the
message. -/
def PdMessage.getNumElements (m : PdMessage) : Nat := m.elements.length

/-- Modelled from the spec: `PdMessage::getType(index)`, the type tag of the element at
`index`.  The objects below read it for indices under the number of elements only; for any
other index the tag is `ANYTHING` here. -/
def PdMessage.getType (m : PdMessage) (index : Nat) : MessageElementType :=
  match m.getElement index with
  | some e => e.getType
  | none => .ANYTHING

/-- Modelled from the spec: `PdMessage::getSymbol(index)`, the symbol stored at `index` (the
empty string when the element is no symbol). -/
def PdMessage.getSymbol (m : PdMessage) (index : Nat) : String :=
  match m.getElement index with
  | some (.symbol s) => s
  | _ => ""

/-- Modelled from the spec: `PdMessage::setSymbol(index, symbol)`, which makes the element at
`index` the given symbol and leaves the timestamp and the other elements as they are. -/
def PdMessage.setSymbol (m : PdMessage) (index : Nat) (symbol : String) : PdMessage :=
  { m with elements := m.elements.take index ++ [.symbol symbol] ++ m.elements.drop (index + 1) }

/-- Modelled from the spec: `PdMessage::setTimestamp`, which writes the timestamp only. -/
def PdMessage.setTimestamp (m : PdMessage) (timestamp : ℚ) : PdMessage :=
  { m with timestamp := timestamp }

/-- The state of an `unpack` object: its template, whose element types are the types of the
outlets. -/
structure MessageUnpack where
  templateMessage : PdMessage

/-- A call made by `MessageUnpack::processMessage`: `sendMessage(outletIndex, message)`, or
`graph->printErr` with the type mismatch message, which names the type expected and the type
got; `slot` is the index of the pass of the loop that made the call. -/
inductive UnpackCall where
  | sendMessage (outletIndex : Int) (message : PdMessage)
  | printErr (slot : Nat) (expected got : MessageElementType)
  deriving DecidableEq

/-- The body of the loop of `MessageUnpack::processMessage` for the index `i`.  `stackBuffer i`
is what the buffer of `PD_MESSAGE_ON_STACK(1)` holds in this pass before anything is written to
it, and `pool i` the message that `getNextOutgoingMessage(i)` returns. -/
def MessageUnpack.processSlot (self : MessageUnpack) (stackBuffer : Nat → PdMessage)
    (pool : Nat → PdMessage) (message : PdMessage) (i : Nat) : List UnpackCall :=
  let elementType := self.templateMessage.getType i
  if elementType = message.getType i ∨ elementType = .ANYTHING then
    match elementType with
    | .FLOAT =>
      [.sendMessage i
        (PdMessage.initWithTimestampAndFloat message.getTimestamp (message.getFloat i))]
    | .SYMBOL =>
      [.sendMessage i
        (((pool i).setSymbol 0 (message.getSymbol i)).setTimestamp message.getTimestamp)]
    | .ANYTHING =>
      let outgoingMessage := stackBuffer i
      [.sendMessage i
        (match message.getType i with
         | .FLOAT =>
           PdMessage.initWithTimestampAndFloat message.getTimestamp (message.getFloat i)
         | .SYMBOL => outgoingMessage.setSymbol 0 (message.getSymbol i)
         | _ => outgoingMessage)]
    | _ => []
  else [.printErr i elementType (message.getType i)]

/-- The loop `for (int i = numElements-1; i >= 0; i--)` of `MessageUnpack::processMessage`,
with `numElements` passes left. -/
def MessageUnpack.slotLoop (self : MessageUnpack) (stackBuffer : Nat → PdMessage)
    (pool : Nat → PdMessage) (message : PdMessage) : Nat → List UnpackCall
  | 0 => []
  | i + 1 =>
    self.processSlot stackBuffer pool message i
      ++ MessageUnpack.slotLoop self stackBuffer pool message i

/-- The body of `MessageUnpack::processMessage`: the calls it makes, in order.  The inlet index
is not read. -/
def MessageUnpack.processMessage (self : MessageUnpack) (stackBuffer : Nat → PdMessage)
    (pool : Nat → PdMessage) (_inletIndex : Int) (message : PdMessage) : List UnpackCall :=
  let numElements :=
    if self.templateMessage.getNumElements < message.getNumElements then
      self.templateMessage.getNumElements
    else message.getNumElements
  self.slotLoop stackBuffer pool message numElements

/-- The `sendMessage` calls among the calls of an unpack object, in order. -/
def UnpackCall.emissions : List UnpackCall → List Emission
  | [] => []
  | .sendMessage outletIndex message :: cs => (outletIndex, message) :: UnpackCall.emissions cs
  | .printErr _ _ _ :: cs => UnpackCall.emissions cs

/-- The errors logged by the pass for the index `slot`, in order. -/
def UnpackCall.errorsOf (slot : Nat) :
    List UnpackCall → List (MessageElementType × MessageElementType)
  | [] => []
  | .sendMessage _ _ :: cs => UnpackCall.errorsOf slot cs
  | .printErr i expected got :: cs =>
    if i = slot then (expected, got) :: UnpackCall.errorsOf slot cs
    else UnpackCall.errorsOf slot cs

/-- An unpack object with the template `f s`: a float slot and a symbol slot. -/
def unpackFloatSymbol : MessageUnpack :=
  { templateMessage := { timestamp := 0, elements := [.float 0, .symbol ""] } }

/-- An unpack object built without arguments: two slots of type anything. -/
def unpackAnything : MessageUnpack :=
  { templateMessage := { timestamp := 0, elements := [.anything, .anything] } }

/-- The state of a `pow` object: the exponent. -/
structure MessagePow where
  constant : ℚ
  deriving DecidableEq

/-- The body of `MessagePow::processMessage`: the new state, the incoming message as the call
leaves it, and the messages sent.  `powf` is the function of the C library, and `stackBuffer`
what the buffer of `PD_MESSAGE_ON_STACK(1)` holds before anything is written to it. -/
def MessagePow.processMessage (powf : ℚ → ℚ → ℚ) (stackBuffer : PdMessage) (self : MessagePow)
    (inletIndex : Int) (message : PdMessage) : MessagePow × PdMessage × List Emission :=
  if inletIndex = 0 then
    if message.isFloat 0 then
      let outgoingMessage := stackBuffer
      let value :=
        if message.getFloat 0 ≤ 0 then 0 else powf (message.getFloat 0) self.constant
      (self, PdMessage.initWithTimestampAndFloat message.getTimestamp value,
        [(0, outgoingMessage)])
    else (self, message, [])
  else if inletIndex = 1 then
    if message.isFloat 0 then ({ self with constant := message.getFloat 0 }, message, [])
    else (self, message, [])
  else (self, message, [])

/-! ## Successive blocks -/

/-- The queue is in the order of its timestamps. -/
def PdGraph.QueueSorted {W : Type} (g : PdGraph W) : Prop :=
  g.messageCallbackQueue.Pairwise
    (fun a b => a.message.getTimestamp ≤ b.message.getTimestamp)

/-- The host calls `PdGraph::process` for `n` blocks in a row, nothing else touching the graph
in between: the final graph and the deliveries of all the calls, in order. -/
def PdGraph.processBlocks {W : Type} (env : ObjectWorld W) (fuel : Nat) :
    Nat → PdGraph W → Option (PdGraph W × List MessageDestination)
  | 0, g => some (g, [])
  | n + 1, g =>
    match g.process env fuel with
    | none => none
    | some (g1, delivered1) =>
      match PdGraph.processBlocks env fuel n g1 with
      | none => none
      | some (g2, delivered2) => some (g2, delivered1 ++ delivered2)

/-! ## The audio pass of a graph and the operations that end at the root -/

/-- The body of `PdGraph::setSwitch` on the graph at address `graph`. -/
def Patch.setSwitch (st : Patch) (graph : Nat) (switched : Bool) : Patch :=
  { st with
    objects := Function.update st.objects graph ({ st.objects graph with switched := switched }) }

/-- The body of `PdGraph::isSwitchedOn` on the graph at address `graph`. -/
def Patch.isSwitchedOn (st : Patch) (graph : Nat) : Bool := (st.objects graph).switched

/-- The loop of `PdGraph::processDsp` over the signal list, from index 0 upwards;
`objectProcessDsp` is what `processDsp()` of an object does to the world of the objects.  The
objects called are returned in the order of the calls. -/
def Patch.dspLoop {W : Type} (objectProcessDsp : W → Nat → W) : List Nat → W → W × List Nat
  | [], w => (w, [])
  | dspObject :: rest, w =>
    let r := Patch.dspLoop objectProcessDsp rest (objectProcessDsp w dspObject)
    (r.1, dspObject :: r.2)

/-- The body of `PdGraph::processDsp` on the graph at address `graph`: the world after the
pass and the objects whose `processDsp()` was called, in order. -/
def Patch.processDsp {W : Type} (objectProcessDsp : W → Nat → W) (st : Patch) (graph : Nat)
    (w : W) : W × List Nat :=
  if (st.objects graph).switched then
    Patch.dspLoop objectProcessDsp (st.objects graph).dspNodeList w
  else (w, [])

/-- The chain patch with the oscillator and the multiplier in the signal list of its graph. -/
def twoDspNodes : Patch := (chainPatch.addDspNode 0 1).addDspNode 0 2

/-- The fields of the root graph behind `getGlobalDspBufferAtInlet` and
`getGlobalDspBufferAtOutlet`: the addresses of the two global buffers, counted in samples, and
the block size of the root graph. -/
structure GlobalDspBuffers where
  globalDspInputBuffers : Int
  globalDspOutputBuffers : Int
  blockSize : Int

/-- The body of `PdGraph::scheduleMessage` on a graph given by the states of the graphs from
itself up to, but without, the root (`chain`, empty for the root graph itself) and the
scheduler state of the root: the states of the chain and of the root after the call. -/
def PdGraph.scheduleMessageAt {W L : Type} (g : PdGraph W) :
    List L → Nat → Int → MessageRef → List L × PdGraph W
  | [], messageObject, outletIndex, message =>
    ([], g.scheduleMessage messageObject outletIndex message)
  | self :: parents, messageObject, outletIndex, message =>
    let r := PdGraph.scheduleMessageAt g parents messageObject outletIndex message
    (self :: r.1, r.2)

/-- The body of `PdGraph::cancelMessage` on a graph given as in `scheduleMessageAt`. -/
def PdGraph.cancelMessageAt {W L : Type} (g : PdGraph W) :
    List L → Nat → Int → MessageRef → List L × PdGraph W
  | [], messageObject, outletIndex, message =>
    ([], g.cancelMessage messageObject outletIndex message)
  | self :: parents, messageObject, outletIndex, message =>
    let r := PdGraph.cancelMessageAt g parents messageObject outletIndex message
    (self :: r.1, r.2)

/-- The body of `PdGraph::getGlobalDspBufferAtInlet` on a graph given by the states of the
graphs from itself up to, but without, the root: the address returned. -/
def GlobalDspBuffers.getGlobalDspBufferAtInlet {L : Type} (root : GlobalDspBuffers) :
    List L → Int → Int
  | [], inletIndex => root.globalDspInputBuffers + inletIndex * root.blockSize
  | _ :: parents, inletIndex => GlobalDspBuffers.getGlobalDspBufferAtInlet root parents inletIndex

/-- The body of `PdGraph::getGlobalDspBufferAtOutlet` on a graph given by the states of the
graphs from itself up to, but without, the root: the address returned. -/
def GlobalDspBuffers.getGlobalDspBufferAtOutlet {L : Type} (root : GlobalDspBuffers) :
    List L → Int → Int
  | [], outletIndex => root.globalDspOutputBuffers + outletIndex * root.blockSize
  | _ :: parents, outletIndex =>
    GlobalDspBuffers.getGlobalDspBufferAtOutlet root parents outletIndex

/-! ## The print sinks -/

/-- The body of `PdGraph::setPrintErr` on a graph with `depth` ancestors. -/
def Patch.setPrintErr : Nat → Patch → String → Patch
  | 0, st, printFunction => { st with printErrFunction := printFunction }
  | depth + 1, st, printFunction => Patch.setPrintErr depth st printFunction

/-- The body of `PdGraph::setPrintStd` on a graph with `depth` ancestors. -/
def Patch.setPrintStd : Nat → Patch → String → Patch
  | 0, st, printFunction => { st with printStdFunction := printFunction }
  | depth + 1, st, printFunction => Patch.setPrintStd depth st printFunction

/-- The print sinks installed on the root graph: the one for errors and the standard one. -/
def Patch.sinks (st : Patch) : String × String := (st.printErrFunction, st.printStdFunction)

/-- From patch `st` to patch `st'` the print sinks were kept, or set to the default print
function. -/
def Patch.SinksKeptOrDefault (st st' : Patch) : Prop :=
  st'.sinks = st.sinks ∨ st'.sinks = ("defaultPrintFunction", "defaultPrintFunction")

/-- A root graph without objects on which the host has installed its own print sinks. -/
def hostPatch : Patch :=
  ((emptyPatch.enterGraph 0).2.setPrintErr 0 "hostPrintErr").setPrintStd 0 "hostPrintStd"

end ZenGarden

namespace ZenGarden

/-- C1: a float `v` at inlet 0 of a moses object with threshold `c` makes it send exactly one
message, the single float `v` with the incoming timestamp, from outlet 0 when `v < c` and from
outlet 1 when `c ≤ v`; with `c = 10` the inputs 3, 10, 15 leave 3 on the left and 10, 15 on
the right. -/
theorem moses_splits_at_threshold :
    (∀ (c v ts : ℚ) (rest : List MessageElement),
      ((MessageMoses.mk c).processMessage 0 ⟨ts, .float v :: rest⟩).2
          = [(if v < c then 0 else 1, ⟨ts, [.float v]⟩)]
      ∧ (v < c → ((MessageMoses.mk c).processMessage 0 ⟨ts, .float v :: rest⟩).2
          = [(0, ⟨ts, [.float v]⟩)])
      ∧ (c ≤ v → ((MessageMoses.mk c).processMessage 0 ⟨ts, .float v :: rest⟩).2
          = [(1, ⟨ts, [.float v]⟩)]))
    ∧ (∀ ts : ℚ,
        emissionsAt 0 ((MessageMoses.mk 10).feed [⟨ts, [.float 3]⟩, ⟨ts, [.float 10]⟩, ⟨ts, [.float 15]⟩])
          = [⟨ts, [.float 3]⟩]
        ∧ emissionsAt 1 ((MessageMoses.mk 10).feed [⟨ts, [.float 3]⟩, ⟨ts, [.float 10]⟩, ⟨ts, [.float 15]⟩])
          = [⟨ts, [.float 10]⟩, ⟨ts, [.float 15]⟩]) := by
  refine ⟨?_, ?_⟩
  · intro c v ts rest
    have hf : (PdMessage.mk ts (.float v :: rest)).isFloat 0 = true := rfl
    have hg : (PdMessage.mk ts (.float v :: rest)).getFloat 0 = v := rfl
    refine ⟨?_, ?_, ?_⟩
    · by_cases h : v < c <;>
        simp [MessageMoses.processMessage, hf, hg, h, PdMessage.initWithTimestampAndFloat,
          PdMessage.getTimestamp]
    · intro h
      simp [MessageMoses.processMessage, hf, hg, h, PdMessage.initWithTimestampAndFloat,
        PdMessage.getTimestamp]
    · intro h
      simp [MessageMoses.processMessage, hf, hg, not_lt.mpr h,
        PdMessage.initWithTimestampAndFloat, PdMessage.getTimestamp]
  · intro ts
    have hf : ∀ v : ℚ, (PdMessage.mk ts [.float v]).isFloat 0 = true := fun _ => rfl
    have hg : ∀ v : ℚ, (PdMessage.mk ts [.float v]).getFloat 0 = v := fun _ => rfl
    constructor <;>
      simp [MessageMoses.feed, MessageMoses.processMessage, hf, hg, emissionsAt,
        PdMessage.initWithTimestampAndFloat, PdMessage.getTimestamp] <;> norm_num

/-! ## The sample loop of the multiplier -/

/-- With enough iterations the loop writes `body j` at every index from `i` up to, and not
including, `blockIndexInt`, and nothing else. -/
theorem sampleLoop_apply (body : Int → ℚ) (blockIndexInt : Int) (j : Int) :
    ∀ (n : Nat) (i : Int) (outputBuffer : DspBuffer), blockIndexInt - i ≤ n →
      sampleLoop body blockIndexInt n i outputBuffer j
        = if i ≤ j ∧ j < blockIndexInt then body j else outputBuffer j := by
  intro n
  induction n with
  | zero =>
    intro i outputBuffer h
    have : ¬ (i ≤ j ∧ j < blockIndexInt) := by omega
    simp [sampleLoop, this]
  | succ n ih =>
    intro i outputBuffer h
    unfold sampleLoop
    by_cases hi : i < blockIndexInt
    · rw [if_pos hi, ih (i + 1) _ (by omega)]
      by_cases hj : j = i
      · subst hj
        have h1 : ¬ (j + 1 ≤ j ∧ j < blockIndexInt) := by omega
        simp [h1, hi]
      · by_cases hr : i ≤ j ∧ j < blockIndexInt
        · have h1 : i + 1 ≤ j ∧ j < blockIndexInt := by omega
          simp [h1, hr]
        · have h1 : ¬ (i + 1 ≤ j ∧ j < blockIndexInt) := by omega
          simp [h1, hr, Function.update_noteq hj]
    · have hr : ¬ (i ≤ j ∧ j < blockIndexInt) := by omega
      simp [hi, hr]

/-- The outlet buffer after `processDspToIndex`, sample by sample. -/
theorem processDspToIndex_out (s : DspMultiply) (b : ℚ) (j : Int) :
    (s.processDspToIndex b).localDspBufferAtOutlet0 j
      = if ⌈s.blockIndexOfLastMessage⌉ ≤ j ∧ j < ⌊b⌋ then
          (match s.signalPrecedence with
            | .DSP_DSP => s.localDspBufferAtInlet0 j * s.localDspBufferAtInlet1 j
            | .DSP_MESSAGE => s.localDspBufferAtInlet0 j * s.constant
            | .MESSAGE_DSP => s.localDspBufferAtOutlet0 j
            | .MESSAGE_MESSAGE => s.localDspBufferAtOutlet0 j)
        else s.localDspBufferAtOutlet0 j := by
  unfold DspMultiply.processDspToIndex
  cases hp : s.signalPrecedence <;> simp only []
  · rw [sampleLoop_apply _ _ _ _ _ _ (by simp [Int.toNat_of_nonneg, Int.self_le_toNat])]
  · rw [sampleLoop_apply _ _ _ _ _ _ (by simp [Int.toNat_of_nonneg, Int.self_le_toNat])]
  · simp
  · simp

/-- The cursor after `processDspToIndex` is the index passed in, whatever the precedence. -/
theorem processDspToIndex_cursor (s : DspMultiply) (b : ℚ) :
    (s.processDspToIndex b).blockIndexOfLastMessage = b := by
  unfold DspMultiply.processDspToIndex
  cases s.signalPrecedence <;> rfl

/-- The other fields are not touched by `processDspToIndex`. -/
theorem processDspToIndex_frame (s : DspMultiply) (b : ℚ) :
    (s.processDspToIndex b).constant = s.constant
    ∧ (s.processDspToIndex b).signalPrecedence = s.signalPrecedence
    ∧ (s.processDspToIndex b).localDspBufferAtInlet0 = s.localDspBufferAtInlet0
    ∧ (s.processDspToIndex b).localDspBufferAtInlet1 = s.localDspBufferAtInlet1 := by
  unfold DspMultiply.processDspToIndex
  cases s.signalPrecedence <;> simp

/-- A float at inlet 1: the samples up to the block index of the message are computed first,
then the constant is replaced. -/
theorem processMessage_float (s : DspMultiply) (blockStartTimestamp sampleRate : ℚ)
    (message : PdMessage) (f : ℚ) (hf : message.getElement 0 = some (.float f)) :
    s.processMessage blockStartTimestamp sampleRate 1 message
      = some { s.processDspToIndex (message.getBlockIndex blockStartTimestamp sampleRate) with
               constant := f } := by
  simp [DspMultiply.processMessage, hf, MessageElement.getType, MessageElement.getFloat]

/-- A constant change at an integral block index `k`: from the cursor 0 under `DSP_MESSAGE`,
the call for the message followed by the block-end call writes every sample of the block, with
the old constant below `k` and the new one from `k` on. -/
theorem multiply_integral_index_covers_block (s : DspMultiply) (k blockSize : Int) (f : ℚ)
    (hp : s.signalPrecedence = .DSP_MESSAGE) (hc : s.blockIndexOfLastMessage = 0)
    (i : Int) (hi0 : 0 ≤ i) (hi1 : i < blockSize) :
    (({ s.processDspToIndex (k : ℚ) with constant := f } : DspMultiply).processDspToIndex
        (blockSize : ℚ)).localDspBufferAtOutlet0 i
      = s.localDspBufferAtInlet0 i * (if i < k then s.constant else f) := by
  have hcur : ({ s.processDspToIndex (k : ℚ) with constant := f } :
      DspMultiply).blockIndexOfLastMessage = (k : ℚ) := processDspToIndex_cursor _ _
  have hprec : ({ s.processDspToIndex (k : ℚ) with constant := f } :
      DspMultiply).signalPrecedence = .DSP_MESSAGE :=
    (processDspToIndex_frame _ _).2.1.trans hp
  have hin : ({ s.processDspToIndex (k : ℚ) with constant := f } :
      DspMultiply).localDspBufferAtInlet0 = s.localDspBufferAtInlet0 :=
    (processDspToIndex_frame _ _).2.2.1
  have hout : ({ s.processDspToIndex (k : ℚ) with constant := f } :
      DspMultiply).localDspBufferAtOutlet0 i
        = (s.processDspToIndex (k : ℚ)).localDspBufferAtOutlet0 i := rfl
  rw [processDspToIndex_out, hcur, hprec, hin, hout, processDspToIndex_out, hc, hp]
  simp only [Int.ceil_intCast, Int.floor_intCast, Int.ceil_zero]
  by_cases hik : i < k
  · rw [if_neg (by omega), if_pos ⟨hi0, hik⟩, if_pos hik]
  · rw [if_pos ⟨by omega, hi1⟩, if_neg hik]

/-! ## Claims on `DspMultiply` -/

/-- C2: `processDspToIndex(b)` with cursor `a` writes `in0[i] * in1[i]` under `DSP_DSP` and
`in0[i] * constant` under `DSP_MESSAGE` at every index `i` with `ceil(a) ≤ i < floor(b)`, and
leaves every output sample outside that range unchanged. -/
theorem multiply_processDspToIndex_range (s : DspMultiply) (b : ℚ) :
    (s.signalPrecedence = .DSP_DSP →
      ∀ i : Int, ⌈s.blockIndexOfLastMessage⌉ ≤ i → i < ⌊b⌋ →
        (s.processDspToIndex b).localDspBufferAtOutlet0 i
          = s.localDspBufferAtInlet0 i * s.localDspBufferAtInlet1 i)
    ∧ (s.signalPrecedence = .DSP_MESSAGE →
      ∀ i : Int, ⌈s.blockIndexOfLastMessage⌉ ≤ i → i < ⌊b⌋ →
        (s.processDspToIndex b).localDspBufferAtOutlet0 i
          = s.localDspBufferAtInlet0 i * s.constant)
    ∧ (∀ i : Int, ¬ (⌈s.blockIndexOfLastMessage⌉ ≤ i ∧ i < ⌊b⌋) →
        (s.processDspToIndex b).localDspBufferAtOutlet0 i = s.localDspBufferAtOutlet0 i) := by
  refine ⟨?_, ?_, ?_⟩
  · intro hp i h1 h2
    rw [processDspToIndex_out, if_pos ⟨h1, h2⟩, hp]
  · intro hp i h1 h2
    rw [processDspToIndex_out, if_pos ⟨h1, h2⟩, hp]
  · intro i hi
    rw [processDspToIndex_out, if_neg hi]

/-- C2 at the multiplier `multiplyAtBlockStart` (state `DSP_MESSAGE`, cursor 0) and the call
`processDspToIndex(64)`: sample 5 is `in0[5] * constant`, sample 64 keeps its value. -/
theorem multiply_processDspToIndex_range_witness :
    multiplyAtBlockStart.signalPrecedence = .DSP_MESSAGE
    ∧ (multiplyAtBlockStart.processDspToIndex 64).localDspBufferAtOutlet0 5
        = multiplyAtBlockStart.localDspBufferAtInlet0 5 * multiplyAtBlockStart.constant
    ∧ (multiplyAtBlockStart.processDspToIndex 64).localDspBufferAtOutlet0 64
        = multiplyAtBlockStart.localDspBufferAtOutlet0 64 := by
  have hfl64 : ⌊(64 : ℚ)⌋ = 64 := by rw [Int.floor_eq_iff]; norm_num
  have hce0 : ⌈multiplyAtBlockStart.blockIndexOfLastMessage⌉ = 0 := by
    simp [multiplyAtBlockStart]
  have H := multiply_processDspToIndex_range multiplyAtBlockStart 64
  refine ⟨rfl, H.2.1 rfl 5 ?_ ?_, H.2.2 64 ?_⟩
  · rw [hce0]; norm_num
  · rw [hfl64]; norm_num
  · rw [hfl64]; omega

/-- C3, as stated, fails: under `MESSAGE_DSP` with constant 2 and a right input of threes, sample
1 lies in the covered range of `processDspToIndex(4)` and is not `constant * in1[1]`. -/
theorem multiply_message_dsp_not_written :
    multiplyMessageDsp.signalPrecedence = .MESSAGE_DSP
    ∧ ⌈multiplyMessageDsp.blockIndexOfLastMessage⌉ ≤ (1 : Int) ∧ (1 : Int) < ⌊(4 : ℚ)⌋
    ∧ (multiplyMessageDsp.processDspToIndex 4).localDspBufferAtOutlet0 1
        ≠ multiplyMessageDsp.constant * multiplyMessageDsp.localDspBufferAtInlet1 1 := by
  refine ⟨rfl, ?_, ?_, ?_⟩
  · simp [multiplyMessageDsp]
  · have : ⌊(4 : ℚ)⌋ = 4 := by rw [Int.floor_eq_iff]; norm_num
    omega
  · simp [multiplyMessageDsp, DspMultiply.processDspToIndex]

/-- C3, amended: under `MESSAGE_DSP`, `processDspToIndex(b)` writes no output sample; it only
moves the cursor `blockIndexOfLastMessage` to `b`. -/
theorem multiply_message_dsp_inert (s : DspMultiply) (b : ℚ)
    (hp : s.signalPrecedence = .MESSAGE_DSP) :
    s.processDspToIndex b = { s with blockIndexOfLastMessage := b }
    ∧ ∀ i : Int, (s.processDspToIndex b).localDspBufferAtOutlet0 i = s.localDspBufferAtOutlet0 i := by
  have h : s.processDspToIndex b = { s with blockIndexOfLastMessage := b } := by
    unfold DspMultiply.processDspToIndex
    rw [hp]
  exact ⟨h, fun i => by rw [h]⟩

/-- The amended C3 at a concrete multiplier in state `MESSAGE_DSP`. -/
theorem multiply_message_dsp_inert_witness :
    multiplyMessageDsp.signalPrecedence = .MESSAGE_DSP
    ∧ (multiplyMessageDsp.processDspToIndex 4
        = { multiplyMessageDsp with blockIndexOfLastMessage := 4 }
      ∧ ∀ i : Int, (multiplyMessageDsp.processDspToIndex 4).localDspBufferAtOutlet0 i
          = multiplyMessageDsp.localDspBufferAtOutlet0 i) :=
  ⟨rfl, multiply_message_dsp_inert multiplyMessageDsp 4 rfl⟩

/-- C4: a message at inlet 1 whose first element is the float `f`, with block index `k`, makes
`processMessage` first run `processDspToIndex(k)` with the constant and precedence in force
before the message (so the samples from the cursor up to `k` use the old constant), then set
the constant to `f`; the cursor ends at `k`. -/
theorem multiply_processMessage_order (s : DspMultiply) (blockStartTimestamp sampleRate : ℚ)
    (message : PdMessage) (f : ℚ) (hf : message.getElement 0 = some (.float f)) :
    ∃ s' : DspMultiply,
      s.processMessage blockStartTimestamp sampleRate 1 message = some s'
      ∧ s' = { s.processDspToIndex (message.getBlockIndex blockStartTimestamp sampleRate) with
               constant := f }
      ∧ s'.constant = f
      ∧ s'.blockIndexOfLastMessage = message.getBlockIndex blockStartTimestamp sampleRate
      ∧ s'.signalPrecedence = s.signalPrecedence
      ∧ (s.signalPrecedence = .DSP_MESSAGE →
          ∀ i : Int, ⌈s.blockIndexOfLastMessage⌉ ≤ i →
            i < ⌊message.getBlockIndex blockStartTimestamp sampleRate⌋ →
            s'.localDspBufferAtOutlet0 i = s.localDspBufferAtInlet0 i * s.constant)
      ∧ (s.signalPrecedence = .DSP_DSP →
          ∀ i : Int, ⌈s.blockIndexOfLastMessage⌉ ≤ i →
            i < ⌊message.getBlockIndex blockStartTimestamp sampleRate⌋ →
            s'.localDspBufferAtOutlet0 i
              = s.localDspBufferAtInlet0 i * s.localDspBufferAtInlet1 i)
      ∧ (∀ i : Int, ¬ (⌈s.blockIndexOfLastMessage⌉ ≤ i
            ∧ i < ⌊message.getBlockIndex blockStartTimestamp sampleRate⌋) →
          s'.localDspBufferAtOutlet0 i = s.localDspBufferAtOutlet0 i) := by
  refine ⟨_, processMessage_float s blockStartTimestamp sampleRate message f hf, rfl, rfl,
    ?_, ?_, ?_, ?_, ?_⟩
  · exact processDspToIndex_cursor s _
  · exact (processDspToIndex_frame s _).2.1
  · intro hp i h1 h2
    show (s.processDspToIndex _).localDspBufferAtOutlet0 i = _
    rw [processDspToIndex_out, if_pos ⟨h1, h2⟩, hp]
  · intro hp i h1 h2
    show (s.processDspToIndex _).localDspBufferAtOutlet0 i = _
    rw [processDspToIndex_out, if_pos ⟨h1, h2⟩, hp]
  · intro i hi
    show (s.processDspToIndex _).localDspBufferAtOutlet0 i = _
    rw [processDspToIndex_out, if_neg hi]

/-- C4 at the multiplier `multiplyAtBlockStart` and the float message 0 at block index 32. -/
theorem multiply_processMessage_order_witness :
    ∃ s' : DspMultiply,
      multiplyAtBlockStart.processMessage 0 44100 1 ⟨32000 / 44100, [.float 0]⟩ = some s'
      ∧ s'.constant = 0
      ∧ s'.blockIndexOfLastMessage
          = (PdMessage.mk (32000 / 44100) [.float 0]).getBlockIndex 0 44100 := by
  obtain ⟨s', h1, _, h3, h4, _⟩ :=
    multiply_processMessage_order multiplyAtBlockStart 0 44100 ⟨32000 / 44100, [.float 0]⟩ 0 rfl
  exact ⟨s', h1, h3, h4⟩

/-- C5 on the code: with the cursor at 0, precedence `DSP_MESSAGE`, old constant one half and a
float message 0 arriving at inlet 1 with the fractional block index 31.5, followed by the
block-end call `processDspToIndex(64)`, samples 30 and 32 are written with the old and the new
constant, and sample 31 is written by neither call: it keeps the value 7 it had before the
block, where the claim has `in0[31]` times the old constant. -/
theorem multiply_fractional_index_skips_sample :
    (PdMessage.mk (5 / 7) [.float 0]).getBlockIndex 0 44100 = 63 / 2
    ∧ ∃ s' : DspMultiply,
        multiplyAtBlockStart.processMessage 0 44100 1 ⟨5 / 7, [.float 0]⟩ = some s'
        ∧ (s'.processDspToIndex 64).localDspBufferAtOutlet0 30
            = multiplyAtBlockStart.localDspBufferAtInlet0 30 * (1 / 2)
        ∧ (s'.processDspToIndex 64).localDspBufferAtOutlet0 32
            = multiplyAtBlockStart.localDspBufferAtInlet0 32 * 0
        ∧ (s'.processDspToIndex 64).localDspBufferAtOutlet0 31 = 7
        ∧ (s'.processDspToIndex 64).localDspBufferAtOutlet0 31
            ≠ multiplyAtBlockStart.localDspBufferAtInlet0 31 * (1 / 2) := by
  have hk : (PdMessage.mk (5 / 7) [.float 0]).getBlockIndex 0 44100 = 63 / 2 := by
    simp [PdMessage.getBlockIndex]; norm_num
  have hfl : ⌊(63 / 2 : ℚ)⌋ = 31 := by rw [Int.floor_eq_iff]; norm_num
  have hce : ⌈(63 / 2 : ℚ)⌉ = 32 := by rw [Int.ceil_eq_iff]; norm_num
  have hfl64 : ⌊(64 : ℚ)⌋ = 64 := by rw [Int.floor_eq_iff]; norm_num
  have hce0 : ⌈multiplyAtBlockStart.blockIndexOfLastMessage⌉ = 0 := by
    simp [multiplyAtBlockStart]
  have hp0 : multiplyAtBlockStart.signalPrecedence = .DSP_MESSAGE := rfl
  have hmsg := processMessage_float multiplyAtBlockStart 0 44100 ⟨5 / 7, [.float 0]⟩ 0 rfl
  rw [hk] at hmsg
  refine ⟨hk, _, hmsg, ?_⟩
  -- the state after the message: the first call has run up to index 31.5
  have hcur : ({ multiplyAtBlockStart.processDspToIndex (63 / 2) with
      constant := 0 } : DspMultiply).blockIndexOfLastMessage = 63 / 2 :=
    processDspToIndex_cursor _ _
  have hprec : ({ multiplyAtBlockStart.processDspToIndex (63 / 2) with
      constant := 0 } : DspMultiply).signalPrecedence = .DSP_MESSAGE :=
    (processDspToIndex_frame _ _).2.1
  have hin : ({ multiplyAtBlockStart.processDspToIndex (63 / 2) with
      constant := 0 } : DspMultiply).localDspBufferAtInlet0
        = multiplyAtBlockStart.localDspBufferAtInlet0 :=
    (processDspToIndex_frame _ _).2.2.1
  have hout : ∀ j : Int, ({ multiplyAtBlockStart.processDspToIndex (63 / 2) with
      constant := 0 } : DspMultiply).localDspBufferAtOutlet0 j
        = if (0 : Int) ≤ j ∧ j < 31 then multiplyAtBlockStart.localDspBufferAtInlet0 j * (1 / 2)
          else 7 := by
    intro j
    show (multiplyAtBlockStart.processDspToIndex (63 / 2)).localDspBufferAtOutlet0 j = _
    rw [processDspToIndex_out, hce0, hfl, hp0]
    rfl
  have e30 := processDspToIndex_out
    ({ multiplyAtBlockStart.processDspToIndex (63 / 2) with constant := 0 } : DspMultiply) 64 30
  have e31 := processDspToIndex_out
    ({ multiplyAtBlockStart.processDspToIndex (63 / 2) with constant := 0 } : DspMultiply) 64 31
  have e32 := processDspToIndex_out
    ({ multiplyAtBlockStart.processDspToIndex (63 / 2) with constant := 0 } : DspMultiply) 64 32
  rw [hcur, hce, hfl64, if_neg (by omega), hout, if_pos (by omega)] at e30
  rw [hcur, hce, hfl64, if_neg (by omega), hout, if_neg (by omega)] at e31
  rw [hcur, hce, hfl64, if_pos (by omega), hprec, hin] at e32
  refine ⟨e30, e32, e31, ?_⟩
  rw [e31]
  norm_num [multiplyAtBlockStart]

/-! ## The queue order and `insertMessage` -/

theorem keyLt_irrefl (a : MessageDestination) : ¬ keyLt a a := by
  unfold keyLt
  rintro (h | ⟨_, h⟩)
  · exact lt_irrefl _ h
  · exact Nat.lt_irrefl _ h

theorem keyLt_trans {a b c : MessageDestination} (hab : keyLt a b) (hbc : keyLt b c) :
    keyLt a c := by
  unfold keyLt at *
  rcases hab with h1 | ⟨h1, h2⟩ <;> rcases hbc with h3 | ⟨h3, h4⟩
  · exact Or.inl (lt_trans h1 h3)
  · exact Or.inl (h3 ▸ h1)
  · exact Or.inl (h1 ▸ h3)
  · exact Or.inr ⟨h1.trans h3, Nat.lt_trans h2 h4⟩

theorem keyLt_of_not_keyLt {a b : MessageDestination} (h : ¬ keyLt a b) (hseq : a.seq ≠ b.seq) :
    keyLt b a := by
  unfold keyLt at *
  push_neg at h
  rcases lt_trichotomy b.message.getTimestamp a.message.getTimestamp with h1 | h1 | h1
  · exact Or.inl h1
  · refine Or.inr ⟨h1, ?_⟩
    have := h.2 h1.symm
    omega
  · exact absurd h1 (not_lt.mpr h.1)

theorem keyLt_timestamp_le {a b : MessageDestination} (h : keyLt a b) :
    a.message.getTimestamp ≤ b.message.getTimestamp := by
  rcases h with h | ⟨h, _⟩
  · exact le_of_lt h
  · exact le_of_eq h

/-- An entry with a timestamp not below that of `a` and a later sequence number comes after
`a` in the queue order. -/
theorem keyLt_of_le_of_seq {a b : MessageDestination}
    (ht : a.message.getTimestamp ≤ b.message.getTimestamp) (hs : a.seq < b.seq) : keyLt a b := by
  rcases lt_or_eq_of_le ht with h | h
  · exact Or.inl h
  · exact Or.inr ⟨h, hs⟩

theorem insertMessage_perm (q : List MessageDestination) (d : MessageDestination) :
    (insertMessage q d).Perm (d :: q) := by
  induction q with
  | nil => simp [insertMessage]
  | cons h t ih =>
    unfold insertMessage
    by_cases hk : keyLt d h
    · rw [if_pos hk]
    · rw [if_neg hk]
      exact (List.Perm.cons h ih).trans (List.Perm.swap d h t)

theorem mem_insertMessage {q : List MessageDestination} {d x : MessageDestination} :
    x ∈ insertMessage q d ↔ x = d ∨ x ∈ q := by
  rw [(insertMessage_perm q d).mem_iff, List.mem_cons]

theorem insertMessage_pairwise {q : List MessageDestination} {d : MessageDestination}
    (hq : q.Pairwise keyLt) (hd : ∀ x ∈ q, x.seq ≠ d.seq) :
    (insertMessage q d).Pairwise keyLt := by
  induction q with
  | nil => simp [insertMessage]
  | cons h t ih =>
    rw [List.pairwise_cons] at hq
    unfold insertMessage
    by_cases hk : keyLt d h
    · rw [if_pos hk]
      refine List.Pairwise.cons ?_ (List.Pairwise.cons hq.1 hq.2)
      intro x hx
      rcases List.mem_cons.mp hx with rfl | hx
      · exact hk
      · exact keyLt_trans hk (hq.1 x hx)
    · rw [if_neg hk]
      refine List.Pairwise.cons ?_ (ih hq.2 (fun x hx => hd x (List.mem_cons_of_mem _ hx)))
      intro x hx
      rcases mem_insertMessage.mp hx with rfl | hx
      · exact keyLt_of_not_keyLt hk (fun e => hd h (List.mem_cons_self _ _) e.symm)
      · exact hq.1 x hx

/-! ## `scheduleMessage`, `cancelMessage` and the calls of a delivery -/

theorem init_queueOrdered {W : Type} (blockDurationMs : ℚ) (world : W) :
    (PdGraph.init blockDurationMs world).QueueOrdered := by
  constructor
  · exact List.Pairwise.nil
  · intro d hd
    cases hd

theorem scheduleMessage_queueOrdered {W : Type} {g : PdGraph W} (h : g.QueueOrdered) (o : Nat)
    (i : Int) (m : MessageRef) : (g.scheduleMessage o i m).QueueOrdered := by
  constructor
  · exact insertMessage_pairwise h.1 (fun x hx => Nat.ne_of_lt (h.2 x hx))
  · intro d hd
    rcases mem_insertMessage.mp hd with rfl | hd
    · exact Nat.lt_succ_self _
    · exact Nat.lt_succ_of_lt (h.2 d hd)

theorem cancelMessage_queueOrdered {W : Type} {g : PdGraph W} (h : g.QueueOrdered) (o : Nat)
    (i : Int) (m : MessageRef) : (g.cancelMessage o i m).QueueOrdered := h

/-- The calls of a delivery leave the block clock and the world alone and never take a sequence
number back. -/
theorem applyCalls_frame {W : Type} (cs : List GraphCall) :
    ∀ g : PdGraph W,
      (g.applyCalls cs).blockStartTimestamp = g.blockStartTimestamp
      ∧ (g.applyCalls cs).blockDurationMs = g.blockDurationMs
      ∧ (g.applyCalls cs).world = g.world
      ∧ g.nextSeq ≤ (g.applyCalls cs).nextSeq := by
  induction cs with
  | nil => intro g; exact ⟨rfl, rfl, rfl, Nat.le_refl _⟩
  | cons c cs ih =>
    intro g
    cases c with
    | scheduleMessage o i m =>
      obtain ⟨h1, h2, h3, h4⟩ := ih (g.scheduleMessage o i m)
      exact ⟨h1, h2, h3, Nat.le_trans (Nat.le_succ _) h4⟩
    | cancelMessage o i m =>
      exact ih (g.cancelMessage o i m)

theorem applyCalls_queueOrdered {W : Type} (cs : List GraphCall) :
    ∀ g : PdGraph W, g.QueueOrdered → (g.applyCalls cs).QueueOrdered := by
  induction cs with
  | nil => intro g h; exact h
  | cons c cs ih =>
    intro g h
    cases c with
    | scheduleMessage o i m => exact ih _ (scheduleMessage_queueOrdered h o i m)
    | cancelMessage o i m => exact ih _ (cancelMessage_queueOrdered h o i m)

/-- Nothing leaves the queue through the calls of a delivery. -/
theorem applyCalls_mem_of_mem {W : Type} (cs : List GraphCall) :
    ∀ (g : PdGraph W) (x : MessageDestination),
      x ∈ g.messageCallbackQueue → x ∈ (g.applyCalls cs).messageCallbackQueue := by
  induction cs with
  | nil => intro g x h; exact h
  | cons c cs ih =>
    intro g x h
    cases c with
    | scheduleMessage o i m => exact ih _ x (mem_insertMessage.mpr (Or.inr h))
    | cancelMessage o i m => exact ih (g.cancelMessage o i m) x h

/-- What is in the queue after the calls of a delivery was there before, or was scheduled by
one of the calls and carries a new sequence number. -/
theorem applyCalls_mem {W : Type} (cs : List GraphCall) :
    ∀ (g : PdGraph W) (x : MessageDestination),
      x ∈ (g.applyCalls cs).messageCallbackQueue →
        x ∈ g.messageCallbackQueue
          ∨ (g.nextSeq ≤ x.seq ∧ GraphCall.scheduleMessage x.object x.index x.message ∈ cs) := by
  induction cs with
  | nil => intro g x h; exact Or.inl h
  | cons c cs ih =>
    intro g x h
    cases c with
    | scheduleMessage o i m =>
      rcases ih (g.scheduleMessage o i m) x h with h1 | ⟨h1, h2⟩
      · rcases mem_insertMessage.mp h1 with rfl | h1
        · exact Or.inr ⟨Nat.le_refl _, List.mem_cons_self _ _⟩
        · exact Or.inl h1
      · exact Or.inr ⟨Nat.le_trans (Nat.le_succ _) h1, List.mem_cons_of_mem _ h2⟩
    | cancelMessage o i m =>
      rcases ih (g.cancelMessage o i m) x h with h1 | ⟨h1, h2⟩
      · exact Or.inl h1
      · exact Or.inr ⟨h1, List.mem_cons_of_mem _ h2⟩

/-- The calls of a delivery do not change how often an entry with an old sequence number is in
the queue. -/
theorem applyCalls_count {W : Type} (cs : List GraphCall) :
    ∀ (g : PdGraph W) (x : MessageDestination), x.seq < g.nextSeq →
      (g.applyCalls cs).messageCallbackQueue.count x = g.messageCallbackQueue.count x := by
  induction cs with
  | nil => intro g x _; rfl
  | cons c cs ih =>
    intro g x hx
    cases c with
    | scheduleMessage o i m =>
      have h1 := ih (g.scheduleMessage o i m) x (Nat.lt_succ_of_lt hx)
      have h2 : (g.scheduleMessage o i m).messageCallbackQueue.count x
          = g.messageCallbackQueue.count x := by
        show (insertMessage g.messageCallbackQueue ⟨o, i, m, g.nextSeq⟩).count x = _
        rw [(insertMessage_perm _ _).count_eq, List.count_cons_of_ne]
        intro e
        have : x.seq = g.nextSeq := by rw [e]
        omega
      exact h1.trans h2
    | cancelMessage o i m => exact ih (g.cancelMessage o i m) x hx

/-- Calls that schedule nothing before `t` do not change the number of queued entries with a
timestamp below `t`. -/
theorem applyCalls_countP {W : Type} (t : ℚ) (cs : List GraphCall) :
    ∀ (g : PdGraph W),
      (∀ o i m, GraphCall.scheduleMessage o i m ∈ cs → t ≤ m.getTimestamp) →
      (g.applyCalls cs).messageCallbackQueue.countP (fun x => decide (x.message.getTimestamp < t))
        = g.messageCallbackQueue.countP (fun x => decide (x.message.getTimestamp < t)) := by
  induction cs with
  | nil => intro g _; rfl
  | cons c cs ih =>
    intro g h
    have hcs : ∀ o i m, GraphCall.scheduleMessage o i m ∈ cs → t ≤ m.getTimestamp :=
      fun o i m hm => h o i m (List.mem_cons_of_mem _ hm)
    cases c with
    | scheduleMessage o i m =>
      have h1 := ih (g.scheduleMessage o i m) hcs
      have h2 : (g.scheduleMessage o i m).messageCallbackQueue.countP
            (fun x => decide (x.message.getTimestamp < t))
          = g.messageCallbackQueue.countP (fun x => decide (x.message.getTimestamp < t)) := by
        show (insertMessage g.messageCallbackQueue ⟨o, i, m, g.nextSeq⟩).countP _ = _
        rw [(insertMessage_perm _ _).countP_eq, List.countP_cons_of_neg]
        have := h o i m (List.mem_cons_self _ _)
        simpa using this
      exact h1.trans h2
    | cancelMessage o i m => exact ih (g.cancelMessage o i m) hcs

/-! ## One delivery -/

/-- The calls the objects make while `destination` is delivered from graph `g`. -/
theorem deliverHead_eq {W : Type} (env : ObjectWorld W) (g : PdGraph W)
    (d : MessageDestination) (rest : List MessageDestination) :
    g.deliverHead env d rest
      = ({ g with
            messageCallbackQueue := rest
            reservation := unreserve g.reservation d.message
            world := (env.sendMessage g.world d.object d.index d.message).1 } : PdGraph W).applyCalls
          (env.sendMessage g.world d.object d.index d.message).2 := rfl

theorem deliverHead_frame {W : Type} (env : ObjectWorld W) (g : PdGraph W)
    (d : MessageDestination) (rest : List MessageDestination) :
    (g.deliverHead env d rest).blockStartTimestamp = g.blockStartTimestamp
    ∧ (g.deliverHead env d rest).blockDurationMs = g.blockDurationMs
    ∧ g.nextSeq ≤ (g.deliverHead env d rest).nextSeq := by
  rw [deliverHead_eq]
  obtain ⟨h1, h2, _, h4⟩ := applyCalls_frame (env.sendMessage g.world d.object d.index d.message).2
    ({ g with
        messageCallbackQueue := rest
        reservation := unreserve g.reservation d.message
        world := (env.sendMessage g.world d.object d.index d.message).1 } : PdGraph W)
  exact ⟨h1, h2, h4⟩

theorem deliverHead_queueOrdered {W : Type} (env : ObjectWorld W) (g : PdGraph W)
    (d : MessageDestination) (rest : List MessageDestination)
    (hq : g.messageCallbackQueue = d :: rest) (h : g.QueueOrdered) :
    (g.deliverHead env d rest).QueueOrdered := by
  rw [deliverHead_eq]
  apply applyCalls_queueOrdered
  unfold PdGraph.QueueOrdered at h ⊢
  rw [hq] at h
  exact ⟨(List.pairwise_cons.mp h.1).2, fun x hx => h.2 x (List.mem_cons_of_mem _ hx)⟩

theorem deliverHead_mem_of_mem {W : Type} (env : ObjectWorld W) (g : PdGraph W)
    (d : MessageDestination) (rest : List MessageDestination) (x : MessageDestination)
    (hx : x ∈ rest) : x ∈ (g.deliverHead env d rest).messageCallbackQueue := by
  rw [deliverHead_eq]
  exact applyCalls_mem_of_mem _ _ x hx

theorem deliverHead_mem {W : Type} (env : ObjectWorld W) (g : PdGraph W)
    (d : MessageDestination) (rest : List MessageDestination) (x : MessageDestination)
    (hx : x ∈ (g.deliverHead env d rest).messageCallbackQueue) :
    x ∈ rest ∨ (g.nextSeq ≤ x.seq
      ∧ GraphCall.scheduleMessage x.object x.index x.message
          ∈ (env.sendMessage g.world d.object d.index d.message).2) := by
  rw [deliverHead_eq] at hx
  exact applyCalls_mem _ _ x hx

theorem deliverHead_count {W : Type} (env : ObjectWorld W) (g : PdGraph W)
    (d : MessageDestination) (rest : List MessageDestination) (x : MessageDestination)
    (hx : x.seq < g.nextSeq) :
    (g.deliverHead env d rest).messageCallbackQueue.count x = rest.count x := by
  rw [deliverHead_eq]
  exact applyCalls_count _ _ x hx

theorem deliverHead_countP {W : Type} (env : ObjectWorld W) (t : ℚ) (henv : NoScheduleBefore env t)
    (g : PdGraph W) (d : MessageDestination) (rest : List MessageDestination) :
    (g.deliverHead env d rest).messageCallbackQueue.countP
        (fun x => decide (x.message.getTimestamp < t))
      = rest.countP (fun x => decide (x.message.getTimestamp < t)) := by
  rw [deliverHead_eq]
  exact applyCalls_countP t _ _ (fun o i m hm => henv _ _ _ _ o i m hm)

/-! ## The loop that sends the messages of a block -/

/-- The loop left at once: the queue is empty or its head is outside the window. -/
theorem sendBlockMessages_cases {W : Type} (env : ObjectWorld W) (next : ℚ) (fuel : Nat)
    (g g' : PdGraph W) (tr : List MessageDestination)
    (h : PdGraph.sendBlockMessages env next (fuel + 1) g = some (g', tr)) :
    (g.messageCallbackQueue = [] ∧ g' = g ∧ tr = [])
    ∨ (∃ d rest, g.messageCallbackQueue = d :: rest
        ∧ ¬ (g.blockStartTimestamp ≤ d.message.getTimestamp ∧ d.message.getTimestamp < next)
        ∧ g' = g ∧ tr = [])
    ∨ (∃ d rest tr', g.messageCallbackQueue = d :: rest
        ∧ g.blockStartTimestamp ≤ d.message.getTimestamp ∧ d.message.getTimestamp < next
        ∧ PdGraph.sendBlockMessages env next fuel (g.deliverHead env d rest) = some (g', tr')
        ∧ tr = d :: tr') := by
  unfold PdGraph.sendBlockMessages at h
  cases hq : g.messageCallbackQueue with
  | nil =>
    simp only [hq] at h
    injection h with h
    injection h with h1 h2
    exact Or.inl ⟨rfl, h1.symm, h2.symm⟩
  | cons d rest =>
    simp only [hq] at h
    by_cases hw : g.blockStartTimestamp ≤ d.message.getTimestamp ∧ d.message.getTimestamp < next
    · rw [if_pos hw] at h
      cases hr : PdGraph.sendBlockMessages env next fuel (g.deliverHead env d rest) with
      | none => simp [hr] at h
      | some r =>
        obtain ⟨g2, tr'⟩ := r
        simp only [hr] at h
        injection h with h
        injection h with h1 h2
        subst h1
        exact Or.inr (Or.inr ⟨d, rest, tr', rfl, hw.1, hw.2, hr, h2.symm⟩)
    · rw [if_neg hw] at h
      injection h with h
      injection h with h1 h2
      exact Or.inr (Or.inl ⟨d, rest, rfl, hw, h1.symm, h2.symm⟩)

/-- Whatever the objects do: the loop leaves the block clock alone, delivers only entries of
the window, and keeps every entry with a timestamp at or after the end of the window. -/
theorem sendBlockMessages_frame {W : Type} (env : ObjectWorld W) (next : ℚ) :
    ∀ (fuel : Nat) (g g' : PdGraph W) (tr : List MessageDestination),
      PdGraph.sendBlockMessages env next fuel g = some (g', tr) →
      g'.blockStartTimestamp = g.blockStartTimestamp
      ∧ g'.blockDurationMs = g.blockDurationMs
      ∧ g.nextSeq ≤ g'.nextSeq
      ∧ (∀ x ∈ tr, g.blockStartTimestamp ≤ x.message.getTimestamp
          ∧ x.message.getTimestamp < next)
      ∧ (∀ x ∈ g.messageCallbackQueue, next ≤ x.message.getTimestamp →
          x ∈ g'.messageCallbackQueue) := by
  intro fuel
  induction fuel with
  | zero => intro g g' tr h; simp [PdGraph.sendBlockMessages] at h
  | succ fuel ih =>
    intro g g' tr h
    rcases sendBlockMessages_cases env next fuel g g' tr h with
      ⟨_, rfl, rfl⟩ | ⟨d, rest, _, _, rfl, rfl⟩ | ⟨d, rest, tr', hq, hw1, hw2, hr, rfl⟩
    · exact ⟨rfl, rfl, Nat.le_refl _, fun x hx => (List.not_mem_nil x hx).elim, fun x hx _ => hx⟩
    · exact ⟨rfl, rfl, Nat.le_refl _, fun x hx => (List.not_mem_nil x hx).elim, fun x hx _ => hx⟩
    · obtain ⟨h1, h2, h3, h4, h5⟩ := ih _ g' tr' hr
      obtain ⟨f1, f2, f3⟩ := deliverHead_frame env g d rest
      refine ⟨h1.trans f1, h2.trans f2, Nat.le_trans f3 h3, ?_, ?_⟩
      · intro x hx
        rcases List.mem_cons.mp hx with rfl | hx
        · exact ⟨hw1, hw2⟩
        · rw [← f1]; exact h4 x hx
      · intro x hx hn
        rw [hq] at hx
        rcases List.mem_cons.mp hx with rfl | hx
        · exact absurd hw2 (not_lt.mpr hn)
        · exact h5 x (deliverHead_mem_of_mem env g d rest x hx) hn

/-- From a queue in key order without stale entries, and objects that never schedule before
the block start when handling a message of the block: when the loop leaves, the queue is in
key order, no entry with a timestamp before the end of the window is left, and every entry
that carried a sequence number at the start was delivered as often as it left the queue. -/
theorem sendBlockMessages_window {W : Type} (env : ObjectWorld W) (next start : ℚ)
    (henv : ∀ (w : W) (o : Nat) (i : Int) (m : MessageRef) (o' : Nat) (i' : Int)
      (m' : MessageRef), start ≤ m.getTimestamp →
      GraphCall.scheduleMessage o' i' m' ∈ (env.sendMessage w o i m).2 →
      start ≤ m'.getTimestamp) :
    ∀ (fuel : Nat) (g g' : PdGraph W) (tr : List MessageDestination),
      g.blockStartTimestamp = start → g.QueueOrdered → g.QueueFresh →
      PdGraph.sendBlockMessages env next fuel g = some (g', tr) →
      g'.QueueOrdered
      ∧ (∀ x ∈ g'.messageCallbackQueue, next ≤ x.message.getTimestamp)
      ∧ (∀ x : MessageDestination, x.seq < g.nextSeq →
          tr.count x + g'.messageCallbackQueue.count x = g.messageCallbackQueue.count x) := by
  intro fuel
  induction fuel with
  | zero => intro g g' tr _ _ _ h; simp [PdGraph.sendBlockMessages] at h
  | succ fuel ih =>
    intro g g' tr hs hord hfresh h
    rcases sendBlockMessages_cases env next fuel g g' tr h with
      ⟨hq, rfl, rfl⟩ | ⟨d, rest, hq, hw, rfl, rfl⟩ | ⟨d, rest, tr', hq, hw1, hw2, hr, rfl⟩
    · refine ⟨hord, ?_, fun x _ => by simp⟩
      intro x hx
      rw [hq] at hx
      cases hx
    · refine ⟨hord, ?_, fun x _ => by simp⟩
      have hd : next ≤ d.message.getTimestamp := by
        have h1 : g'.blockStartTimestamp ≤ d.message.getTimestamp :=
          hfresh d (by rw [hq]; exact List.mem_cons_self _ _)
        by_contra hc
        exact hw ⟨h1, not_le.mp hc⟩
      intro x hx
      have hp := hord.1
      rw [hq] at hx hp
      rcases List.mem_cons.mp hx with rfl | hx
      · exact hd
      · exact le_trans hd (keyLt_timestamp_le ((List.pairwise_cons.mp hp).1 x hx))
    · obtain ⟨f1, _, f3⟩ := deliverHead_frame env g d rest
      have hfresh2 : (g.deliverHead env d rest).QueueFresh := by
        intro x hx
        rw [f1, hs]
        rcases deliverHead_mem env g d rest x hx with hx | ⟨_, hx⟩
        · rw [← hs]
          exact hfresh x (by rw [hq]; exact List.mem_cons_of_mem _ hx)
        · exact henv _ _ _ _ _ _ _ (hs ▸ hw1) hx
      obtain ⟨h1, h2, h3⟩ := ih _ g' tr' (f1.trans hs)
        (deliverHead_queueOrdered env g d rest hq hord) hfresh2 hr
      refine ⟨h1, h2, ?_⟩
      intro x hx
      have e1 := h3 x (Nat.lt_of_lt_of_le hx f3)
      rw [deliverHead_count env g d rest x hx] at e1
      rw [hq, List.count_cons, List.count_cons]
      omega

/-- With objects that schedule no message before the one they handle, the entries are delivered
in strictly increasing order of the key `(timestamp, insertion-sequence)`, and after every
entry that came before the whole queue. -/
theorem sendBlockMessages_ordered {W : Type} (env : ObjectWorld W) (next : ℚ)
    (hc : Causal env) :
    ∀ (fuel : Nat) (g g' : PdGraph W) (tr : List MessageDestination),
      g.QueueOrdered → PdGraph.sendBlockMessages env next fuel g = some (g', tr) →
      tr.Pairwise keyLt
      ∧ ∀ b : MessageDestination, (∀ y ∈ g.messageCallbackQueue, keyLt b y) →
          b.seq < g.nextSeq → ∀ x ∈ tr, keyLt b x := by
  intro fuel
  induction fuel with
  | zero => intro g g' tr _ h; simp [PdGraph.sendBlockMessages] at h
  | succ fuel ih =>
    intro g g' tr hord h
    rcases sendBlockMessages_cases env next fuel g g' tr h with
      ⟨_, rfl, rfl⟩ | ⟨d, rest, _, _, rfl, rfl⟩ | ⟨d, rest, tr', hq, _, _, hr, rfl⟩
    · exact ⟨List.Pairwise.nil, fun b _ _ x hx => (List.not_mem_nil x hx).elim⟩
    · exact ⟨List.Pairwise.nil, fun b _ _ x hx => (List.not_mem_nil x hx).elim⟩
    · obtain ⟨_, _, f3⟩ := deliverHead_frame env g d rest
      obtain ⟨h1, h2⟩ := ih _ g' tr' (deliverHead_queueOrdered env g d rest hq hord) hr
      have hp := hord.1
      rw [hq] at hp
      have hdq : d ∈ g.messageCallbackQueue := by rw [hq]; exact List.mem_cons_self _ _
      have hdseq : d.seq < g.nextSeq := hord.2 d hdq
      -- every entry scheduled while `d` is delivered comes after any `b` not after `d`
      have hnew : ∀ b : MessageDestination,
          b.message.getTimestamp ≤ d.message.getTimestamp → b.seq < g.nextSeq →
          (∀ y ∈ rest, keyLt b y) →
          ∀ y ∈ (g.deliverHead env d rest).messageCallbackQueue, keyLt b y := by
        intro b hb hbs hrest y hy
        rcases deliverHead_mem env g d rest y hy with hy | ⟨hy1, hy2⟩
        · exact hrest y hy
        · exact keyLt_of_le_of_seq (le_trans hb (hc _ _ _ _ _ _ _ hy2)) (by omega)
      refine ⟨List.Pairwise.cons ?_ h1, ?_⟩
      · exact h2 d (hnew d (le_refl _) hdseq (List.pairwise_cons.mp hp).1)
          (Nat.lt_of_lt_of_le hdseq f3)
      · intro b hb hbs x hx
        rcases List.mem_cons.mp hx with rfl | hx
        · exact hb x hdq
        · refine h2 b (hnew b (keyLt_timestamp_le (hb d hdq)) hbs ?_)
            (Nat.lt_of_lt_of_le hbs f3) x hx
          intro y hy
          exact hb y (by rw [hq]; exact List.mem_cons_of_mem _ hy)

/-- With objects that schedule nothing before the end of the window, the loop leaves after at
most one test more than there are queued entries with a timestamp before the end of the
window. -/
theorem sendBlockMessages_returns {W : Type} (env : ObjectWorld W) (next : ℚ)
    (henv : NoScheduleBefore env next) :
    ∀ (fuel : Nat) (g : PdGraph W),
      g.messageCallbackQueue.countP (fun x => decide (x.message.getTimestamp < next)) < fuel →
      (PdGraph.sendBlockMessages env next fuel g).isSome = true := by
  intro fuel
  induction fuel with
  | zero => intro g h; omega
  | succ fuel ih =>
    intro g h
    unfold PdGraph.sendBlockMessages
    cases hq : g.messageCallbackQueue with
    | nil => simp
    | cons d rest =>
      simp only []
      by_cases hw : g.blockStartTimestamp ≤ d.message.getTimestamp
          ∧ d.message.getTimestamp < next
      · rw [if_pos hw]
        have hlt : (g.deliverHead env d rest).messageCallbackQueue.countP
            (fun x => decide (x.message.getTimestamp < next)) < fuel := by
          rw [deliverHead_countP env next henv]
          rw [hq, List.countP_cons_of_pos _ _ (by simpa using hw.2)] at h
          omega
        obtain ⟨⟨g2, tr⟩, hr⟩ := Option.isSome_iff_exists.mp (ih _ hlt)
        simp [hr]
      · rw [if_neg hw]
        simp

/-! ## `process` -/

/-- A returning `process` is the loop followed by the audio pass and the clock step. -/
theorem process_some {W : Type} {env : ObjectWorld W} {fuel : Nat} {g g' : PdGraph W}
    {tr : List MessageDestination} (h : g.process env fuel = some (g', tr)) :
    ∃ g1 : PdGraph W,
      g.sendBlockMessages env (g.blockStartTimestamp + g.blockDurationMs) fuel = some (g1, tr)
      ∧ g' = { g1 with
                world := env.processDsp g1.world
                blockStartTimestamp := g.blockStartTimestamp + g.blockDurationMs } := by
  unfold PdGraph.process at h
  simp only [] at h
  cases hr : g.sendBlockMessages env (g.blockStartTimestamp + g.blockDurationMs) fuel with
  | none => simp [hr] at h
  | some r =>
    obtain ⟨g1, tr1⟩ := r
    simp only [hr] at h
    injection h with h
    injection h with h1 h2
    subst h2
    exact ⟨g1, rfl, h1.symm⟩

/-- With objects that schedule nothing before the next block start, `process` returns; one loop
test more than the length of the queue is enough. -/
theorem process_returns {W : Type} (env : ObjectWorld W) (g : PdGraph W)
    (henv : NoScheduleBefore env (g.blockStartTimestamp + g.blockDurationMs)) :
    (g.process env (g.messageCallbackQueue.length + 1)).isSome = true := by
  have h := sendBlockMessages_returns env _ henv (g.messageCallbackQueue.length + 1) g
    (Nat.lt_succ_of_le (List.countP_le_length _))
  obtain ⟨⟨g1, tr⟩, hr⟩ := Option.isSome_iff_exists.mp h
  simp [PdGraph.process, hr]

/-- A queue in key order holds no entry twice. -/
theorem queueOrdered_count {W : Type} {g : PdGraph W} (h : g.QueueOrdered)
    {d : MessageDestination} (hd : d ∈ g.messageCallbackQueue) :
    g.messageCallbackQueue.count d = 1 := by
  have hn : g.messageCallbackQueue.Nodup :=
    List.Pairwise.imp (fun {a b} (hab : keyLt a b) (e : a = b) =>
      keyLt_irrefl b (by rw [e] at hab; exact hab)) h.1
  exact List.count_eq_one_of_mem hn hd

/-- From a queue in key order without stale entries, and objects that schedule no message
before the one they handle, a returning `process` leaves a queue in key order without stale
entries for the next block. -/
theorem process_keeps_invariant {W : Type} (env : ObjectWorld W) (g g' : PdGraph W)
    (fuel : Nat) (tr : List MessageDestination) (hord : g.QueueOrdered) (hfresh : g.QueueFresh)
    (henv : ∀ (w : W) (o : Nat) (i : Int) (m : MessageRef) (o' : Nat) (i' : Int)
      (m' : MessageRef), g.blockStartTimestamp ≤ m.getTimestamp →
      GraphCall.scheduleMessage o' i' m' ∈ (env.sendMessage w o i m).2 →
      g.blockStartTimestamp ≤ m'.getTimestamp)
    (h : g.process env fuel = some (g', tr)) :
    g'.QueueOrdered ∧ g'.QueueFresh
    ∧ g'.blockStartTimestamp = g.blockStartTimestamp + g.blockDurationMs
    ∧ g'.blockDurationMs = g.blockDurationMs
    ∧ (∀ x : MessageDestination, x.seq < g.nextSeq →
        tr.count x + g'.messageCallbackQueue.count x = g.messageCallbackQueue.count x)
    ∧ (∀ x ∈ g.messageCallbackQueue,
        g.blockStartTimestamp + g.blockDurationMs ≤ x.message.getTimestamp →
        x ∈ g'.messageCallbackQueue)
    ∧ (∀ x ∈ tr, g.blockStartTimestamp ≤ x.message.getTimestamp
        ∧ x.message.getTimestamp < g.blockStartTimestamp + g.blockDurationMs) := by
  obtain ⟨g1, hr, rfl⟩ := process_some h
  obtain ⟨a1, a2, a3⟩ := sendBlockMessages_window env _ g.blockStartTimestamp henv fuel g g1 tr rfl
    hord hfresh hr
  obtain ⟨_, b2, _, b4, b5⟩ := sendBlockMessages_frame env _ fuel g g1 tr hr
  exact ⟨a1, a2, rfl, b2, a3, b5, b4⟩

/-- The loop keeps the queue in key order, whatever the timestamps and the objects. -/
theorem sendBlockMessages_queueOrdered {W : Type} (env : ObjectWorld W) (next : ℚ) :
    ∀ (fuel : Nat) (g g' : PdGraph W) (tr : List MessageDestination),
      g.QueueOrdered → PdGraph.sendBlockMessages env next fuel g = some (g', tr) →
      g'.QueueOrdered := by
  intro fuel
  induction fuel with
  | zero => intro g g' tr _ h; simp [PdGraph.sendBlockMessages] at h
  | succ fuel ih =>
    intro g g' tr hord h
    rcases sendBlockMessages_cases env next fuel g g' tr h with
      ⟨_, rfl, rfl⟩ | ⟨d, rest, _, _, rfl, rfl⟩ | ⟨d, rest, tr', hq, _, _, hr, rfl⟩
    · exact hord
    · exact hord
    · exact ih _ g' tr' (deliverHead_queueOrdered env g d rest hq hord) hr

/-- Key order of the queue is kept by `process`; with `init_queueOrdered`,
`scheduleMessage_queueOrdered` and `cancelMessage_queueOrdered` it holds in every state reached
from the empty scheduler. -/
theorem process_queueOrdered {W : Type} (env : ObjectWorld W) (g g' : PdGraph W) (fuel : Nat)
    (tr : List MessageDestination) (hord : g.QueueOrdered)
    (h : g.process env fuel = some (g', tr)) : g'.QueueOrdered := by
  obtain ⟨g1, hr, rfl⟩ := process_some h
  exact sendBlockMessages_queueOrdered env _ fuel g g1 tr hord hr

/-! ## The deliveries of a call and the world -/

/-- A delivery leaves the world that `sendMessage` on the target object returns. -/
theorem deliverHead_world {W : Type} (env : ObjectWorld W) (g : PdGraph W)
    (d : MessageDestination) (rest : List MessageDestination) :
    (g.deliverHead env d rest).world = (env.sendMessage g.world d.object d.index d.message).1 := by
  rw [deliverHead_eq]
  exact (applyCalls_frame _ _).2.2.1

/-- The loop calls `sendMessage` for the entries it delivers, in their order, and does nothing
else to the world. -/
theorem sendBlockMessages_world {W : Type} (env : ObjectWorld W) (next : ℚ) :
    ∀ (fuel : Nat) (g g' : PdGraph W) (tr : List MessageDestination),
      PdGraph.sendBlockMessages env next fuel g = some (g', tr) →
      g'.world = worldAfter env g.world tr := by
  intro fuel
  induction fuel with
  | zero => intro g g' tr h; simp [PdGraph.sendBlockMessages] at h
  | succ fuel ih =>
    intro g g' tr h
    rcases sendBlockMessages_cases env next fuel g g' tr h with
      ⟨_, hg, ht⟩ | ⟨d, rest, _, _, hg, ht⟩ | ⟨d, rest, tr', hq, _, _, hr, ht⟩
    · rw [hg, ht]; rfl
    · rw [hg, ht]; rfl
    · rw [ht, ih _ g' tr' hr, deliverHead_world]
      rfl

/-- A returning `process` has called `sendMessage` for the entries it delivered, in their
order, and then run the audio pass. -/
theorem process_world {W : Type} {env : ObjectWorld W} {fuel : Nat} {g g' : PdGraph W}
    {tr : List MessageDestination} (h : g.process env fuel = some (g', tr)) :
    g'.world = env.processDsp (worldAfter env g.world tr) := by
  obtain ⟨g1, h1, rfl⟩ := process_some h
  show env.processDsp g1.world = _
  rw [sendBlockMessages_world env _ fuel g g1 tr h1]

/-- As `sendBlockMessages_window`, for objects of which only the deliveries that the loop
makes are known to schedule nothing before the block start. -/
theorem sendBlockMessages_window_trace {W : Type} (env : ObjectWorld W) (next start : ℚ) :
    ∀ (fuel : Nat) (g g' : PdGraph W) (tr : List MessageDestination),
      g.blockStartTimestamp = start → g.QueueOrdered → g.QueueFresh →
      PdGraph.sendBlockMessages env next fuel g = some (g', tr) →
      (∀ (o' : Nat) (i' : Int) (m' : MessageRef),
        GraphCall.scheduleMessage o' i' m' ∈ callsDuring env g.world tr →
        start ≤ m'.getTimestamp) →
      g'.QueueOrdered
      ∧ (∀ x ∈ g'.messageCallbackQueue, next ≤ x.message.getTimestamp)
      ∧ (∀ x : MessageDestination, x.seq < g.nextSeq →
          tr.count x + g'.messageCallbackQueue.count x = g.messageCallbackQueue.count x) := by
  intro fuel
  induction fuel with
  | zero => intro g g' tr _ _ _ h; simp [PdGraph.sendBlockMessages] at h
  | succ fuel ih =>
    intro g g' tr hs hord hfresh h htrace
    rcases sendBlockMessages_cases env next fuel g g' tr h with
      ⟨hq, hg, ht⟩ | ⟨d, rest, hq, hw, hg, ht⟩ | ⟨d, rest, tr', hq, hw1, hw2, hr, ht⟩
    · rw [hg, ht]
      refine ⟨hord, ?_, fun x _ => by simp⟩
      intro x hx
      rw [hq] at hx
      exact absurd hx (List.not_mem_nil x)
    · rw [hg, ht]
      refine ⟨hord, ?_, fun x _ => by simp⟩
      have hd : next ≤ d.message.getTimestamp := by
        have h1 : g.blockStartTimestamp ≤ d.message.getTimestamp :=
          hfresh d (by rw [hq]; exact List.mem_cons_self _ _)
        by_contra hc
        exact hw ⟨h1, not_le.mp hc⟩
      intro x hx
      have hp := hord.1
      rw [hq] at hx hp
      rcases List.mem_cons.mp hx with rfl | hx
      · exact hd
      · exact le_trans hd (keyLt_timestamp_le ((List.pairwise_cons.mp hp).1 x hx))
    · rw [ht] at htrace ⊢
      obtain ⟨f1, _, f3⟩ := deliverHead_frame env g d rest
      have hfresh2 : (g.deliverHead env d rest).QueueFresh := by
        intro x hx
        rw [f1, hs]
        rcases deliverHead_mem env g d rest x hx with hx | ⟨_, hx⟩
        · rw [← hs]
          exact hfresh x (by rw [hq]; exact List.mem_cons_of_mem _ hx)
        · exact htrace _ _ _ (List.mem_append_left _ hx)
      have htrace2 : ∀ (o' : Nat) (i' : Int) (m' : MessageRef),
          GraphCall.scheduleMessage o' i' m'
            ∈ callsDuring env (g.deliverHead env d rest).world tr' →
          start ≤ m'.getTimestamp := by
        intro o' i' m' hm
        rw [deliverHead_world] at hm
        exact htrace _ _ _ (List.mem_append_right _ hm)
      obtain ⟨h1, h2, h3⟩ := ih _ g' tr' (f1.trans hs)
        (deliverHead_queueOrdered env g d rest hq hord) hfresh2 hr htrace2
      refine ⟨h1, h2, ?_⟩
      intro x hx
      have e1 := h3 x (Nat.lt_of_lt_of_le hx f3)
      rw [deliverHead_count env g d rest x hx] at e1
      rw [hq, List.count_cons, List.count_cons]
      omega

/-- As `process_keeps_invariant`, for objects of which only the deliveries that the call
makes are known to schedule nothing before the block start. -/
theorem process_keeps_invariant_trace {W : Type} (env : ObjectWorld W) (g g' : PdGraph W)
    (fuel : Nat) (tr : List MessageDestination) (hord : g.QueueOrdered) (hfresh : g.QueueFresh)
    (h : g.process env fuel = some (g', tr))
    (htrace : ∀ (o' : Nat) (i' : Int) (m' : MessageRef),
      GraphCall.scheduleMessage o' i' m' ∈ callsDuring env g.world tr →
      g.blockStartTimestamp ≤ m'.getTimestamp) :
    g'.QueueOrdered ∧ g'.QueueFresh
    ∧ g'.blockStartTimestamp = g.blockStartTimestamp + g.blockDurationMs
    ∧ g'.blockDurationMs = g.blockDurationMs
    ∧ (∀ x : MessageDestination, x.seq < g.nextSeq →
        tr.count x + g'.messageCallbackQueue.count x = g.messageCallbackQueue.count x)
    ∧ (∀ x ∈ g.messageCallbackQueue,
        g.blockStartTimestamp + g.blockDurationMs ≤ x.message.getTimestamp →
        x ∈ g'.messageCallbackQueue)
    ∧ (∀ x ∈ tr, g.blockStartTimestamp ≤ x.message.getTimestamp
        ∧ x.message.getTimestamp < g.blockStartTimestamp + g.blockDurationMs) := by
  obtain ⟨g1, hr, rfl⟩ := process_some h
  obtain ⟨a1, a2, a3⟩ := sendBlockMessages_window_trace env _ g.blockStartTimestamp fuel g g1 tr
    rfl hord hfresh hr htrace
  obtain ⟨_, b2, _, b4, b5⟩ := sendBlockMessages_frame env _ fuel g g1 tr hr
  exact ⟨a1, a2, rfl, b2, a3, b5, b4⟩

/-- With objects that, handling a message of the window, schedule nothing before its end, the
loop leaves after at most one test more than there are queued entries with a timestamp before
the end of the window. -/
theorem sendBlockMessages_returns_window {W : Type} (env : ObjectWorld W) (start next : ℚ)
    (henv : SchedulesPastWindow env start next) :
    ∀ (fuel : Nat) (g : PdGraph W), g.blockStartTimestamp = start →
      g.messageCallbackQueue.countP (fun x => decide (x.message.getTimestamp < next)) < fuel →
      (PdGraph.sendBlockMessages env next fuel g).isSome = true := by
  intro fuel
  induction fuel with
  | zero => intro g _ h; omega
  | succ fuel ih =>
    intro g hs h
    unfold PdGraph.sendBlockMessages
    cases hq : g.messageCallbackQueue with
    | nil => simp
    | cons d rest =>
      simp only []
      by_cases hw : g.blockStartTimestamp ≤ d.message.getTimestamp
          ∧ d.message.getTimestamp < next
      · rw [if_pos hw]
        have hcount : (g.deliverHead env d rest).messageCallbackQueue.countP
              (fun x => decide (x.message.getTimestamp < next))
            = rest.countP (fun x => decide (x.message.getTimestamp < next)) := by
          rw [deliverHead_eq]
          exact applyCalls_countP next _ _
            (fun o i m hm => henv _ _ _ _ o i m (hs ▸ hw.1) hw.2 hm)
        have hlt : (g.deliverHead env d rest).messageCallbackQueue.countP
            (fun x => decide (x.message.getTimestamp < next)) < fuel := by
          rw [hcount]
          rw [hq, List.countP_cons_of_pos _ _ (by simpa using hw.2)] at h
          omega
        obtain ⟨⟨g2, tr⟩, hr⟩ := Option.isSome_iff_exists.mp
          (ih _ ((deliverHead_frame env g d rest).1.trans hs) hlt)
        simp [hr]
      · rw [if_neg hw]
        simp

/-- With objects that, handling a message of the block, schedule nothing before the next
block start, `process` returns; one loop test more than the length of the queue is enough. -/
theorem process_returns_window {W : Type} (env : ObjectWorld W) (g : PdGraph W)
    (henv : SchedulesPastWindow env g.blockStartTimestamp
      (g.blockStartTimestamp + g.blockDurationMs)) :
    (g.process env (g.messageCallbackQueue.length + 1)).isSome = true := by
  have h := sendBlockMessages_returns_window env _ _ henv (g.messageCallbackQueue.length + 1) g
    rfl (Nat.lt_succ_of_le (List.countP_le_length _))
  obtain ⟨⟨g1, tr⟩, hr⟩ := Option.isSome_iff_exists.mp h
  simp [PdGraph.process, hr]

/-- What the deliveries of a call schedule, when every delivery of a message at or after `t`
schedules nothing before `t` and the call delivers such messages only. -/
theorem callsDuring_of_world {W : Type} (env : ObjectWorld W) (t : ℚ)
    (henv : ∀ (w : W) (o : Nat) (i : Int) (m : MessageRef) (o' : Nat) (i' : Int)
      (m' : MessageRef), t ≤ m.getTimestamp →
      GraphCall.scheduleMessage o' i' m' ∈ (env.sendMessage w o i m).2 →
      t ≤ m'.getTimestamp) :
    ∀ (tr : List MessageDestination) (w : W), (∀ x ∈ tr, t ≤ x.message.getTimestamp) →
      ∀ (o' : Nat) (i' : Int) (m' : MessageRef),
        GraphCall.scheduleMessage o' i' m' ∈ callsDuring env w tr → t ≤ m'.getTimestamp := by
  intro tr
  induction tr with
  | nil =>
    intro w _ o' i' m' hm
    simp [callsDuring] at hm
  | cons d ds ih =>
    intro w hall o' i' m' hm
    unfold callsDuring at hm
    rcases List.mem_append.mp hm with hm | hm
    · exact henv _ _ _ _ _ _ _ (hall d (List.mem_cons_self _ _)) hm
    · exact ih _ (fun x hx => hall x (List.mem_cons_of_mem _ hx)) _ _ _ hm

/-! ## Facts on the concrete worlds and graphs -/

theorem quietWorld_noScheduleBefore (t : ℚ) : NoScheduleBefore quietWorld t := by
  intro w o i m o' i' m' h
  simp [quietWorld] at h

theorem quietWorld_causal : Causal quietWorld := by
  intro w o i m o' i' m' h
  simp [quietWorld] at h

theorem echoWorld_causal : Causal echoWorld := by
  intro w o i m o' i' m' h
  by_cases ha : m.address = 1
  · simp [echoWorld, ha] at h
    rw [h.2.2]
    simp [bangAt, MessageRef.getTimestamp, PdMessage.getTimestamp]
  · simp [echoWorld, ha] at h

theorem twoInWindow_queue :
    twoInWindow.messageCallbackQueue = [⟨7, 0, bangAt 1 0, 0⟩, ⟨8, 1, bangAt 2 5, 1⟩] := by
  norm_num [twoInWindow, PdGraph.init, PdGraph.scheduleMessage, insertMessage, keyLt, bangAt,
    MessageRef.getTimestamp, PdMessage.getTimestamp]

theorem twoInWindow_ordered : twoInWindow.QueueOrdered :=
  scheduleMessage_queueOrdered (scheduleMessage_queueOrdered (init_queueOrdered _ _) _ _ _) _ _ _

theorem twoInWindow_fresh : twoInWindow.QueueFresh := by
  intro d hd
  rw [twoInWindow_queue] at hd
  simp only [List.mem_cons, List.mem_singleton, List.not_mem_nil, or_false] at hd
  rcases hd with rfl | rfl <;>
    norm_num [twoInWindow, PdGraph.init, PdGraph.scheduleMessage, bangAt,
      MessageRef.getTimestamp, PdMessage.getTimestamp]

theorem atBothEnds_queue :
    atBothEnds.messageCallbackQueue = [⟨7, 0, bangAt 1 0, 0⟩, ⟨8, 0, bangAt 2 10, 1⟩] := by
  norm_num [atBothEnds, PdGraph.init, PdGraph.scheduleMessage, insertMessage, keyLt, bangAt,
    MessageRef.getTimestamp, PdMessage.getTimestamp]

theorem atBothEnds_ordered : atBothEnds.QueueOrdered :=
  scheduleMessage_queueOrdered (scheduleMessage_queueOrdered (init_queueOrdered _ _) _ _ _) _ _ _

theorem atBothEnds_fresh : atBothEnds.QueueFresh := by
  intro d hd
  rw [atBothEnds_queue] at hd
  simp only [List.mem_cons, List.mem_singleton, List.not_mem_nil, or_false] at hd
  rcases hd with rfl | rfl <;>
    norm_num [atBothEnds, PdGraph.init, PdGraph.scheduleMessage, bangAt,
      MessageRef.getTimestamp, PdMessage.getTimestamp]

theorem twoAtFive_ordered : twoAtFive.QueueOrdered :=
  scheduleMessage_queueOrdered (scheduleMessage_queueOrdered (init_queueOrdered _ _) _ _ _) _ _ _

theorem delayWorld_causal : Causal delayWorld := by
  intro w o i m o' i' m' h
  by_cases ha : m.address = 1
  · simp [delayWorld, ha] at h
    rw [h.2.2]
    simp [bangAt, MessageRef.getTimestamp, PdMessage.getTimestamp]
  · simp [delayWorld, ha] at h

/-- The objects of `delayWorld` schedule twelve milliseconds ahead: past every window that
ends at most twelve milliseconds after its start. -/
theorem delayWorld_schedulesPastWindow (start next : ℚ) (h : next ≤ start + 12) :
    SchedulesPastWindow delayWorld start next := by
  intro w o i m o' i' m' hlo _ hm
  by_cases ha : m.address = 1
  · simp [delayWorld, ha] at hm
    rw [hm.2.2]
    simp only [bangAt, MessageRef.getTimestamp, PdMessage.getTimestamp] at hlo ⊢
    linarith
  · simp [delayWorld, ha] at hm

theorem recordedTwoInWindow_queue :
    recordedTwoInWindow.messageCallbackQueue
      = [⟨7, 0, bangAt 1 0, 0⟩, ⟨8, 1, bangAt 2 5, 1⟩] := by
  norm_num [recordedTwoInWindow, PdGraph.init, PdGraph.scheduleMessage, insertMessage, keyLt,
    bangAt, MessageRef.getTimestamp, PdMessage.getTimestamp]

theorem recordedTwoInWindow_ordered : recordedTwoInWindow.QueueOrdered :=
  scheduleMessage_queueOrdered (scheduleMessage_queueOrdered (init_queueOrdered _ _) _ _ _) _ _ _

theorem recordedTwoInWindow_fresh : recordedTwoInWindow.QueueFresh := by
  intro d hd
  rw [recordedTwoInWindow_queue] at hd
  simp only [List.mem_cons, List.mem_singleton, List.not_mem_nil, or_false] at hd
  rcases hd with rfl | rfl <;>
    norm_num [recordedTwoInWindow, PdGraph.init, PdGraph.scheduleMessage, bangAt,
      MessageRef.getTimestamp, PdMessage.getTimestamp]

/-! ## Claims on the scheduler -/

/-- C6, as stated, fails: on the initial graph (block window from 0 ms to 10 ms) a message dated
-1 ms is scheduled, then a message at 0 ms; `process` returns without a single `sendMessage`
call, the record of the calls being empty, and the message at 0 ms is still queued
afterwards. -/
theorem process_stale_head_blocks_window :
    (⟨8, 0, bangAt 2 0, 1⟩ : MessageDestination) ∈ staleHead.messageCallbackQueue
    ∧ staleHead.blockStartTimestamp ≤ (bangAt 2 0).getTimestamp
    ∧ (bangAt 2 0).getTimestamp < staleHead.blockStartTimestamp + staleHead.blockDurationMs
    ∧ ∃ g' : PdGraph (List SendRecord), staleHead.process delayWorld 1 = some (g', [])
        ∧ g'.world = []
        ∧ (⟨8, 0, bangAt 2 0, 1⟩ : MessageDestination) ∈ g'.messageCallbackQueue := by
  refine ⟨?_, ?_, ?_, ?_⟩
  · norm_num [staleHead, PdGraph.init, PdGraph.scheduleMessage, insertMessage, keyLt, bangAt,
      MessageRef.getTimestamp, PdMessage.getTimestamp]
  · norm_num [staleHead, PdGraph.init, PdGraph.scheduleMessage, bangAt,
      MessageRef.getTimestamp, PdMessage.getTimestamp]
  · norm_num [staleHead, PdGraph.init, PdGraph.scheduleMessage, bangAt,
      MessageRef.getTimestamp, PdMessage.getTimestamp]
  · norm_num [staleHead, PdGraph.process, PdGraph.sendBlockMessages, PdGraph.init,
      PdGraph.scheduleMessage, insertMessage, keyLt, bangAt, delayWorld,
      MessageRef.getTimestamp, PdMessage.getTimestamp]

/-- C6, amended: take a queue in key order in which no timestamp lies before
`blockStartTimestamp`.  A returning call of `process` has called `sendMessage`, on the target
object and outlet index and with the message, for the entries it lists as delivered, in their
order, and made no other such call: the world it leaves is the world it found with these calls
applied and the audio pass run.  When none of these deliveries has scheduled a message before
`blockStartTimestamp`, every entry that was queued at the call with a timestamp in
`[blockStartTimestamp, blockStartTimestamp + blockDurationMs)` is delivered exactly once and is
no longer queued.  The call does return when the delivery of a message of the block schedules
nothing before the next block start. -/
theorem process_delivers_window_once {W : Type} (env : ObjectWorld W) (g : PdGraph W)
    (hord : g.QueueOrdered) (hfresh : g.QueueFresh) :
    (∀ (fuel : Nat) (g' : PdGraph W) (delivered : List MessageDestination),
        g.process env fuel = some (g', delivered) →
        g'.world = env.processDsp (worldAfter env g.world delivered)
        ∧ ((∀ (o' : Nat) (i' : Int) (m' : MessageRef),
              GraphCall.scheduleMessage o' i' m' ∈ callsDuring env g.world delivered →
              g.blockStartTimestamp ≤ m'.getTimestamp) →
            ∀ d ∈ g.messageCallbackQueue,
              g.blockStartTimestamp ≤ d.message.getTimestamp →
              d.message.getTimestamp < g.blockStartTimestamp + g.blockDurationMs →
              delivered.count d = 1 ∧ d ∉ g'.messageCallbackQueue))
    ∧ (SchedulesPastWindow env g.blockStartTimestamp
          (g.blockStartTimestamp + g.blockDurationMs) →
        (g.process env (g.messageCallbackQueue.length + 1)).isSome = true) := by
  refine ⟨?_, process_returns_window env g⟩
  intro fuel g' delivered h
  refine ⟨process_world h, ?_⟩
  intro htrace d hd _ hd2
  obtain ⟨_, hfresh', hstart, _, hcount, _, _⟩ :=
    process_keeps_invariant_trace env g g' fuel delivered hord hfresh h htrace
  have hnot : d ∉ g'.messageCallbackQueue := by
    intro hin
    have := hfresh' d hin
    rw [hstart] at this
    exact absurd hd2 (not_lt.mpr this)
  have h1 := hcount d (hord.2 d hd)
  rw [queueOrdered_count hord hd, List.count_eq_zero_of_not_mem hnot] at h1
  exact ⟨by omega, hnot⟩

/-- The amended C6 on two messages of the first block, at 0 ms and 5 ms, and objects that
record the `sendMessage` calls, the first delivery scheduling a message at 12 ms: the call
returns, the record holds the two calls in order, both entries have left the queue, and the
message scheduled meanwhile is queued, with one reservation. -/
theorem process_delivers_window_once_witness :
    SchedulesPastWindow delayWorld recordedTwoInWindow.blockStartTimestamp
      (recordedTwoInWindow.blockStartTimestamp + recordedTwoInWindow.blockDurationMs)
    ∧ (recordedTwoInWindow.process delayWorld
        (recordedTwoInWindow.messageCallbackQueue.length + 1)).isSome = true
    ∧ ∃ g' : PdGraph (List SendRecord),
        recordedTwoInWindow.process delayWorld 3
          = some (g', [⟨7, 0, bangAt 1 0, 0⟩, ⟨8, 1, bangAt 2 5, 1⟩])
        ∧ g'.world = [(7, 0, bangAt 1 0), (8, 1, bangAt 2 5)]
        ∧ g'.messageCallbackQueue = [⟨9, 0, bangAt 3 12, 2⟩]
        ∧ g'.reservation 1 = 0 ∧ g'.reservation 2 = 0 ∧ g'.reservation 3 = 1
        ∧ List.count (⟨8, 1, bangAt 2 5, 1⟩ : MessageDestination)
            [⟨7, 0, bangAt 1 0, 0⟩, ⟨8, 1, bangAt 2 5, 1⟩] = 1
        ∧ (⟨8, 1, bangAt 2 5, 1⟩ : MessageDestination) ∉ g'.messageCallbackQueue := by
  have H := process_delivers_window_once delayWorld recordedTwoInWindow
    recordedTwoInWindow_ordered recordedTwoInWindow_fresh
  have hpast := delayWorld_schedulesPastWindow recordedTwoInWindow.blockStartTimestamp
    (recordedTwoInWindow.blockStartTimestamp + recordedTwoInWindow.blockDurationMs)
    (by norm_num [recordedTwoInWindow, PdGraph.init, PdGraph.scheduleMessage])
  have hrun : ∃ g' : PdGraph (List SendRecord),
      recordedTwoInWindow.process delayWorld 3
        = some (g', [⟨7, 0, bangAt 1 0, 0⟩, ⟨8, 1, bangAt 2 5, 1⟩])
      ∧ g'.messageCallbackQueue = [⟨9, 0, bangAt 3 12, 2⟩]
      ∧ g'.reservation 1 = 0 ∧ g'.reservation 2 = 0 ∧ g'.reservation 3 = 1 := by
    norm_num [recordedTwoInWindow, PdGraph.process, PdGraph.sendBlockMessages,
      PdGraph.deliverHead, PdGraph.applyCalls, PdGraph.scheduleMessage, PdGraph.init,
      insertMessage, keyLt, bangAt, MessageRef.getTimestamp, PdMessage.getTimestamp,
      delayWorld, reserve, unreserve, Function.update]
  obtain ⟨g', hg', hqueue, hr1, hr2, hr3⟩ := hrun
  obtain ⟨hworld, hcount⟩ := H.1 3 g' _ hg'
  have htrace : ∀ (o' : Nat) (i' : Int) (m' : MessageRef),
      GraphCall.scheduleMessage o' i' m'
        ∈ callsDuring delayWorld recordedTwoInWindow.world
            [⟨7, 0, bangAt 1 0, 0⟩, ⟨8, 1, bangAt 2 5, 1⟩] →
      recordedTwoInWindow.blockStartTimestamp ≤ m'.getTimestamp := by
    intro o' i' m' hm
    norm_num [callsDuring, delayWorld, bangAt, MessageRef.getTimestamp,
      PdMessage.getTimestamp] at hm
    rw [hm.2.2]
    norm_num [recordedTwoInWindow, PdGraph.init, PdGraph.scheduleMessage, bangAt,
      MessageRef.getTimestamp, PdMessage.getTimestamp]
  have hd := hcount htrace ⟨8, 1, bangAt 2 5, 1⟩
    (by rw [recordedTwoInWindow_queue]; simp)
    (by norm_num [recordedTwoInWindow, PdGraph.init, PdGraph.scheduleMessage, bangAt,
      MessageRef.getTimestamp, PdMessage.getTimestamp])
    (by norm_num [recordedTwoInWindow, PdGraph.init, PdGraph.scheduleMessage, bangAt,
      MessageRef.getTimestamp, PdMessage.getTimestamp])
  refine ⟨hpast, H.2 hpast, g', hg', ?_, hqueue, hr1, hr2, hr3, hd.1, hd.2⟩
  rw [hworld]
  rfl

/-- From a queue in key order without stale entries, objects that schedule no message before
the one they handle and a positive block duration: a returning `process` has delivered every
queued entry whose timestamp is the block start. -/
theorem process_delivers_block_start {W : Type} (env : ObjectWorld W) (g : PdGraph W)
    (hord : g.QueueOrdered) (hfresh : g.QueueFresh) (hc : Causal env)
    (hdur : 0 < g.blockDurationMs) (fuel : Nat) (g' : PdGraph W)
    (delivered : List MessageDestination) (h : g.process env fuel = some (g', delivered))
    (d : MessageDestination) (hd : d ∈ g.messageCallbackQueue)
    (hts : d.message.getTimestamp = g.blockStartTimestamp) : d ∈ delivered := by
  obtain ⟨_, hfresh', hstart, _, hcount, _, _⟩ := process_keeps_invariant env g g' fuel delivered
    hord hfresh (fun w o i m o' i' m' hm hs => le_trans hm (hc w o i m o' i' m' hs)) h
  have hnot : d ∉ g'.messageCallbackQueue := by
    intro hin
    have := hfresh' d hin
    rw [hstart, hts] at this
    linarith
  have h1 := hcount d (hord.2 d hd)
  rw [queueOrdered_count hord hd, List.count_eq_zero_of_not_mem hnot] at h1
  exact List.count_pos_iff.mp (by omega)

/-- C7, as stated, fails: after one silent block the block start is 10 ms; a message dated 5 ms
is scheduled, then a message at 10 ms.  The next `process` returns without a single
`sendMessage` call, the record of the calls being empty, and the message whose timestamp
equals `blockStartTimestamp` is still queued. -/
theorem process_block_start_blocked_by_late_arrival :
    (PdGraph.init 10 ([] : List SendRecord)).process delayWorld 1
        = some (({ PdGraph.init 10 [] with blockStartTimestamp := 10 }
            : PdGraph (List SendRecord)), [])
    ∧ (⟨8, 0, bangAt 2 10, 1⟩ : MessageDestination) ∈ lateArrival.messageCallbackQueue
    ∧ (bangAt 2 10).getTimestamp = lateArrival.blockStartTimestamp
    ∧ ∃ g' : PdGraph (List SendRecord), lateArrival.process delayWorld 1 = some (g', [])
        ∧ g'.world = []
        ∧ (⟨8, 0, bangAt 2 10, 1⟩ : MessageDestination) ∈ g'.messageCallbackQueue := by
  refine ⟨?_, ?_, ?_, ?_⟩
  · norm_num [PdGraph.process, PdGraph.sendBlockMessages, PdGraph.init, delayWorld]
  · norm_num [lateArrival, PdGraph.init, PdGraph.scheduleMessage, insertMessage, keyLt, bangAt,
      MessageRef.getTimestamp, PdMessage.getTimestamp]
  · norm_num [lateArrival, PdGraph.init, PdGraph.scheduleMessage, bangAt,
      MessageRef.getTimestamp, PdMessage.getTimestamp]
  · norm_num [lateArrival, PdGraph.process, PdGraph.sendBlockMessages, PdGraph.init,
      PdGraph.scheduleMessage, insertMessage, keyLt, bangAt, delayWorld,
      MessageRef.getTimestamp, PdMessage.getTimestamp]

/-- C7, amended: take a queue in key order in which no timestamp lies before
`blockStartTimestamp`, objects that schedule no message before the one they handle, and a
positive block duration.  A returning `process` has called `sendMessage`, on the target object
and outlet index and with the message, for the entries it lists as delivered, in their order,
and made no other such call; among them is every queued message whose timestamp equals
`blockStartTimestamp`.  A queued message whose timestamp equals
`blockStartTimestamp + blockDurationMs` is not among them, is still queued when the call
returns, and is among the deliveries of the next returning call.  Each call returns when the
delivery of a message of its window schedules nothing before the end of the window. -/
theorem process_window_closed_open {W : Type} (env : ObjectWorld W) (g : PdGraph W)
    (hord : g.QueueOrdered) (hfresh : g.QueueFresh) (hc : Causal env)
    (hdur : 0 < g.blockDurationMs) :
    (∀ (fuel : Nat) (g' : PdGraph W) (delivered : List MessageDestination),
        g.process env fuel = some (g', delivered) →
        g'.world = env.processDsp (worldAfter env g.world delivered)
        ∧ (∀ d ∈ g.messageCallbackQueue, d.message.getTimestamp = g.blockStartTimestamp →
          d ∈ delivered)
        ∧ (∀ d ∈ g.messageCallbackQueue,
            d.message.getTimestamp = g.blockStartTimestamp + g.blockDurationMs →
            d ∉ delivered ∧ d ∈ g'.messageCallbackQueue
            ∧ (∀ (fuel2 : Nat) (g'' : PdGraph W) (delivered2 : List MessageDestination),
                g'.process env fuel2 = some (g'', delivered2) →
                d ∈ delivered2
                ∧ g''.world = env.processDsp (worldAfter env g'.world delivered2)))
        ∧ (SchedulesPastWindow env g'.blockStartTimestamp
              (g'.blockStartTimestamp + g'.blockDurationMs) →
            (g'.process env (g'.messageCallbackQueue.length + 1)).isSome = true))
    ∧ (SchedulesPastWindow env g.blockStartTimestamp
          (g.blockStartTimestamp + g.blockDurationMs) →
        (g.process env (g.messageCallbackQueue.length + 1)).isSome = true) := by
  refine ⟨?_, process_returns_window env g⟩
  intro fuel g' delivered h
  obtain ⟨hord', hfresh', hstart, hdur', _, hkeep, hwin⟩ :=
    process_keeps_invariant env g g' fuel delivered hord hfresh
      (fun w o i m o' i' m' hm hs => le_trans hm (hc w o i m o' i' m' hs)) h
  refine ⟨process_world h, ?_, ?_, process_returns_window env g'⟩
  · intro d hd hts
    exact process_delivers_block_start env g hord hfresh hc hdur fuel g' delivered h d hd hts
  · intro d hd hts
    refine ⟨?_, hkeep d hd (le_of_eq hts.symm), ?_⟩
    · intro hin
      have := (hwin d hin).2
      rw [hts] at this
      exact lt_irrefl _ this
    · intro fuel2 g'' delivered2 h2
      exact ⟨process_delivers_block_start env g' hord' hfresh' hc (hdur'.symm ▸ hdur) fuel2 g''
        delivered2 h2 d (hkeep d hd (le_of_eq hts.symm)) (hts.trans hstart.symm),
        process_world h2⟩

/-- The amended C7 on a message at 0 ms and one at 10 ms, with blocks of 10 ms and objects
that record the `sendMessage` calls, the first delivery scheduling a message at 12 ms.  The
first call sends the message at 0 ms only; the second call sends the message at 10 ms and then
the one at 12 ms, and leaves an empty queue. -/
theorem process_window_closed_open_witness :
    ∃ g' g'' : PdGraph (List SendRecord),
      atBothEnds.process delayWorld 3 = some (g', [⟨7, 0, bangAt 1 0, 0⟩])
      ∧ g'.world = [(7, 0, bangAt 1 0)]
      ∧ g'.messageCallbackQueue = [⟨8, 0, bangAt 2 10, 1⟩, ⟨9, 0, bangAt 3 12, 2⟩]
      ∧ (⟨8, 0, bangAt 2 10, 1⟩ : MessageDestination) ∉ [(⟨7, 0, bangAt 1 0, 0⟩ : MessageDestination)]
      ∧ (g'.process delayWorld (g'.messageCallbackQueue.length + 1)).isSome = true
      ∧ g'.process delayWorld 3
          = some (g'', [⟨8, 0, bangAt 2 10, 1⟩, ⟨9, 0, bangAt 3 12, 2⟩])
      ∧ g''.world = [(7, 0, bangAt 1 0), (8, 0, bangAt 2 10), (9, 0, bangAt 3 12)]
      ∧ g''.messageCallbackQueue = []
      ∧ (⟨8, 0, bangAt 2 10, 1⟩ : MessageDestination)
          ∈ [(⟨8, 0, bangAt 2 10, 1⟩ : MessageDestination), ⟨9, 0, bangAt 3 12, 2⟩] := by
  have H := process_window_closed_open delayWorld atBothEnds atBothEnds_ordered atBothEnds_fresh
    delayWorld_causal (by norm_num [atBothEnds, PdGraph.init, PdGraph.scheduleMessage])
  have hrun : ∃ g' g'' : PdGraph (List SendRecord),
      atBothEnds.process delayWorld 3 = some (g', [⟨7, 0, bangAt 1 0, 0⟩])
      ∧ g'.messageCallbackQueue = [⟨8, 0, bangAt 2 10, 1⟩, ⟨9, 0, bangAt 3 12, 2⟩]
      ∧ g'.blockStartTimestamp = 10 ∧ g'.blockDurationMs = 10
      ∧ g'.process delayWorld 3
          = some (g'', [⟨8, 0, bangAt 2 10, 1⟩, ⟨9, 0, bangAt 3 12, 2⟩])
      ∧ g''.messageCallbackQueue = [] := by
    norm_num [atBothEnds, PdGraph.process, PdGraph.sendBlockMessages,
      PdGraph.deliverHead, PdGraph.applyCalls, PdGraph.scheduleMessage, PdGraph.init,
      insertMessage, keyLt, bangAt, MessageRef.getTimestamp, PdMessage.getTimestamp,
      delayWorld, reserve, unreserve]
  obtain ⟨g', g'', hg', hqueue, hstart, hdur, hg'', hqueue''⟩ := hrun
  obtain ⟨hworld, _, hnext, hret⟩ := H.1 3 g' _ hg'
  obtain ⟨hnot, _, hsecond⟩ := hnext ⟨8, 0, bangAt 2 10, 1⟩
    (by rw [atBothEnds_queue]; simp)
    (by norm_num [atBothEnds, PdGraph.init, PdGraph.scheduleMessage, bangAt,
      MessageRef.getTimestamp, PdMessage.getTimestamp])
  obtain ⟨hin, hworld''⟩ := hsecond 3 g'' _ hg''
  have hw1 : g'.world = [(7, 0, bangAt 1 0)] := by
    rw [hworld]; rfl
  refine ⟨g', g'', hg', hw1, hqueue, hnot, ?_, hg'', ?_, hqueue'', hin⟩
  · apply hret
    rw [hstart, hdur]
    exact delayWorld_schedulesPastWindow 10 (10 + 10) (by norm_num)
  · rw [hworld'', hw1]
    rfl

/-- C8, as stated, fails: the delivery of a message at 5 ms schedules a message at 3 ms, inside
the window from 0 ms to 10 ms; the same call of `process` delivers the message at 5 ms first
and the message at 3 ms after it. -/
theorem process_backdated_delivery_out_of_order :
    ∃ g' : PdGraph Unit,
      oneAtFive.process backdatingWorld 3
        = some (g', [⟨0, 0, bangAt 1 5, 0⟩, ⟨0, 0, bangAt 2 3, 1⟩])
      ∧ oneAtFive.blockStartTimestamp ≤ (bangAt 2 3).getTimestamp
      ∧ (bangAt 2 3).getTimestamp < oneAtFive.blockStartTimestamp + oneAtFive.blockDurationMs
      ∧ ¬ ((bangAt 1 5).getTimestamp ≤ (bangAt 2 3).getTimestamp) := by
  norm_num [oneAtFive, PdGraph.process, PdGraph.sendBlockMessages, PdGraph.deliverHead,
    PdGraph.init, PdGraph.scheduleMessage, insertMessage, backdatingWorld, bangAt,
    PdGraph.applyCalls, MessageRef.getTimestamp, PdMessage.getTimestamp, keyLt]

/-- C8, amended: from a queue in key order, when no delivery schedules a message with a
timestamp below that of the message it delivers, the deliveries of one call of `process` are
in strictly increasing order of the key `(timestamp, insertion-sequence)`: timestamps never
decrease, and entries of equal timestamp are delivered in the order of their insertion, also
when a delivery schedules further messages inside the current window. -/
theorem process_delivery_order {W : Type} (env : ObjectWorld W) (g : PdGraph W)
    (hord : g.QueueOrdered) (hc : Causal env) (fuel : Nat) (g' : PdGraph W)
    (delivered : List MessageDestination) (h : g.process env fuel = some (g', delivered)) :
    delivered.Pairwise keyLt
    ∧ delivered.Pairwise (fun a b => a.message.getTimestamp ≤ b.message.getTimestamp)
    ∧ delivered.Pairwise
        (fun a b => a.message.getTimestamp = b.message.getTimestamp → a.seq < b.seq) := by
  obtain ⟨g1, hr, _⟩ := process_some h
  have hp := (sendBlockMessages_ordered env _ hc fuel g g1 delivered hord hr).1
  refine ⟨hp, hp.imp (fun hab => keyLt_timestamp_le hab), hp.imp ?_⟩
  intro a b hab he
  rcases hab with hlt | ⟨_, hs⟩
  · exact absurd he (ne_of_lt hlt)
  · exact hs

/-- The amended C8 on two messages at 5 ms, the delivery of the first of which schedules a
third message at 5 ms: it is delivered in the same call, after the two queued before it. -/
theorem process_delivery_order_witness :
    ∃ g' : PdGraph Unit,
      twoAtFive.process echoWorld 4
        = some (g', [⟨0, 0, bangAt 1 5, 0⟩, ⟨0, 0, bangAt 3 5, 1⟩, ⟨0, 0, bangAt 2 5, 2⟩])
      ∧ List.Pairwise keyLt
          [⟨0, 0, bangAt 1 5, 0⟩, ⟨0, 0, bangAt 3 5, 1⟩, ⟨0, 0, bangAt 2 5, 2⟩] := by
  have hp : ∃ g' : PdGraph Unit, twoAtFive.process echoWorld 4
      = some (g', [⟨0, 0, bangAt 1 5, 0⟩, ⟨0, 0, bangAt 3 5, 1⟩, ⟨0, 0, bangAt 2 5, 2⟩]) := by
    norm_num [twoAtFive, PdGraph.process, PdGraph.sendBlockMessages, PdGraph.deliverHead,
      PdGraph.init, PdGraph.scheduleMessage, insertMessage, echoWorld, bangAt,
      PdGraph.applyCalls, MessageRef.getTimestamp, PdMessage.getTimestamp, keyLt]
  obtain ⟨g', hg⟩ := hp
  exact ⟨g', hg, (process_delivery_order echoWorld twoAtFive twoAtFive_ordered echoWorld_causal 4
    g' _ hg).1⟩

/-- C9 on the code: `cancelMessage` never changes the queue.  A message scheduled at 0 ms and
cancelled at once is still queued, with reservation count 0, and the next `process` delivers
it. -/
theorem cancelMessage_keeps_entry_queued :
    (∀ (g : PdGraph Unit) (o : Nat) (i : Int) (m : MessageRef),
      (g.cancelMessage o i m).messageCallbackQueue = g.messageCallbackQueue)
    ∧ scheduledThenCancelled.messageCallbackQueue = [⟨7, 0, bangAt 1 0, 0⟩]
    ∧ scheduledThenCancelled.reservation 1 = 0
    ∧ ∃ g' : PdGraph Unit,
        scheduledThenCancelled.process quietWorld 2 = some (g', [⟨7, 0, bangAt 1 0, 0⟩]) := by
  refine ⟨fun _ _ _ _ => rfl, ?_, ?_, ?_⟩
  · norm_num [scheduledThenCancelled, PdGraph.init, PdGraph.scheduleMessage,
      PdGraph.cancelMessage, insertMessage]
  · norm_num [scheduledThenCancelled, PdGraph.init, PdGraph.scheduleMessage,
      PdGraph.cancelMessage, reserve, unreserve, bangAt]
  · norm_num [scheduledThenCancelled, PdGraph.process, PdGraph.sendBlockMessages,
      PdGraph.deliverHead, PdGraph.init, PdGraph.scheduleMessage, PdGraph.cancelMessage,
      insertMessage, quietWorld, bangAt, PdGraph.applyCalls, MessageRef.getTimestamp,
      PdMessage.getTimestamp, keyLt]

/-- C10 on the code: a message scheduled once on the empty scheduler and then cancelled is still
in the queue with reservation count 0, and when `process` fires it the count is -1. -/
theorem cancelled_message_reservation_below_zero :
    (⟨3, 0, bangAt 4 2, 0⟩ : MessageDestination) ∈ reservedThenCancelled.messageCallbackQueue
    ∧ reservedThenCancelled.reservation (bangAt 4 2).address = 0
    ∧ ∃ g' : PdGraph Unit,
        reservedThenCancelled.process quietWorld 2 = some (g', [⟨3, 0, bangAt 4 2, 0⟩])
        ∧ g'.reservation (bangAt 4 2).address = -1 := by
  refine ⟨?_, ?_, ?_⟩
  · norm_num [reservedThenCancelled, PdGraph.init, PdGraph.scheduleMessage,
      PdGraph.cancelMessage, insertMessage]
  · norm_num [reservedThenCancelled, PdGraph.init, PdGraph.scheduleMessage,
      PdGraph.cancelMessage, reserve, unreserve, bangAt]
  · norm_num [reservedThenCancelled, PdGraph.process, PdGraph.sendBlockMessages,
      PdGraph.deliverHead, PdGraph.init, PdGraph.scheduleMessage, PdGraph.cancelMessage,
      insertMessage, quietWorld, bangAt, PdGraph.applyCalls, MessageRef.getTimestamp,
      PdMessage.getTimestamp, keyLt, reserve, unreserve]

/-! ## Connections and the registry of named channels -/

theorem connect_lists (st : Patch) (f : Nat) (o : Int) (t : Nat) (i : Int) :
    (st.connect f o t i).messageSendList = st.messageSendList
    ∧ (st.connect f o t i).messageReceiveList = st.messageReceiveList
    ∧ (st.connect f o t i).printed = st.printed
    ∧ (st.connect f o t i).nextObject = st.nextObject := ⟨rfl, rfl, rfl, rfl⟩

/-- A connection touches the two objects it joins and no other. -/
theorem connect_objects_of_ne (st : Patch) (f : Nat) (o : Int) (t : Nat) (i : Int) (x : Nat)
    (hf : x ≠ f) (ht : x ≠ t) : (st.connect f o t i).objects x = st.objects x := by
  simp [Patch.connect, Function.update_noteq hf, Function.update_noteq ht]

/-- A connection changes connection lists only: names, labels, flags and node lists stay. -/
theorem connect_fields (st : Patch) (f : Nat) (o : Int) (t : Nat) (i : Int) (x : Nat) :
    ((st.connect f o t i).objects x).name = (st.objects x).name
    ∧ ((st.connect f o t i).objects x).label = (st.objects x).label
    ∧ ((st.connect f o t i).objects x).processesAudio = (st.objects x).processesAudio
    ∧ ((st.connect f o t i).objects x).isOrdered = (st.objects x).isOrdered
    ∧ ((st.connect f o t i).objects x).nodeList = (st.objects x).nodeList
    ∧ ((st.connect f o t i).objects x).dspNodeList = (st.objects x).dspNodeList := by
  unfold Patch.connect
  by_cases hf : x = f <;> by_cases ht : x = t <;>
    simp [Function.update, hf, ht, MessageObject.addConnectionFromObjectToInlet,
      MessageObject.addConnectionToObjectFromOutlet] <;>
    (split <;> simp_all)

/-- The outgoing list at an outlet of the source after a connection. -/
theorem connect_outgoing (st : Patch) (f : Nat) (o : Int) (t : Nat) (i : Int) :
    ((st.connect f o t i).objects f).outgoingMessageConnectionsListAtOutlet o
      = (st.objects f).outgoingMessageConnectionsListAtOutlet o ++ [⟨t, i⟩] := by
  unfold Patch.connect
  by_cases h : f = t
  · subst h
    simp [MessageObject.addConnectionFromObjectToInlet,
      MessageObject.addConnectionToObjectFromOutlet]
  · simp [Function.update_noteq h, MessageObject.addConnectionFromObjectToInlet,
      MessageObject.addConnectionToObjectFromOutlet]

/-- The incoming list at an inlet of the destination after a connection. -/
theorem connect_incoming (st : Patch) (f : Nat) (o : Int) (t : Nat) (i : Int) :
    ((st.connect f o t i).objects t).incomingMessageConnectionsListAtInlet i
      = (st.objects t).incomingMessageConnectionsListAtInlet i ++ [⟨f, o⟩] := by
  unfold Patch.connect
  by_cases h : t = f
  · subst h
    simp [MessageObject.addConnectionFromObjectToInlet,
      MessageObject.addConnectionToObjectFromOutlet]
  · simp [Function.update_noteq h, MessageObject.addConnectionFromObjectToInlet,
      MessageObject.addConnectionToObjectFromOutlet]

theorem registerMessageSend_depth (depth : Nat) (st : Patch) (messageSend : Nat) :
    st.registerMessageSend depth messageSend = st.registerMessageSend 0 messageSend := by
  induction depth with
  | zero => rfl
  | succ d ih => rw [← ih]; rfl

theorem registerMessageReceive_depth (depth : Nat) (st : Patch) (messageReceive : Nat) :
    st.registerMessageReceive depth messageReceive
      = st.registerMessageReceive 0 messageReceive := by
  induction depth with
  | zero => rfl
  | succ d ih => rw [← ih]; rfl

/-- What `getMessageSend` finds is a registered send of that name. -/
theorem getMessageSend_some {st : Patch} {name : String} {s : Nat}
    (h : st.getMessageSend name = some s) :
    s ∈ st.messageSendList ∧ (st.objects s).name = name := by
  unfold Patch.getMessageSend at h
  refine ⟨List.mem_of_find?_eq_some h, ?_⟩
  have := List.find?_some h
  simpa using this

/-- With a registered send of that name, `getMessageSend` finds one. -/
theorem getMessageSend_isSome {st : Patch} {name : String} {s : Nat}
    (hs : s ∈ st.messageSendList) (hn : (st.objects s).name = name) :
    (st.getMessageSend name).isSome = true := by
  unfold Patch.getMessageSend
  rw [List.find?_isSome]
  exact ⟨s, hs, by simpa using hn⟩

/-- Without a registered send of that name, `getMessageSend` returns the null pointer. -/
theorem getMessageSend_none {st : Patch} {name : String}
    (h : ∀ s ∈ st.messageSendList, (st.objects s).name ≠ name) :
    st.getMessageSend name = none := by
  unfold Patch.getMessageSend
  rw [List.find?_eq_none]
  intro s hs
  simpa using h s hs

/-- Registering a receive on the root graph: the receive is added at the end of the list, and
the only connection made starts at the registered send that `getMessageSend` finds. -/
theorem registerMessageReceive_root (st : Patch) (r : Nat) :
    st.registerMessageReceive 0 r
      = match ({ st with messageReceiveList := st.messageReceiveList ++ [r] } : Patch).getMessageSend
            (st.objects r).name with
        | some s =>
          ({ st with messageReceiveList := st.messageReceiveList ++ [r] } : Patch).connect s 0 r 0
        | none => { st with messageReceiveList := st.messageReceiveList ++ [r] } := rfl

theorem registerMessageReceive_lists (depth : Nat) (st : Patch) (r : Nat) :
    (st.registerMessageReceive depth r).messageReceiveList = st.messageReceiveList ++ [r]
    ∧ (st.registerMessageReceive depth r).messageSendList = st.messageSendList
    ∧ (st.registerMessageReceive depth r).printed = st.printed := by
  rw [registerMessageReceive_depth, registerMessageReceive_root]
  split <;> exact ⟨rfl, rfl, rfl⟩

/-- Registering a receive leaves every object alone that is neither the receive nor a
registered send. -/
theorem registerMessageReceive_objects_of_ne (depth : Nat) (st : Patch) (r x : Nat)
    (hr : x ≠ r) (hx : x ∉ st.messageSendList) :
    (st.registerMessageReceive depth r).objects x = st.objects x := by
  rw [registerMessageReceive_depth, registerMessageReceive_root]
  split
  · rename_i s hs
    have hmem := (getMessageSend_some hs).1
    have hne : x ≠ s := fun e => hx (e ▸ hmem)
    rw [connect_objects_of_ne _ _ _ _ _ _ hne hr]
  · rfl

/-- C13: registering a send whose name is that of an already registered send prints the error
and changes nothing else: the list of senders (the first sender is kept), the list of
receivers and every object, hence every connection list, are as before, and a receive
registered afterwards is not connected to the rejected sender.  Registering a receive always
adds it at the end of the list of receivers, whatever names are in use, and prints nothing. -/
theorem registerMessageSend_duplicate_rejected (depth : Nat) (st : Patch)
    (messageSend first : Nat) (hfirst : first ∈ st.messageSendList)
    (hname : (st.objects first).name = (st.objects messageSend).name) :
    (st.registerMessageSend depth messageSend).printed
        = st.printed ++ ["[send] object with duplicate name added to graph."]
    ∧ (st.registerMessageSend depth messageSend).messageSendList = st.messageSendList
    ∧ (st.registerMessageSend depth messageSend).messageReceiveList = st.messageReceiveList
    ∧ (st.registerMessageSend depth messageSend).objects = st.objects
    ∧ (∀ (depth' r : Nat), messageSend ∉ st.messageSendList → r ≠ messageSend →
        (((st.registerMessageSend depth messageSend).registerMessageReceive depth' r).objects
          messageSend) = st.objects messageSend)
    ∧ (∀ (depth' : Nat) (st' : Patch) (r : Nat),
        (st'.registerMessageReceive depth' r).messageReceiveList = st'.messageReceiveList ++ [r]
        ∧ (st'.registerMessageReceive depth' r).messageSendList = st'.messageSendList
        ∧ (st'.registerMessageReceive depth' r).printed = st'.printed) := by
  have hreg : st.registerMessageSend depth messageSend
      = st.printErr "[send] object with duplicate name added to graph." := by
    rw [registerMessageSend_depth]
    show (if (st.getMessageSend (st.objects messageSend).name).isSome then _ else _) = _
    rw [if_pos (getMessageSend_isSome hfirst hname)]
  rw [hreg]
  refine ⟨rfl, rfl, rfl, rfl, ?_, fun depth' st' r => registerMessageReceive_lists depth' st' r⟩
  intro depth' r hnot hne
  exact registerMessageReceive_objects_of_ne depth' _ r messageSend (Ne.symm hne) hnot

/-- C13 on the patch with the send `foo` at address 1 registered: the send `foo` at address 2
is rejected, from a graph with two ancestors. -/
theorem registerMessageSend_duplicate_rejected_witness :
    (1 : Nat) ∈ oneSendRegistered.messageSendList
    ∧ (oneSendRegistered.objects 1).name = (oneSendRegistered.objects 2).name
    ∧ (oneSendRegistered.registerMessageSend 2 2).printed
        = oneSendRegistered.printed ++ ["[send] object with duplicate name added to graph."]
    ∧ (oneSendRegistered.registerMessageSend 2 2).messageSendList = [1] := by
  have h1 : oneSendRegistered.messageSendList = [1] := by
    simp [oneSendRegistered, channelPatch, Patch.ofObjects, Patch.registerMessageSend,
      Patch.getMessageSend, Patch.connectToReceivers]
  have h2 : oneSendRegistered.objects = channelObjects := by
    simp [oneSendRegistered, channelPatch, Patch.ofObjects, Patch.registerMessageSend,
      Patch.getMessageSend, Patch.connectToReceivers]
  have hm : (1 : Nat) ∈ oneSendRegistered.messageSendList := by rw [h1]; simp
  have hn : (oneSendRegistered.objects 1).name = (oneSendRegistered.objects 2).name := by
    rw [h2]; simp [channelObjects, MessageObject.plain]
  have H := registerMessageSend_duplicate_rejected 2 oneSendRegistered 2 1 hm hn
  exact ⟨hm, hn, H.1, H.2.1.trans h1⟩

/-- The calls of the dispatch loop: the receives of that name, in list order. -/
theorem dispatchLoop_calls {W : Type} (receiveMessage : W → Nat → Int → PdMessage → W)
    (st : Patch) (name : String) (message : PdMessage) :
    ∀ (l : List Nat) (w : W),
      (Patch.dispatchLoop receiveMessage st name message l w).2
        = (l.filter (fun r => decide ((st.objects r).name = name))).map
            (fun r => ((r, 0, message) : ReceiveCall)) := by
  intro l
  induction l with
  | nil => intro w; rfl
  | cons r rest ih =>
    intro w
    unfold Patch.dispatchLoop
    by_cases h : (st.objects r).name = name
    · rw [if_pos h, List.filter_cons_of_pos (by simpa using h), List.map_cons]
      show _ :: (Patch.dispatchLoop receiveMessage st name message rest _).2 = _
      rw [ih]
    · rw [if_neg h, List.filter_cons_of_neg (by simpa using h)]
      exact ih w

/-- How often a call is in the list of calls made for a list of receives. -/
theorem count_receive_calls (st : Patch) (name : String) (message : PdMessage) (r : Nat) :
    ∀ l : List Nat,
      ((l.filter (fun x => decide ((st.objects x).name = name))).map
          (fun x => ((x, 0, message) : ReceiveCall))).count (r, 0, message)
        = if (st.objects r).name = name then l.count r else 0 := by
  intro l
  induction l with
  | nil => simp
  | cons x rest ih =>
    by_cases hx : (st.objects x).name = name
    · rw [List.filter_cons_of_pos (by simpa using hx), List.map_cons, List.count_cons,
        List.count_cons, ih]
      by_cases hxr : x = r
      · subst hxr; simp [hx]
      · have : ¬ ((x, (0 : Int), message) : ReceiveCall) = (r, 0, message) := by
          intro e; exact hxr (Prod.mk.inj e).1
        by_cases hr : (st.objects r).name = name <;> simp [hr, hxr, this]
    · rw [List.filter_cons_of_neg (by simpa using hx), ih, List.count_cons]
      by_cases hxr : x = r
      · subst hxr; simp [hx]
      · simp [hxr]

/-- The world that the loop over the receives leaves: `receiveMessage(0, message)` applied,
in the order of the list, to the receives of the given name. -/
theorem dispatchLoop_world {W : Type} (receiveMessage : W → Nat → Int → PdMessage → W)
    (st : Patch) (name : String) (message : PdMessage) :
    ∀ (l : List Nat) (w : W),
      (Patch.dispatchLoop receiveMessage st name message l w).1
        = (l.filter (fun r => decide ((st.objects r).name = name))).foldl
            (fun w' r => receiveMessage w' r 0 message) w := by
  intro l
  induction l with
  | nil => intro w; rfl
  | cons r rest ih =>
    intro w
    unfold Patch.dispatchLoop
    by_cases h : (st.objects r).name = name
    · rw [if_pos h, List.filter_cons_of_pos (by simpa using h), List.foldl_cons]
      show (Patch.dispatchLoop receiveMessage st name message rest _).1 = _
      rw [ih]
    · rw [if_neg h, List.filter_cons_of_neg (by simpa using h)]
      exact ih w

/-- C15: on the root graph `dispatchMessageToNamedReceivers(name, message)` returns after
calling `receiveMessage(0, message)` on the registered receives named `name`, in the order of
their registration: the world it leaves is the world it found with these calls applied one
after the other, and no other call applied; a receive of that name is called as often as it is
in the list of receivers (once when it was registered once), a receive of another name is not
called. -/
theorem dispatch_root_calls_matching_receivers {W : Type}
    (receiveMessage : W → Nat → Int → PdMessage → W) (fuel : Nat) (st : Patch) (name : String)
    (message : PdMessage) (w : W) :
    ∃ (w' : W) (calls : List ReceiveCall),
      st.dispatchMessageToNamedReceivers receiveMessage (fuel + 1) 0 name message w
        = some (w', calls)
      ∧ calls = (st.messageReceiveList.filter
            (fun r => decide ((st.objects r).name = name))).map (fun r => (r, 0, message))
      ∧ w' = calls.foldl (fun w' c => receiveMessage w' c.1 c.2.1 c.2.2) w
      ∧ w' = (st.messageReceiveList.filter
            (fun r => decide ((st.objects r).name = name))).foldl
              (fun w' r => receiveMessage w' r 0 message) w
      ∧ (∀ r : Nat, (st.objects r).name = name → st.messageReceiveList.count r = 1 →
          calls.count (r, 0, message) = 1)
      ∧ (∀ (r : Nat) (i : Int) (m : PdMessage), (st.objects r).name ≠ name →
          (r, i, m) ∉ calls)
      ∧ (∀ c ∈ calls, c.1 ∈ st.messageReceiveList ∧ c.2 = (0, message)) := by
  refine ⟨_, _, rfl, dispatchLoop_calls receiveMessage st name message _ w, ?_,
    dispatchLoop_world receiveMessage st name message _ w, ?_, ?_, ?_⟩
  · rw [dispatchLoop_calls, dispatchLoop_world, List.foldl_map]
  · intro r hr hc
    rw [dispatchLoop_calls, count_receive_calls, if_pos hr, hc]
  · intro r i m hr hin
    rw [dispatchLoop_calls] at hin
    obtain ⟨x, hx, he⟩ := List.mem_map.mp hin
    have hxr : x = r := (Prod.mk.inj he).1
    subst hxr
    have := (List.mem_filter.mp hx).2
    exact hr (by simpa using this)
  · intro c hc
    rw [dispatchLoop_calls] at hc
    obtain ⟨x, hx, he⟩ := List.mem_map.mp hc
    subst he
    exact ⟨(List.mem_filter.mp hx).1, rfl⟩

/-- C15 on the receives `foo`, `bar`, `foo` registered at addresses 3, 4 and 5: a dispatch to
`foo` in a world that records the `receiveMessage` calls leaves the record of a call on 3 and
then a call on 5, both at inlet 0 with the message; in a world that counts the calls the
count goes from 0 to 2. -/
theorem dispatch_root_calls_matching_receivers_witness :
    (∃ calls : List ReceiveCall,
      threeReceivesRegistered.dispatchMessageToNamedReceivers recordingReceive 1 0 "foo"
          ⟨0, [.bang]⟩ [] = some ([(3, 0, ⟨0, [.bang]⟩), (5, 0, ⟨0, [.bang]⟩)], calls)
      ∧ calls = [(3, 0, ⟨0, [.bang]⟩), (5, 0, ⟨0, [.bang]⟩)]
      ∧ calls.count (3, 0, ⟨0, [.bang]⟩) = 1
      ∧ (4, 0, ⟨0, [.bang]⟩) ∉ calls)
    ∧ (∃ calls : List ReceiveCall,
      threeReceivesRegistered.dispatchMessageToNamedReceivers countingReceive 1 0 "foo"
          ⟨0, [.bang]⟩ 0 = some (2, calls)) := by
  have hlist : threeReceivesRegistered.messageReceiveList = [3, 4, 5] := rfl
  have hobjects : threeReceivesRegistered.objects = channelObjects := rfl
  have hfilter : threeReceivesRegistered.messageReceiveList.filter
      (fun r => decide ((threeReceivesRegistered.objects r).name = "foo")) = [3, 5] := by
    rw [hlist, hobjects]
    simp [channelObjects, MessageObject.plain, List.filter]
  have hrun : threeReceivesRegistered.dispatchMessageToNamedReceivers recordingReceive 1 0
      "foo" ⟨0, [.bang]⟩ []
      = some ([(3, 0, ⟨0, [.bang]⟩), (5, 0, ⟨0, [.bang]⟩)],
          [(3, 0, ⟨0, [.bang]⟩), (5, 0, ⟨0, [.bang]⟩)]) := rfl
  have hcount : threeReceivesRegistered.dispatchMessageToNamedReceivers countingReceive 1 0
      "foo" ⟨0, [.bang]⟩ 0
      = some (2, [(3, 0, ⟨0, [.bang]⟩), (5, 0, ⟨0, [.bang]⟩)]) := rfl
  refine ⟨?_, ?_⟩
  · obtain ⟨w', calls, h1, h2, _, h3, h4, h5, _⟩ :=
      dispatch_root_calls_matching_receivers recordingReceive 0 threeReceivesRegistered "foo"
        ⟨0, [.bang]⟩ []
    rw [hfilter] at h2 h3
    have hw : w' = [(3, 0, ⟨0, [.bang]⟩), (5, 0, ⟨0, [.bang]⟩)] := by
      rw [h3]; rfl
    rw [hw] at h1
    refine ⟨calls, h1, ?_, h4 3 ?_ ?_, h5 4 0 ⟨0, [.bang]⟩ ?_⟩
    · rw [h2]; rfl
    · rw [hobjects]; simp [channelObjects, MessageObject.plain]
    · rw [hlist]; simp
    · rw [hobjects]; simp [channelObjects, MessageObject.plain]
  · exact ⟨_, hcount⟩

/-- C16 on the code: on a graph that is not the root, `dispatchMessageToNamedReceivers` calls
itself on the same graph and never returns, however deep the calls may go; on the root graph
the same call returns at once. -/
theorem dispatch_non_root_never_returns {W : Type}
    (receiveMessage : W → Nat → Int → PdMessage → W) (st : Patch) (name : String)
    (message : PdMessage) (w : W) :
    (∀ fuel depth : Nat,
      st.dispatchMessageToNamedReceivers receiveMessage fuel (depth + 1) name message w = none)
    ∧ (st.dispatchMessageToNamedReceivers receiveMessage 1 0 name message w).isSome = true := by
  refine ⟨?_, rfl⟩
  intro fuel
  induction fuel with
  | zero => intro depth; rfl
  | succ fuel ih => intro depth; exact ih depth

/-- With both indices inside the node list, `connect` joins the two objects named. -/
theorem connectAt_in_range (st : Patch) (graph : Nat) (fi oi ti ii : Int) (f t : Nat)
    (hf : listGet (st.objects graph).nodeList fi = some f)
    (ht : listGet (st.objects graph).nodeList ti = some t) :
    st.connectAt graph fi oi ti ii = .done () (st.connect f oi t ii) := by
  simp [Patch.connectAt, hf, ht]

/-- With an index outside the node list, `connect` dereferences a null pointer, having printed
nothing. -/
theorem connectAt_out_of_range (st : Patch) (graph : Nat) (fi oi ti ii : Int)
    (h : listGet (st.objects graph).nodeList fi = none
      ∨ listGet (st.objects graph).nodeList ti = none) :
    st.connectAt graph fi oi ti ii = .nullDereference st.printed := by
  unfold Patch.connectAt
  rcases h with h | h
  · rw [h]
    cases listGet (st.objects graph).nodeList ti <;> rfl
  · rw [h]

/-- C20 on the code: on the graph at address 0 of `channelPatch`, whose node list has two
elements, `connect(0, 0, 1, 0)` records the connection on both endpoints, while
`connect(0, 0, 5, 0)` and `connect(-1, 0, 0, 0)` print nothing and dereference the null
pointer that the node list returns. -/
theorem connect_out_of_range_dereferences_null :
    (channelPatch.objects 0).nodeList = [1, 3]
    ∧ channelPatch.connectAt 0 0 0 1 0 = .done () (channelPatch.connect 1 0 3 0)
    ∧ ((channelPatch.connect 1 0 3 0).objects 1).outgoingMessageConnectionsListAtOutlet 0
        = [⟨3, 0⟩]
    ∧ ((channelPatch.connect 1 0 3 0).objects 3).incomingMessageConnectionsListAtInlet 0
        = [⟨1, 0⟩]
    ∧ channelPatch.connectAt 0 0 0 5 0 = .nullDereference []
    ∧ channelPatch.connectAt 0 (-1) 0 0 0 = .nullDereference [] := by
  have hn : (channelPatch.objects 0).nodeList = [1, 3] := by
    simp [channelPatch, Patch.ofObjects, channelObjects]
  refine ⟨hn, ?_, ?_, ?_, ?_, ?_⟩
  · exact connectAt_in_range _ _ _ _ _ _ 1 3 (by rw [hn]; rfl) (by rw [hn]; rfl)
  · rw [connect_outgoing]
    simp [channelPatch, Patch.ofObjects, channelObjects, MessageObject.plain]
  · rw [connect_incoming]
    simp [channelPatch, Patch.ofObjects, channelObjects, MessageObject.plain]
  · exact connectAt_out_of_range _ _ _ _ _ _ (Or.inr (by rw [hn]; rfl))
  · exact connectAt_out_of_range _ _ _ _ _ _ (Or.inl (by rw [hn]; rfl))

/-! ## Sequences of registrations -/

/-- The outgoing lists after a connection: one entry more at the outlet of the source. -/
theorem connect_outgoing_eq (st : Patch) (f : Nat) (o : Int) (t : Nat) (i : Int) (a : Nat)
    (o' : Int) :
    ((st.connect f o t i).objects a).outgoingMessageConnectionsListAtOutlet o'
      = if a = f ∧ o' = o then
          (st.objects a).outgoingMessageConnectionsListAtOutlet o' ++ [⟨t, i⟩]
        else (st.objects a).outgoingMessageConnectionsListAtOutlet o' := by
  unfold Patch.connect
  by_cases hf : a = f <;> by_cases ht : a = t <;> by_cases ho : o' = o <;>
    simp [Function.update, hf, ht, ho, MessageObject.addConnectionFromObjectToInlet,
      MessageObject.addConnectionToObjectFromOutlet] <;>
    (try split) <;> simp_all

/-- The incoming lists after a connection: one entry more at the inlet of the destination. -/
theorem connect_incoming_eq (st : Patch) (f : Nat) (o : Int) (t : Nat) (i : Int) (b : Nat)
    (i' : Int) :
    ((st.connect f o t i).objects b).incomingMessageConnectionsListAtInlet i'
      = if b = t ∧ i' = i then
          (st.objects b).incomingMessageConnectionsListAtInlet i' ++ [⟨f, o⟩]
        else (st.objects b).incomingMessageConnectionsListAtInlet i' := by
  unfold Patch.connect
  by_cases hf : b = f <;> by_cases ht : b = t <;> by_cases hi : i' = i <;>
    simp [Function.update, hf, ht, hi, MessageObject.addConnectionFromObjectToInlet,
      MessageObject.addConnectionToObjectFromOutlet] <;>
    (try split) <;> simp_all

theorem connect_outgoingCount (st : Patch) (s r a b : Nat) :
    (st.connect s 0 r 0).outgoingCount a b
      = st.outgoingCount a b + if a = s ∧ b = r then 1 else 0 := by
  unfold Patch.outgoingCount
  rw [connect_outgoing_eq]
  by_cases ha : a = s
  · by_cases hb : b = r
    · simp [ha, hb]
    · have : ¬ ((⟨r, 0⟩ : ObjectLetPair) = ⟨b, 0⟩) := by
        intro e; exact hb (by injection e with e1 _; exact e1.symm)
      simp [ha, hb, List.count_append, List.count_cons, this]
  · simp [ha]

theorem connect_incomingCount (st : Patch) (s r a b : Nat) :
    (st.connect s 0 r 0).incomingCount a b
      = st.incomingCount a b + if a = s ∧ b = r then 1 else 0 := by
  unfold Patch.incomingCount
  rw [connect_incoming_eq]
  by_cases hb : b = r
  · by_cases ha : a = s
    · simp [ha, hb]
    · have : ¬ ((⟨s, 0⟩ : ObjectLetPair) = ⟨a, 0⟩) := by
        intro e; exact ha (by injection e with e1 _; exact e1.symm)
      simp [ha, hb, List.count_append, List.count_cons, this]
  · simp [hb]

/-- The loop of `registerMessageSend` over a list of receives connects the send once to every
entry of the list that carries its name, and touches nothing else. -/
theorem connectToReceivers_spec (s : Nat) (name : Nat → String) :
    ∀ (l : List Nat) (st : Patch), (∀ a, (st.objects a).name = name a) →
      (Patch.connectToReceivers s l st).messageSendList = st.messageSendList
      ∧ (Patch.connectToReceivers s l st).messageReceiveList = st.messageReceiveList
      ∧ (Patch.connectToReceivers s l st).printed = st.printed
      ∧ (∀ a, ((Patch.connectToReceivers s l st).objects a).name = name a)
      ∧ (∀ a b, (Patch.connectToReceivers s l st).outgoingCount a b
          = st.outgoingCount a b + if a = s ∧ name b = name s then l.count b else 0)
      ∧ (∀ a b, (Patch.connectToReceivers s l st).incomingCount a b
          = st.incomingCount a b + if a = s ∧ name b = name s then l.count b else 0) := by
  intro l
  induction l with
  | nil =>
    intro st hn
    exact ⟨rfl, rfl, rfl, hn, fun a b => by simp [Patch.connectToReceivers],
      fun a b => by simp [Patch.connectToReceivers]⟩
  | cons r rest ih =>
    intro st hn
    unfold Patch.connectToReceivers
    by_cases hr : (st.objects r).name = (st.objects s).name
    · rw [if_pos hr]
      have hn1 : ∀ a, ((st.connect s 0 r 0).objects a).name = name a :=
        fun a => (connect_fields st s 0 r 0 a).1.trans (hn a)
      obtain ⟨h1, h2, h3, h4, h5, h6⟩ := ih (st.connect s 0 r 0) hn1
      have hrs : name r = name s := by rw [← hn r, ← hn s]; exact hr
      refine ⟨h1, h2, h3, h4, ?_, ?_⟩
      · intro a b
        rw [h5, connect_outgoingCount, List.count_cons]
        by_cases ha : a = s <;> by_cases hb : b = r
        · subst hb; simp [ha, hrs]; omega
        · have : ¬ r = b := fun e => hb e.symm
          simp [ha, hb, this]
        · simp [ha]
        · simp [ha]
      · intro a b
        rw [h6, connect_incomingCount, List.count_cons]
        by_cases ha : a = s <;> by_cases hb : b = r
        · subst hb; simp [ha, hrs]; omega
        · have : ¬ r = b := fun e => hb e.symm
          simp [ha, hb, this]
        · simp [ha]
        · simp [ha]
    · rw [if_neg hr]
      obtain ⟨h1, h2, h3, h4, h5, h6⟩ := ih st hn
      have hrs : ¬ name r = name s := by rw [← hn r, ← hn s]; exact hr
      have hcount : ∀ b, name b = name s → (r :: rest).count b = rest.count b := by
        intro b hb
        rw [List.count_cons_of_ne]
        intro e
        exact hrs (e ▸ hb)
      refine ⟨h1, h2, h3, h4, ?_, ?_⟩
      · intro a b
        rw [h5]
        by_cases hc : a = s ∧ name b = name s
        · rw [if_pos hc, if_pos hc, hcount b hc.2]
        · rw [if_neg hc, if_neg hc]
      · intro a b
        rw [h6]
        by_cases hc : a = s ∧ name b = name s
        · rw [if_pos hc, if_pos hc, hcount b hc.2]
        · rw [if_neg hc, if_neg hc]

/-- Registering a new receive keeps the patch wired. -/
theorem registerMessageReceive_wired (depth : Nat) (st : Patch) (name : Nat → String)
    (watched : Nat → Nat → Prop)
    (sends receives : List Nat) (r : Nat) (h : st.Wired name watched sends receives)
    (hr : r ∉ receives)
    (hdistinct : ∀ a ∈ sends, ∀ b ∈ sends, name a = name b → a = b) :
    (st.registerMessageReceive depth r).Wired name watched sends (receives ++ [r]) := by
  obtain ⟨hS, hR, hN, hO, hI⟩ := h
  rw [registerMessageReceive_depth, registerMessageReceive_root]
  have hzeroO : ∀ a, watched a r → st.outgoingCount a r = 0 := by
    intro a hw; rw [hO a r hw]; simp [hr]
  have hzeroI : ∀ a, watched a r → st.incomingCount a r = 0 := by
    intro a hw; rw [hI a r hw]; simp [hr]
  cases hg : ({ st with messageReceiveList := st.messageReceiveList ++ [r] } :
      Patch).getMessageSend (st.objects r).name with
  | none =>
    simp only []
    have hnone : ∀ a ∈ sends, name a ≠ name r := by
      intro a ha e
      have : (({ st with messageReceiveList := st.messageReceiveList ++ [r] } :
          Patch).getMessageSend (st.objects r).name).isSome = true :=
        getMessageSend_isSome (s := a) (by show a ∈ st.messageSendList; rw [hS]; exact ha)
          (by show (st.objects a).name = _; rw [hN a, hN r]; exact e)
      rw [hg] at this
      exact absurd this (by simp)
    refine ⟨hS, by show st.messageReceiveList ++ [r] = _; rw [hR], hN, ?_, ?_⟩
    · intro a b hw
      show st.outgoingCount a b = _
      by_cases hb : b = r
      · subst hb
        rw [hzeroO a hw]
        by_cases ha : a ∈ sends
        · simp [hnone a ha]
        · simp [ha]
      · rw [hO a b hw]; simp [hb]
    · intro a b hw
      show st.incomingCount a b = _
      by_cases hb : b = r
      · subst hb
        rw [hzeroI a hw]
        by_cases ha : a ∈ sends
        · simp [hnone a ha]
        · simp [ha]
      · rw [hI a b hw]; simp [hb]
  | some s0 =>
    simp only []
    obtain ⟨hs0, hs0n⟩ := getMessageSend_some hg
    have hs0S : s0 ∈ sends := by rw [← hS]; exact hs0
    have hs0name : name s0 = name r := by
      have : (st.objects s0).name = (st.objects r).name := hs0n
      rw [hN s0, hN r] at this
      exact this
    have honly : ∀ a ∈ sends, name a = name r → a = s0 :=
      fun a ha e => hdistinct a ha s0 hs0S (e.trans hs0name.symm)
    refine ⟨hS, by show st.messageReceiveList ++ [r] = _; rw [hR],
      fun a => (connect_fields _ s0 0 r 0 a).1.trans (hN a), ?_, ?_⟩
    · intro a b hw
      rw [connect_outgoingCount]
      show st.outgoingCount a b + _ = _
      by_cases hb : b = r
      · subst hb
        rw [hzeroO a hw]
        by_cases ha : a = s0
        · subst ha; simp [hs0S, hs0name]
        · by_cases haS : a ∈ sends
          · have : ¬ name a = name b := fun e => ha (honly a haS e)
            simp [ha, this]
          · simp [ha, haS]
      · rw [hO a b hw]; simp [hb]
    · intro a b hw
      rw [connect_incomingCount]
      show st.incomingCount a b + _ = _
      by_cases hb : b = r
      · subst hb
        rw [hzeroI a hw]
        by_cases ha : a = s0
        · subst ha; simp [hs0S, hs0name]
        · by_cases haS : a ∈ sends
          · have : ¬ name a = name b := fun e => ha (honly a haS e)
            simp [ha, this]
          · simp [ha, haS]
      · rw [hI a b hw]; simp [hb]

/-- Registering a new send with a new name keeps the patch wired. -/
theorem registerMessageSend_wired (depth : Nat) (st : Patch) (name : Nat → String)
    (watched : Nat → Nat → Prop)
    (sends receives : List Nat) (s : Nat) (h : st.Wired name watched sends receives)
    (hs : s ∉ sends) (hname : ∀ a ∈ sends, name a ≠ name s) (hnodup : receives.Nodup) :
    (st.registerMessageSend depth s).Wired name watched (sends ++ [s]) receives := by
  obtain ⟨hS, hR, hN, hO, hI⟩ := h
  rw [registerMessageSend_depth]
  have hnone : st.getMessageSend (st.objects s).name = none :=
    getMessageSend_none (fun a ha => by
      rw [hN a, hN s]; exact hname a (by rw [← hS]; exact ha))
  have hreg : st.registerMessageSend 0 s
      = Patch.connectToReceivers s st.messageReceiveList
          ({ st with messageSendList := st.messageSendList ++ [s] } : Patch) := by
    show (if (st.getMessageSend (st.objects s).name).isSome then _ else _) = _
    rw [hnone]
    rfl
  rw [hreg]
  obtain ⟨h1, h2, _, h4, h5, h6⟩ := connectToReceivers_spec s name st.messageReceiveList
    ({ st with messageSendList := st.messageSendList ++ [s] } : Patch) hN
  have hcount : ∀ b, st.messageReceiveList.count b = if b ∈ receives then 1 else 0 := by
    intro b
    rw [hR]
    by_cases hb : b ∈ receives
    · rw [if_pos hb, List.count_eq_one_of_mem hnodup hb]
    · rw [if_neg hb, List.count_eq_zero_of_not_mem hb]
  refine ⟨by rw [h1]; show st.messageSendList ++ [s] = _; rw [hS],
    by rw [h2]; exact hR, h4, ?_, ?_⟩
  · intro a b hw
    rw [h5]
    show st.outgoingCount a b + _ = _
    rw [hO a b hw, hcount]
    by_cases ha : a = s
    · subst ha
      by_cases hb : b ∈ receives
      · by_cases hn : name b = name a
        · simp [hs, hb, hn]
        · have hn' : ¬ name a = name b := fun e => hn e.symm
          simp [hs, hb, hn, hn']
      · simp [hs, hb]
    · simp [ha]
  · intro a b hw
    rw [h6]
    show st.incomingCount a b + _ = _
    rw [hI a b hw, hcount]
    by_cases ha : a = s
    · subst ha
      by_cases hb : b ∈ receives
      · by_cases hn : name b = name a
        · simp [hs, hb, hn]
        · have hn' : ¬ name a = name b := fun e => hn e.symm
          simp [hs, hb, hn, hn']
      · simp [hs, hb]
    · simp [ha]

/-- A sequence of registrations of new objects, the sends under pairwise different names,
keeps the patch wired. -/
theorem applyRegistryCalls_wired (name : Nat → String) (watched : Nat → Nat → Prop) :
    ∀ (calls : List RegistryCall) (st : Patch) (sends receives : List Nat),
      st.Wired name watched sends receives →
      ((sends ++ registeredSends calls).map name).Nodup →
      (receives ++ registeredReceives calls).Nodup →
      (st.applyRegistryCalls calls).Wired name watched (sends ++ registeredSends calls)
        (receives ++ registeredReceives calls) := by
  intro calls
  induction calls with
  | nil =>
    intro st sends receives h _ _
    simpa [Patch.applyRegistryCalls, registeredSends, registeredReceives] using h
  | cons c cs ih =>
    intro st sends receives h hs hr
    cases c with
    | registerMessageSend d s =>
      simp only [registeredSends, registeredReceives, Patch.applyRegistryCalls] at hs hr ⊢
      have hs' : ((sends ++ [s] ++ registeredSends cs).map name).Nodup := by
        simpa [List.append_assoc] using hs
      have hnod : (sends ++ [s] ++ registeredSends cs).Nodup := List.Nodup.of_map _ hs'
      have hinj := List.inj_on_of_nodup_map hs'
      have hsnot : s ∉ sends := by
        intro hin
        have h1 : (sends ++ [s]).Nodup := (List.nodup_append.mp hnod).1
        have := (List.nodup_append.mp h1).2.2
        exact this hin (List.mem_singleton_self s)
      have hname : ∀ a ∈ sends, name a ≠ name s := by
        intro a ha e
        have : a = s := hinj (by simp [ha]) (by simp) e
        exact hsnot (this ▸ ha)
      have hrn : receives.Nodup := (List.nodup_append.mp hr).1
      have hw := registerMessageSend_wired d st name watched sends receives s h hsnot hname hrn
      have := ih (st.registerMessageSend d s) (sends ++ [s]) receives hw hs' hr
      simpa [List.append_assoc] using this
    | registerMessageReceive d r =>
      simp only [registeredSends, registeredReceives, Patch.applyRegistryCalls] at hs hr ⊢
      have hr' : (receives ++ [r] ++ registeredReceives cs).Nodup := by
        simpa [List.append_assoc] using hr
      have hrnot : r ∉ receives := by
        intro hin
        have h1 : (receives ++ [r]).Nodup := (List.nodup_append.mp hr').1
        have := (List.nodup_append.mp h1).2.2
        exact this hin (List.mem_singleton_self r)
      have hinj := List.inj_on_of_nodup_map hs
      have hdist : ∀ a ∈ sends, ∀ b ∈ sends, name a = name b → a = b :=
        fun a ha b hb e => hinj (by simp [ha]) (by simp [hb]) e
      have hw := registerMessageReceive_wired d st name watched sends receives r h hrnot hdist
      have := ih (st.registerMessageReceive d r) sends (receives ++ [r]) hw hs hr'
      simpa [List.append_assoc] using this

/-- C14: take any sequence of `registerMessageSend` and `registerMessageReceive` calls, made on
graphs of any depth in any order, on a patch where nothing is registered and no registered
send is connected to a registered receive yet, each receive being registered once and the
sends carrying pairwise different names.  Afterwards every registered send is connected, outlet
0 to inlet 0, exactly once (at both ends of the connection) to every registered receive of its
name, and not at all to a registered receive of another name. -/
theorem registry_wires_each_pair_once (st : Patch) (calls : List RegistryCall)
    (hsend : st.messageSendList = []) (hrecv : st.messageReceiveList = [])
    (hfresh : ∀ s ∈ registeredSends calls, ∀ r ∈ registeredReceives calls,
      st.outgoingCount s r = 0 ∧ st.incomingCount s r = 0)
    (hnames : ((registeredSends calls).map (fun a => (st.objects a).name)).Nodup)
    (hreceives : (registeredReceives calls).Nodup) :
    (st.applyRegistryCalls calls).messageSendList = registeredSends calls
    ∧ (st.applyRegistryCalls calls).messageReceiveList = registeredReceives calls
    ∧ ∀ s ∈ registeredSends calls, ∀ r ∈ registeredReceives calls,
        ((st.objects s).name = (st.objects r).name →
          (st.applyRegistryCalls calls).outgoingCount s r = 1
          ∧ (st.applyRegistryCalls calls).incomingCount s r = 1)
        ∧ ((st.objects s).name ≠ (st.objects r).name →
          (st.applyRegistryCalls calls).outgoingCount s r = 0
          ∧ (st.applyRegistryCalls calls).incomingCount s r = 0) := by
  have h0 : st.Wired (fun a => (st.objects a).name)
      (fun a b => a ∈ registeredSends calls ∧ b ∈ registeredReceives calls) [] [] := by
    refine ⟨hsend, hrecv, fun _ => rfl, ?_, ?_⟩
    · intro a b hw; simp [(hfresh a hw.1 b hw.2).1]
    · intro a b hw; simp [(hfresh a hw.1 b hw.2).2]
  have H := applyRegistryCalls_wired (fun a => (st.objects a).name)
    (fun a b => a ∈ registeredSends calls ∧ b ∈ registeredReceives calls) calls st [] [] h0
    (by simpa using hnames) (by simpa using hreceives)
  simp only [List.nil_append] at H
  obtain ⟨hS, hR, _, hO, hI⟩ := H
  refine ⟨hS, hR, ?_⟩
  intro s hs r hr
  have eO := hO s r ⟨hs, hr⟩
  have eI := hI s r ⟨hs, hr⟩
  constructor
  · intro e
    rw [eO, eI]
    simp [hs, hr, e]
  · intro e
    rw [eO, eI]
    simp [e]

/-- C14 on `channelPatch`: the send `foo` registered between the receives `foo`, `bar` and
`foo`, from graphs of different depth. -/
theorem registry_wires_each_pair_once_witness :
    (channelPatch.applyRegistryCalls channelCalls).messageSendList = [1]
    ∧ (channelPatch.applyRegistryCalls channelCalls).messageReceiveList = [3, 4, 5]
    ∧ (channelPatch.applyRegistryCalls channelCalls).outgoingCount 1 3 = 1
    ∧ (channelPatch.applyRegistryCalls channelCalls).outgoingCount 1 5 = 1
    ∧ (channelPatch.applyRegistryCalls channelCalls).outgoingCount 1 4 = 0
    ∧ (channelPatch.applyRegistryCalls channelCalls).incomingCount 1 5 = 1 := by
  have hn : ∀ a, (channelPatch.objects a).name = (channelObjects a).name := fun _ => rfl
  have H := registry_wires_each_pair_once channelPatch channelCalls rfl rfl
    (by
      intro s hs r hr
      simp [channelCalls, registeredSends, registeredReceives] at hs hr
      subst hs
      rcases hr with rfl | rfl | rfl <;>
        simp [Patch.outgoingCount, Patch.incomingCount, channelPatch, Patch.ofObjects,
          channelObjects, MessageObject.plain])
    (by simp [channelCalls, registeredSends])
    (by simp [channelCalls, registeredReceives])
  obtain ⟨h1, h2, h3⟩ := H
  have hs : (1 : Nat) ∈ registeredSends channelCalls := by
    simp [channelCalls, registeredSends]
  have hr3 : (3 : Nat) ∈ registeredReceives channelCalls := by
    simp [channelCalls, registeredReceives]
  have hr4 : (4 : Nat) ∈ registeredReceives channelCalls := by
    simp [channelCalls, registeredReceives]
  have hr5 : (5 : Nat) ∈ registeredReceives channelCalls := by
    simp [channelCalls, registeredReceives]
  have n13 : (channelPatch.objects 1).name = (channelPatch.objects 3).name := by
    simp [hn, channelObjects, MessageObject.plain]
  have n15 : (channelPatch.objects 1).name = (channelPatch.objects 5).name := by
    simp [hn, channelObjects, MessageObject.plain]
  have n14 : (channelPatch.objects 1).name ≠ (channelPatch.objects 4).name := by
    simp [hn, channelObjects, MessageObject.plain]
  exact ⟨h1, h2, ((h3 1 hs 3 hr3).1 n13).1, ((h3 1 hs 5 hr5).1 n15).1,
    ((h3 1 hs 4 hr4).2 n14).1, ((h3 1 hs 5 hr5).1 n15).2⟩

/-! ## The planner of the process order -/

theorem sameWiring_refl (st : Patch) : st.SameWiring st :=
  fun _ => ⟨rfl, rfl, rfl, rfl, rfl⟩

theorem sameWiring_trans {a b c : Patch} (h1 : a.SameWiring b) (h2 : b.SameWiring c) :
    a.SameWiring c := by
  intro x
  obtain ⟨p1, p2, p3, p4, p5⟩ := h1 x
  obtain ⟨q1, q2, q3, q4, q5⟩ := h2 x
  exact ⟨q1.trans p1, q2.trans p2, q3.trans p3, q4.trans p4, q5.trans p5⟩

theorem setOrdered_sameWiring (st : Patch) (o : Nat) : st.SameWiring (st.setOrdered o) := by
  intro x
  unfold Patch.setOrdered
  by_cases h : x = o
  · subst h; simp
  · simp [Function.update_noteq h]

theorem setOrdered_isOrdered (st : Patch) (o x : Nat) :
    ((st.setOrdered o).objects x).isOrdered = if x = o then true else (st.objects x).isOrdered := by
  unfold Patch.setOrdered
  by_cases h : x = o
  · subst h; simp
  · simp [Function.update_noteq h, h]

theorem visitSpec_nil (path : List Nat) (st : Patch) : VisitSpec path st [] st :=
  ⟨List.nodup_nil, fun _ hx => (List.not_mem_nil _ hx).elim, fun _ h => h, fun _ _ h => h,
    sameWiring_refl st⟩

/-- Two walks in a row. -/
theorem visitSpec_append {path : List Nat} {st st1 st2 : Patch} {l1 l2 : List Nat}
    (h1 : VisitSpec path st l1 st1) (h2 : VisitSpec path st1 l2 st2) :
    VisitSpec path st (l1 ++ l2) st2 := by
  obtain ⟨a1, b1, c1, d1, e1⟩ := h1
  obtain ⟨a2, b2, c2, d2, e2⟩ := h2
  refine ⟨?_, ?_, fun x h => c2 x (c1 x h), fun x hx h => d2 x hx (d1 x hx h),
    sameWiring_trans e1 e2⟩
  · rw [List.nodup_append]
    refine ⟨a1, a2, ?_⟩
    intro x hx1 hx2
    have p := (b1 x hx1).2
    have q := (b2 x hx2).1
    rw [p] at q
    exact absurd q (by simp)
  · intro x hx
    rcases List.mem_append.mp hx with hx | hx
    · exact ⟨(b1 x hx).1, c2 x (b1 x hx).2⟩
    · refine ⟨?_, (b2 x hx).2⟩
      by_contra hc
      have ho : (st.objects x).isOrdered = true := by
        cases h : (st.objects x).isOrdered
        · exact absurd h hc
        · rfl
      have := c1 x ho
      rw [(b2 x hx).1] at this
      exact absurd this (by simp)

/-- A walk followed by a change that leaves flags and wiring alone. -/
theorem visitSpec_of_same {path : List Nat} {st st1 st2 : Patch} {l : List Nat}
    (h : VisitSpec path st l st1)
    (hf : ∀ x, (st2.objects x).isOrdered = (st1.objects x).isOrdered)
    (hw : st1.SameWiring st2) : VisitSpec path st l st2 := by
  obtain ⟨a, b, c, d, e⟩ := h
  refine ⟨a, fun x hx => ⟨(b x hx).1, by rw [hf]; exact (b x hx).2⟩,
    fun x hx => by rw [hf]; exact c x hx, fun x hx hu => by rw [hf]; exact d x hx hu,
    sameWiring_trans e hw⟩

/-- An object that is neither ordered nor in progress appends itself and sets its flag. -/
theorem visitSpec_setOrdered (path : List Nat) (st : Patch) (o : Nat)
    (hu : (st.objects o).isOrdered = false) (hp : o ∉ path) :
    VisitSpec path st [o] (st.setOrdered o) := by
  refine ⟨List.nodup_singleton o, ?_, ?_, ?_, setOrdered_sameWiring st o⟩
  · intro x hx
    rw [List.mem_singleton] at hx
    subst hx
    exact ⟨hu, by rw [setOrdered_isOrdered]; simp⟩
  · intro x hx
    rw [setOrdered_isOrdered]
    split
    · rfl
    · exact hx
  · intro x hx hux
    rw [setOrdered_isOrdered]
    have : x ≠ o := fun e => hp (e ▸ hx)
    simp [this, hux]

/-- A walk with more objects in progress is a walk with fewer. -/
theorem visitSpec_path_mono {path path' : List Nat} {st st' : Patch} {l : List Nat}
    (h : VisitSpec path' st l st') (hsub : ∀ x ∈ path, x ∈ path') : VisitSpec path st l st' :=
  ⟨h.1, h.2.1, h.2.2.1, fun x hx hu => h.2.2.2.1 x (hsub x hx) hu, h.2.2.2.2⟩

/-- Visiting a list of objects with a good `visit` is a walk. -/
theorem visitAll_spec {visit : Nat → Patch → Option (List Nat × Patch)} {path : List Nat}
    (hv : GoodVisit visit path) :
    ∀ (l : List Nat) (st : Patch) (out : List Nat) (st' : Patch),
      visitAll visit l st = some (out, st') → VisitSpec path st out st' := by
  intro l
  induction l with
  | nil =>
    intro st out st' h
    simp only [visitAll, Option.some.injEq, Prod.mk.injEq] at h
    obtain ⟨rfl, rfl⟩ := h
    exact visitSpec_nil path st
  | cons o rest ih =>
    intro st out st' h
    unfold visitAll at h
    cases h1 : visit o st with
    | none => simp [h1] at h
    | some r1 =>
      obtain ⟨l1, st1⟩ := r1
      simp only [h1] at h
      cases h2 : visitAll visit rest st1 with
      | none => simp [h2] at h
      | some r2 =>
        obtain ⟨l2, st2⟩ := r2
        simp only [h2, Option.some.injEq, Prod.mk.injEq] at h
        obtain ⟨rfl, rfl⟩ := h
        exact visitSpec_append (hv o st l1 st1 h1) (ih st1 l2 st2 h2)

/-- A returning `planWith` is a walk over the leaves followed by the write of `dspNodeList`. -/
theorem planWith_some {visit : Nat → Patch → Option (List Nat × Patch)} {graph : Nat}
    {st st' : Patch} (h : Patch.planWith visit graph st = some st') :
    ∃ (l : List Nat) (st1 : Patch),
      visitAll visit ((st.objects graph).nodeList.filter (fun o => (st.objects o).isLeafNode)) st
        = some (l, st1)
      ∧ (∀ x, (st'.objects x).isOrdered = (st1.objects x).isOrdered)
      ∧ st1.SameWiring st'
      ∧ (st'.objects graph).dspNodeList
          = l.reverse.filter (fun o => (st'.objects o).processesAudio) := by
  unfold Patch.planWith at h
  simp only [] at h
  cases hv : visitAll visit
      ((st.objects graph).nodeList.filter (fun o => (st.objects o).isLeafNode)) st with
  | none => simp [hv] at h
  | some r =>
    obtain ⟨l, st1⟩ := r
    simp only [hv, Option.some.injEq] at h
    subst h
    refine ⟨l, st1, rfl, ?_, ?_, ?_⟩
    · intro x
      by_cases hx : x = graph
      · subst hx; simp
      · simp [Function.update_noteq hx]
    · intro x
      by_cases hx : x = graph
      · subst hx; simp
      · simp [Function.update_noteq hx]
    · simp only [Function.update_same]
      apply List.filter_congr
      intro x _
      by_cases hx : x = graph
      · subst hx; simp
      · simp [Function.update_noteq hx]

theorem planWith_spec {visit : Nat → Patch → Option (List Nat × Patch)} {path : List Nat}
    (hv : GoodVisit visit path) {graph : Nat} {st st' : Patch}
    (h : Patch.planWith visit graph st = some st') :
    ∃ l : List Nat, VisitSpec path st l st'
      ∧ (st'.objects graph).dspNodeList
          = l.reverse.filter (fun o => (st'.objects o).processesAudio) := by
  obtain ⟨l, st1, h1, h2, h3, h4⟩ := planWith_some h
  exact ⟨l, visitSpec_of_same (visitAll_spec hv _ _ _ _ h1) h2 h3, h4⟩

theorem printErr_sameWiring (st : Patch) (msg : String) : st.SameWiring (st.printErr msg) :=
  fun _ => ⟨rfl, rfl, rfl, rfl, rfl⟩

/-- The two steps of `getProcessOrder`: the inner planning of a graph, then the walk of the
object itself. -/
theorem getProcessOrder_succ (fuel : Nat) (path : List Nat) (object : Nat) (st : Patch) :
    Patch.getProcessOrder (fuel + 1) path object st
      = match (if (st.objects object).label = "pd" then
              Patch.planWith (Patch.getProcessOrder fuel path) object st
            else some st) with
        | none => none
        | some st0 =>
          if (st0.objects object).isOrdered then some ([], st0)
          else if object ∈ path then
            some ([], st0.printErr "signal cycle: object is already being ordered")
          else if (st0.objects object).isRootNode then some ([object], st0.setOrdered object)
          else
            match visitAll (Patch.getProcessOrder fuel (object :: path))
                (st0.objects object).upstream st0 with
            | none => none
            | some (processList, st1) =>
              some (processList ++ [object], st1.setOrdered object) := rfl

/-- Every returning `getProcessOrder` is a walk. -/
theorem getProcessOrder_good : ∀ (fuel : Nat) (path : List Nat),
    GoodVisit (Patch.getProcessOrder fuel path) path := by
  intro fuel
  induction fuel with
  | zero =>
    intro path o st l st' h
    simp [Patch.getProcessOrder] at h
  | succ fuel ih =>
    intro path o st l st' h
    rw [getProcessOrder_succ] at h
    -- the state after the inner planning of a graph
    have hinner : ∀ st0, (if (st.objects o).label = "pd" then
          Patch.planWith (Patch.getProcessOrder fuel path) o st else some st) = some st0 →
        VisitSpec path st [] st0 := by
      intro st0 h0
      by_cases hl : (st.objects o).label = "pd"
      · rw [if_pos hl] at h0
        obtain ⟨l0, hs, _⟩ := planWith_spec (ih path) h0
        exact ⟨List.nodup_nil, fun _ hx => (List.not_mem_nil _ hx).elim, hs.2.2.1, hs.2.2.2.1,
          hs.2.2.2.2⟩
      · rw [if_neg hl] at h0
        injection h0 with h0
        subst h0
        exact visitSpec_nil path st
    cases h0 : (if (st.objects o).label = "pd" then
          Patch.planWith (Patch.getProcessOrder fuel path) o st else some st) with
    | none => simp [h0] at h
    | some st0 =>
      have hs0 := hinner st0 h0
      simp only [h0] at h
      by_cases hord : (st0.objects o).isOrdered = true
      · rw [if_pos hord] at h
        simp only [Option.some.injEq, Prod.mk.injEq] at h
        obtain ⟨rfl, rfl⟩ := h
        exact hs0
      · rw [if_neg hord] at h
        have hu : (st0.objects o).isOrdered = false := by
          cases hb : (st0.objects o).isOrdered
          · rfl
          · exact absurd hb hord
        by_cases hp : o ∈ path
        · rw [if_pos hp] at h
          simp only [Option.some.injEq, Prod.mk.injEq] at h
          obtain ⟨rfl, rfl⟩ := h
          exact visitSpec_of_same hs0 (fun _ => rfl) (printErr_sameWiring st0 _)
        · rw [if_neg hp] at h
          by_cases hroot : (st0.objects o).isRootNode = true
          · rw [if_pos hroot] at h
            simp only [Option.some.injEq, Prod.mk.injEq] at h
            obtain ⟨rfl, rfl⟩ := h
            exact visitSpec_append hs0 (visitSpec_setOrdered path st0 o hu hp)
          · rw [if_neg hroot] at h
            cases hv : visitAll (Patch.getProcessOrder fuel (o :: path))
                (st0.objects o).upstream st0 with
            | none => simp [hv] at h
            | some r =>
              obtain ⟨pl, st1⟩ := r
              simp only [hv, Option.some.injEq, Prod.mk.injEq] at h
              obtain ⟨rfl, rfl⟩ := h
              have hup := visitAll_spec (ih (o :: path)) _ _ _ _ hv
              have hu1 : (st1.objects o).isOrdered = false :=
                hup.2.2.2.1 o (List.mem_cons_self _ _) hu
              have hup' : VisitSpec path st0 pl st1 :=
                visitSpec_path_mono hup (fun x hx => List.mem_cons_of_mem _ hx)
              have hfin := visitSpec_append hs0
                (visitSpec_append hup' (visitSpec_setOrdered path st1 o hu1 hp))
              rw [List.nil_append] at hfin
              exact hfin

/-! ### The planner returns -/

theorem countP_lt_of_witness {α : Type} (p q : α → Bool) :
    ∀ (l : List α) (o : α), (∀ x ∈ l, p x = true → q x = true) → o ∈ l → q o = true →
      p o = false → l.countP p < l.countP q := by
  intro l
  induction l with
  | nil => intro o _ ho; exact (List.not_mem_nil _ ho).elim
  | cons a rest ih =>
    intro o himp ho hq hp
    have hrest : rest.countP p ≤ rest.countP q :=
      List.countP_mono_left (fun x hx => himp x (List.mem_cons_of_mem _ hx))
    rcases List.mem_cons.mp ho with rfl | ho'
    · rw [List.countP_cons_of_neg _ _ (by simp [hp]), List.countP_cons_of_pos _ _ hq]
      omega
    · have := ih o (fun x hx => himp x (List.mem_cons_of_mem _ hx)) ho' hq hp
      by_cases hpa : p a = true
      · rw [List.countP_cons_of_pos _ _ hpa,
          List.countP_cons_of_pos _ _ (himp a (List.mem_cons_self _ _) hpa)]
        omega
      · rw [List.countP_cons_of_neg _ _ hpa]
        by_cases hqa : q a = true
        · rw [List.countP_cons_of_pos _ _ hqa]; omega
        · rw [List.countP_cons_of_neg _ _ hqa]; exact this

/-- A walk never raises the number of unvisited objects. -/
theorem unvisited_mono {path₀ path : List Nat} {st st' : Patch} {l : List Nat}
    (h : VisitSpec path₀ st l st') (reach : List Nat) :
    st'.unvisited reach path ≤ st.unvisited reach path := by
  unfold Patch.unvisited
  apply List.countP_mono_left
  intro x _ hx
  simp only [Bool.and_eq_true, Bool.not_eq_true', decide_eq_false_iff_not] at hx ⊢
  refine ⟨?_, hx.2⟩
  by_contra hc
  have ho : (st.objects x).isOrdered = true := by
    cases hb : (st.objects x).isOrdered
    · exact absurd hb hc
    · rfl
  have := h.2.2.1 x ho
  rw [hx.1] at this
  exact absurd this (by simp)

/-- Taking an unvisited object in progress lowers the number of unvisited objects. -/
theorem unvisited_push (st : Patch) (reach path : List Nat) (o : Nat) (ho : o ∈ reach)
    (hu : (st.objects o).isOrdered = false) (hp : o ∉ path) :
    st.unvisited reach (o :: path) < st.unvisited reach path := by
  unfold Patch.unvisited
  apply countP_lt_of_witness _ _ reach o
  · intro x _ hx
    simp only [Bool.and_eq_true, Bool.not_eq_true', decide_eq_false_iff_not,
      List.mem_cons, not_or] at hx ⊢
    exact ⟨hx.1, hx.2.2⟩
  · exact ho
  · simp [hu, hp]
  · simp

theorem upstream_of_sameWiring {st st' : Patch} (h : st.SameWiring st') (x : Nat) :
    (st'.objects x).upstream = (st.objects x).upstream := by
  obtain ⟨_, _, h3, h4, _⟩ := h x
  unfold MessageObject.upstream
  rw [h3, h4]

theorem closed_of_sameWiring {st st' : Patch} (h : st.SameWiring st') {reach : List Nat}
    {rank : Nat → Nat} {bound : Nat} (hc : st.Closed reach rank bound) :
    st'.Closed reach rank bound := by
  obtain ⟨c1, c2, c3⟩ := hc
  refine ⟨?_, ?_, c3⟩
  · intro o ho u hu
    rw [upstream_of_sameWiring h] at hu
    exact c1 o ho u hu
  · intro o ho hl n hn
    rw [(h o).1] at hl
    rw [(h o).2.2.2.2] at hn
    exact c2 o ho hl n hn

/-- Visiting a list returns when every visit returns from every patch that meets `Q`, and the
visits keep `Q`. -/
theorem visitAll_returns {visit : Nat → Patch → Option (List Nat × Patch)} (Q : Patch → Prop)
    (hkeep : ∀ (x : Nat) (st : Patch) (l : List Nat) (st' : Patch),
      Q st → visit x st = some (l, st') → Q st') :
    ∀ (l : List Nat) (st : Patch), Q st →
      (∀ x ∈ l, ∀ st, Q st → (visit x st).isSome = true) →
      (visitAll visit l st).isSome = true := by
  intro l
  induction l with
  | nil => intro st _ _; rfl
  | cons o rest ih =>
    intro st hq hsome
    unfold visitAll
    obtain ⟨⟨l1, st1⟩, h1⟩ := Option.isSome_iff_exists.mp (hsome o (List.mem_cons_self _ _) st hq)
    simp only [h1]
    obtain ⟨⟨l2, st2⟩, h2⟩ := Option.isSome_iff_exists.mp
      (ih st1 (hkeep o st l1 st1 hq h1) (fun x hx => hsome x (List.mem_cons_of_mem _ hx)))
    simp [h2]

/-- `getProcessOrder` returns when the fuel exceeds the number of unvisited objects times the
depth of nesting, for a closed list of reachable objects. -/
theorem getProcessOrder_returns (reach : List Nat) (rank : Nat → Nat) (bound : Nat) :
    ∀ (fuel : Nat) (path : List Nat) (o : Nat) (st : Patch),
      st.Closed reach rank bound → o ∈ reach →
      st.unvisited reach path * (bound + 1) + rank o + 1 ≤ fuel →
      (Patch.getProcessOrder fuel path o st).isSome = true := by
  intro fuel
  induction fuel with
  | zero => intro path o st _ _ h; omega
  | succ fuel ih =>
    intro path o st hc ho hfuel
    rw [getProcessOrder_succ]
    -- the inner planning of a graph returns
    have hinner : ∃ st0, (if (st.objects o).label = "pd" then
          Patch.planWith (Patch.getProcessOrder fuel path) o st else some st) = some st0
        ∧ VisitSpec path st [] st0 := by
      by_cases hl : (st.objects o).label = "pd"
      · rw [if_pos hl]
        have hall : (visitAll (Patch.getProcessOrder fuel path)
            ((st.objects o).nodeList.filter (fun x => (st.objects x).isLeafNode)) st).isSome
              = true := by
          apply visitAll_returns
            (fun s => s.Closed reach rank bound
              ∧ s.unvisited reach path ≤ st.unvisited reach path)
          · intro x s l s' hq hv
            have hs := getProcessOrder_good fuel path x s l s' hv
            exact ⟨closed_of_sameWiring hs.2.2.2.2 hq.1,
              le_trans (unvisited_mono hs reach) hq.2⟩
          · exact ⟨hc, le_refl _⟩
          · intro x hx s hq
            have hxn := (List.mem_filter.mp hx).1
            obtain ⟨hxU, hxr⟩ := hc.2.1 o ho hl x hxn
            apply ih path x s hq.1 hxU
            have := Nat.mul_le_mul_right (bound + 1) hq.2
            omega
        obtain ⟨⟨l, st1⟩, hv⟩ := Option.isSome_iff_exists.mp hall
        have hplan : ∃ st0, Patch.planWith (Patch.getProcessOrder fuel path) o st = some st0 := by
          unfold Patch.planWith
          simp only [hv]
          exact ⟨_, rfl⟩
        obtain ⟨st0, h0⟩ := hplan
        obtain ⟨l0, hs, _⟩ := planWith_spec (getProcessOrder_good fuel path) h0
        exact ⟨st0, h0, List.nodup_nil, fun _ hx => (List.not_mem_nil _ hx).elim, hs.2.2.1,
          hs.2.2.2.1, hs.2.2.2.2⟩
      · rw [if_neg hl]
        exact ⟨st, rfl, visitSpec_nil path st⟩
    obtain ⟨st0, h0, hs0⟩ := hinner
    simp only [h0]
    have hc0 : st0.Closed reach rank bound := closed_of_sameWiring hs0.2.2.2.2 hc
    have hm0 : st0.unvisited reach path ≤ st.unvisited reach path := unvisited_mono hs0 reach
    by_cases hord : (st0.objects o).isOrdered = true
    · rw [if_pos hord]; rfl
    · rw [if_neg hord]
      have hu : (st0.objects o).isOrdered = false := by
        cases hb : (st0.objects o).isOrdered
        · rfl
        · exact absurd hb hord
      by_cases hp : o ∈ path
      · rw [if_pos hp]; rfl
      · rw [if_neg hp]
        by_cases hroot : (st0.objects o).isRootNode = true
        · rw [if_pos hroot]; rfl
        · rw [if_neg hroot]
          have hpush := unvisited_push st0 reach path o ho hu hp
          have hall : (visitAll (Patch.getProcessOrder fuel (o :: path))
              (st0.objects o).upstream st0).isSome = true := by
            apply visitAll_returns
              (fun s => s.Closed reach rank bound
                ∧ s.unvisited reach (o :: path) ≤ st0.unvisited reach (o :: path))
            · intro x s l s' hq hv
              have hs := getProcessOrder_good fuel (o :: path) x s l s' hv
              exact ⟨closed_of_sameWiring hs.2.2.2.2 hq.1,
                le_trans (unvisited_mono hs reach) hq.2⟩
            · exact ⟨hc0, le_refl _⟩
            · intro x hx s hq
              have hxU := hc0.1 o ho x hx
              apply ih (o :: path) x s hq.1 hxU
              have hr := hc0.2.2 x hxU
              have hle : s.unvisited reach (o :: path) + 1 ≤ st.unvisited reach path := by
                omega
              have := Nat.mul_le_mul_right (bound + 1) hle
              have e : (s.unvisited reach (o :: path) + 1) * (bound + 1)
                  = s.unvisited reach (o :: path) * (bound + 1) + (bound + 1) := by ring
              omega
          obtain ⟨⟨pl, st1⟩, hv⟩ := Option.isSome_iff_exists.mp hall
          simp [hv]

/-- The first call of the planner on the chain `osc~` to `*~` to `dac~`. -/
theorem chainPatch_planned :
    ∃ st' : Patch, chainPatch.computeDspProcessOrder 5 0 = some st'
      ∧ (st'.objects 0).dspNodeList = [3, 2, 1] := ⟨_, rfl, rfl⟩

/-- C11 on the code: in the chain `osc~` to `*~` to `dac~` (objects 1, 2, 3 of the graph at
address 0) the oscillator feeds the multiplier, and after `computeDspProcessOrder` the signal
execution list is `dac~`, `*~`, `osc~`: the consumer `*~` is at position 1 and its producer
`osc~` at position 2. -/
theorem computeDspProcessOrder_chain_consumers_first :
    (chainPatch.objects 1).outgoingMessageConnectionsListAtOutlet 0 = [⟨2, 0⟩]
    ∧ (chainPatch.objects 2).incomingMessageConnectionsListAtInlet 0 = [⟨1, 0⟩]
    ∧ ∃ st' : Patch, chainPatch.computeDspProcessOrder 5 0 = some st'
        ∧ (st'.objects 0).dspNodeList = [3, 2, 1]
        ∧ positionOf 1 (st'.objects 0).dspNodeList = some 2
        ∧ positionOf 2 (st'.objects 0).dspNodeList = some 1 :=
  ⟨rfl, rfl, _, rfl, rfl, rfl, rfl⟩

/-- C12: after `computeDspProcessOrder`, from whatever flags and connections, the signal
execution list `dspNodeList` of the graph holds no object twice and only objects that process
audio.  The planner returns: for a closed list `reach` of the objects it can meet, with a
nesting rank of at most `bound`, `reach.length * (bound + 1) + bound + 1` nested calls are
enough. -/
theorem computeDspProcessOrder_nodup_audio (st : Patch) (graph : Nat) :
    (∀ (fuel : Nat) (st' : Patch), st.computeDspProcessOrder fuel graph = some st' →
      (st'.objects graph).dspNodeList.Nodup
      ∧ ∀ o ∈ (st'.objects graph).dspNodeList, (st'.objects o).processesAudio = true)
    ∧ (∀ (reach : List Nat) (rank : Nat → Nat) (bound : Nat),
        st.Closed reach rank bound → (∀ n ∈ (st.objects graph).nodeList, n ∈ reach) →
        (st.computeDspProcessOrder (reach.length * (bound + 1) + bound + 1) graph).isSome
          = true) := by
  constructor
  · intro fuel st' h
    obtain ⟨l, hs, hd⟩ := planWith_spec (getProcessOrder_good fuel []) h
    rw [hd]
    refine ⟨List.Nodup.filter _ (List.nodup_reverse.mpr hs.1), ?_⟩
    intro o ho
    exact (List.mem_filter.mp ho).2
  · intro reach rank bound hc hn
    have hall : (visitAll (Patch.getProcessOrder (reach.length * (bound + 1) + bound + 1) [])
        ((st.objects graph).nodeList.filter (fun x => (st.objects x).isLeafNode)) st).isSome
          = true := by
      apply visitAll_returns (fun s => s.Closed reach rank bound)
      · intro x s l s' hq hv
        exact closed_of_sameWiring (getProcessOrder_good _ [] x s l s' hv).2.2.2.2 hq
      · exact hc
      · intro x hx s hq
        have hxU := hn x (List.mem_filter.mp hx).1
        apply getProcessOrder_returns reach rank bound _ [] x s hq hxU
        have h1 : s.unvisited reach [] ≤ reach.length := List.countP_le_length _
        have h2 := hq.2.2 x hxU
        have := Nat.mul_le_mul_right (bound + 1) h1
        omega
    obtain ⟨⟨l, st1⟩, hv⟩ := Option.isSome_iff_exists.mp hall
    unfold Patch.computeDspProcessOrder Patch.planWith
    simp only [hv]
    rfl

/-- C12 on the chain `osc~` to `*~` to `dac~`: the planner returns within the bound, and the
list it leaves has no repeats and only audio objects. -/
theorem computeDspProcessOrder_nodup_audio_witness :
    chainPatch.Closed [1, 2, 3] (fun _ => 0) 0
    ∧ (chainPatch.computeDspProcessOrder ([1, 2, 3].length * (0 + 1) + 0 + 1) 0).isSome = true
    ∧ ∃ st' : Patch, chainPatch.computeDspProcessOrder 5 0 = some st'
        ∧ (st'.objects 0).dspNodeList.Nodup
        ∧ ∀ o ∈ (st'.objects 0).dspNodeList, (st'.objects o).processesAudio = true := by
  have hclosed : chainPatch.Closed [1, 2, 3] (fun _ => 0) 0 := by
    refine ⟨?_, ?_, fun _ _ => Nat.le_refl _⟩
    · intro o ho u hu
      simp only [List.mem_cons, List.mem_singleton, List.not_mem_nil, or_false] at ho
      rcases ho with rfl | rfl | rfl <;>
        simp [chainPatch, chainObjects, Patch.ofObjects, Patch.connect, MessageObject.plain,
          MessageObject.upstream, MessageObject.addConnectionFromObjectToInlet,
          MessageObject.addConnectionToObjectFromOutlet, Function.update, List.range,
          List.range.loop] at hu <;> simp [hu]
    · intro o ho hl
      simp only [List.mem_cons, List.mem_singleton, List.not_mem_nil, or_false] at ho
      rcases ho with rfl | rfl | rfl <;>
        simp [chainPatch, chainObjects, Patch.ofObjects, Patch.connect, MessageObject.plain,
          MessageObject.addConnectionFromObjectToInlet,
          MessageObject.addConnectionToObjectFromOutlet, Function.update] at hl
  have H := computeDspProcessOrder_nodup_audio chainPatch 0
  have hnodes : ∀ n ∈ (chainPatch.objects 0).nodeList, n ∈ [1, 2, 3] := fun n hn => hn
  obtain ⟨st', hst, _⟩ := chainPatch_planned
  exact ⟨hclosed, H.2 [1, 2, 3] (fun _ => 0) 0 hclosed hnodes, st', hst, H.1 5 st' hst⟩

/-! ## Construction of a graph -/

/-- C17 on the code: when the file yields no record, or a first record that is no canvas,
`newInstance` prints the warning and then calls `computeDspProcessOrder` through the null
pointer; it never hands a null graph back to its caller. -/
theorem newInstance_without_canvas_dereferences_null (env : PdEnvironment) (fuel : Nat)
    (directory filename libraryDirectory : String) (depth : Nat) (st : Patch) :
    (env.readFile (env.joinPaths directory filename) = [] →
      Patch.newInstance env (fuel + 1) directory filename libraryDirectory depth st
        = some (.nullDereference (st.printed
            ++ ["WARNING | The first line of the pd file does not define a canvas"])))
    ∧ (∀ (record : PdRecord) (rest : List PdRecord),
        env.readFile (env.joinPaths directory filename) = record :: rest →
        record ≠ .canvas →
        Patch.newInstance env (fuel + 1) directory filename libraryDirectory depth st
          = some (.nullDereference (st.printed
              ++ ["WARNING | The first line of the pd file does not define a canvas"])))
    ∧ (∀ (fuel' : Nat) (st' : Patch),
        Patch.newInstance env fuel' directory filename libraryDirectory depth st
          ≠ some (.done none st')) := by
  refine ⟨?_, ?_, ?_⟩
  · intro h
    unfold Patch.newInstance
    rw [h]
    rfl
  · intro record rest h hne
    unfold Patch.newInstance
    rw [h]
    cases record <;> first | rfl | exact absurd rfl hne
  · intro fuel' st' h
    cases fuel' with
    | zero => simp [Patch.newInstance] at h
    | succ n =>
      unfold Patch.newInstance at h
      split at h
      · split at h
        · exact absurd h (by simp)
        · exact absurd h (by simp)
        · split at h
          · exact absurd h (by simp)
          · simp at h
      · simp at h

theorem newInstance_without_canvas_dereferences_null_witness :
    sampleEnvironment.readFile (sampleEnvironment.joinPaths "patches" "none.pd") = []
    ∧ Patch.newInstance sampleEnvironment 1 "patches" "none.pd" "lib" 0 emptyPatch
        = some (.nullDereference
            ["WARNING | The first line of the pd file does not define a canvas"])
    ∧ sampleEnvironment.readFile (sampleEnvironment.joinPaths "patches" "headless.pd")
        = [.obj "+" "1"]
    ∧ Patch.newInstance sampleEnvironment 1 "patches" "headless.pd" "lib" 0 emptyPatch
        = some (.nullDereference
            ["WARNING | The first line of the pd file does not define a canvas"]) :=
  ⟨rfl,
   (newInstance_without_canvas_dereferences_null sampleEnvironment 0 "patches" "none.pd" "lib"
      0 emptyPatch).1 rfl,
   rfl,
   (newInstance_without_canvas_dereferences_null sampleEnvironment 0 "patches" "headless.pd"
      "lib" 0 emptyPatch).2.1 (.obj "+" "1") [] rfl (by simp)⟩

/-- C19 on the code: the file `broken.pd` declares an object with the unknown label `foo`, for
which there is no abstraction file, and then an adder.  The construction prints that the object
is not recognised, looks for the abstraction, and dereferences the null pointer in
`newInstance`: no graph is built, no placeholder is added and the adder is never read. -/
theorem unknown_object_stops_construction :
    sampleEnvironment.readFile (sampleEnvironment.joinPaths "patches" "broken.pd")
        = [.canvas, .obj "foo" "1", .obj "+" "1"]
    ∧ sampleEnvironment.recognises "foo" = false
    ∧ sampleEnvironment.readFile (sampleEnvironment.joinPaths "patches"
        (sampleEnvironment.joinPaths "1" ".pd")) = []
    ∧ Patch.newInstance sampleEnvironment 10 "patches" "broken.pd" "lib" 0 emptyPatch
        = some (.nullDereference ["Object not recognised.\n",
            "WARNING | The first line of the pd file does not define a canvas"]) :=
  ⟨rfl, rfl, rfl, rfl⟩

/-! ### What the construction keeps -/

theorem extends_refl (st : Patch) : st.Extends st := ⟨le_refl _, fun _ _ => ⟨rfl, rfl⟩⟩

theorem emissions_append (a b : List UnpackCall) :
    UnpackCall.emissions (a ++ b) = UnpackCall.emissions a ++ UnpackCall.emissions b := by
  induction a with
  | nil => rfl
  | cons c cs ih =>
    cases c with
    | sendMessage o m => simp [UnpackCall.emissions, ih]
    | printErr i e g => simp [UnpackCall.emissions, ih]

theorem errorsOf_append (slot : Nat) (a b : List UnpackCall) :
    UnpackCall.errorsOf slot (a ++ b)
      = UnpackCall.errorsOf slot a ++ UnpackCall.errorsOf slot b := by
  induction a with
  | nil => rfl
  | cons c cs ih =>
    cases c with
    | sendMessage o m => simp [UnpackCall.errorsOf, ih]
    | printErr i e g =>
      by_cases h : i = slot <;> simp [UnpackCall.errorsOf, ih, h]

theorem emissionsAt_append (o : Int) (a b : List Emission) :
    emissionsAt o (a ++ b) = emissionsAt o a ++ emissionsAt o b := by
  simp [emissionsAt]

/-- A pass of the loop makes one call: it sends one message from the outlet of its index, or
logs one error, or does nothing. -/
theorem processSlot_cases (self : MessageUnpack) (stackBuffer pool : Nat → PdMessage)
    (message : PdMessage) (i : Nat) :
    (∃ m, self.processSlot stackBuffer pool message i = [.sendMessage i m])
    ∨ self.processSlot stackBuffer pool message i = []
    ∨ (self.processSlot stackBuffer pool message i
        = [.printErr i (self.templateMessage.getType i) (message.getType i)]
      ∧ self.templateMessage.getType i ≠ message.getType i
      ∧ self.templateMessage.getType i ≠ .ANYTHING) := by
  unfold MessageUnpack.processSlot
  simp only []
  by_cases h : self.templateMessage.getType i = message.getType i
      ∨ self.templateMessage.getType i = .ANYTHING
  · rw [if_pos h]
    cases self.templateMessage.getType i
    · exact Or.inl ⟨_, rfl⟩
    · exact Or.inl ⟨_, rfl⟩
    · exact Or.inr (Or.inl rfl)
    · exact Or.inl ⟨_, rfl⟩
    · exact Or.inr (Or.inl rfl)
  · rw [if_neg h]
    exact Or.inr (Or.inr ⟨rfl, fun e => h (Or.inl e), fun e => h (Or.inr e)⟩)

/-- What a pass of the loop leaves at another outlet and for another slot: nothing. -/
theorem processSlot_other (self : MessageUnpack) (stackBuffer pool : Nat → PdMessage)
    (message : PdMessage) (i j : Nat) (hij : i ≠ j) :
    emissionsAt j (UnpackCall.emissions (self.processSlot stackBuffer pool message i)) = []
    ∧ UnpackCall.errorsOf j (self.processSlot stackBuffer pool message i) = [] := by
  have hne : ¬ ((i : Int) = (j : Int)) := fun e => hij (Int.ofNat_inj.mp e)
  rcases processSlot_cases self stackBuffer pool message i with ⟨m, h⟩ | h | ⟨h, _, _⟩
  · rw [h]
    simp [UnpackCall.emissions, UnpackCall.errorsOf, emissionsAt, hne]
  · rw [h]
    simp [UnpackCall.emissions, UnpackCall.errorsOf, emissionsAt]
  · rw [h]
    simp [UnpackCall.emissions, UnpackCall.errorsOf, emissionsAt, hij]

/-- The loop from index `n - 1` down: the outlets of the messages sent fall strictly and lie
below `n`. -/
theorem slotLoop_emissions (self : MessageUnpack) (stackBuffer pool : Nat → PdMessage)
    (message : PdMessage) : ∀ n : Nat,
    (UnpackCall.emissions (self.slotLoop stackBuffer pool message n)).Pairwise
        (fun a b => b.1 < a.1)
    ∧ ∀ e ∈ UnpackCall.emissions (self.slotLoop stackBuffer pool message n),
        0 ≤ e.1 ∧ e.1 < (n : Int) := by
  intro n
  induction n with
  | zero =>
    simp [MessageUnpack.slotLoop, UnpackCall.emissions]
  | succ n ih =>
    have hslot : ∀ e ∈ UnpackCall.emissions (self.processSlot stackBuffer pool message n),
        e.1 = (n : Int) := by
      intro e he
      rcases processSlot_cases self stackBuffer pool message n with ⟨m, h⟩ | h | ⟨h, _, _⟩
      · rw [h] at he
        simp only [UnpackCall.emissions, List.mem_singleton] at he
        rw [he]
      · rw [h] at he
        simp [UnpackCall.emissions] at he
      · rw [h] at he
        simp [UnpackCall.emissions] at he
    have hpair : (UnpackCall.emissions (self.processSlot stackBuffer pool message n)).Pairwise
        (fun a b => b.1 < a.1) := by
      rcases processSlot_cases self stackBuffer pool message n with ⟨m, h⟩ | h | ⟨h, _, _⟩ <;>
        rw [h] <;> simp [UnpackCall.emissions]
    unfold MessageUnpack.slotLoop
    rw [emissions_append]
    refine ⟨List.pairwise_append.mpr ⟨hpair, ih.1, ?_⟩, ?_⟩
    · intro a ha b hb
      rw [hslot a ha]
      exact (ih.2 b hb).2
    · intro e he
      rw [List.mem_append] at he
      rcases he with he | he
      · rw [hslot e he]
        exact ⟨Int.natCast_nonneg n, by push_cast; omega⟩
      · exact ⟨(ih.2 e he).1, lt_trans (ih.2 e he).2 (by push_cast; omega)⟩

/-- What the loop leaves at the outlet and for the slot of an index below its start is what
the pass for that index leaves. -/
theorem slotLoop_slot (self : MessageUnpack) (stackBuffer pool : Nat → PdMessage)
    (message : PdMessage) (j : Nat) : ∀ n : Nat,
    (j < n →
      emissionsAt j (UnpackCall.emissions (self.slotLoop stackBuffer pool message n))
        = emissionsAt j (UnpackCall.emissions (self.processSlot stackBuffer pool message j))
      ∧ UnpackCall.errorsOf j (self.slotLoop stackBuffer pool message n)
        = UnpackCall.errorsOf j (self.processSlot stackBuffer pool message j))
    ∧ (n ≤ j →
      emissionsAt j (UnpackCall.emissions (self.slotLoop stackBuffer pool message n)) = []
      ∧ UnpackCall.errorsOf j (self.slotLoop stackBuffer pool message n) = []) := by
  intro n
  induction n with
  | zero =>
    refine ⟨fun h => absurd h (Nat.not_lt_zero j), fun _ => ?_⟩
    simp [MessageUnpack.slotLoop, UnpackCall.emissions, UnpackCall.errorsOf, emissionsAt]
  | succ n ih =>
    unfold MessageUnpack.slotLoop
    rw [emissions_append, emissionsAt_append, errorsOf_append]
    refine ⟨fun h => ?_, fun h => ?_⟩
    · by_cases hj : j = n
      · subst hj
        rw [(ih.2 (le_refl _)).1, (ih.2 (le_refl _)).2, List.append_nil, List.append_nil]
        exact ⟨rfl, rfl⟩
      · have hlt : j < n := by omega
        have ho := processSlot_other self stackBuffer pool message n j (fun e => hj e.symm)
        rw [ho.1, ho.2, List.nil_append, List.nil_append]
        exact ih.1 hlt
    · have hne : n ≠ j := by omega
      have ho := processSlot_other self stackBuffer pool message n j hne
      rw [ho.1, ho.2, List.nil_append, List.nil_append]
      exact ih.2 (by omega)

theorem unpack_numElements (self : MessageUnpack) (message : PdMessage) :
    (if self.templateMessage.getNumElements < message.getNumElements then
        self.templateMessage.getNumElements
      else message.getNumElements)
      = min self.templateMessage.getNumElements message.getNumElements := by
  split
  · rw [min_eq_left (le_of_lt ‹_›)]
  · rw [min_eq_right (by omega)]

/-- C21: the messages that `MessageUnpack::processMessage` sends leave from strictly falling
outlet indices, so a message from outlet `j` is sent before a message from an outlet `i < j`,
and every outlet that sends has an index from 0 to below the smaller of the template length
and the message length. -/
theorem unpack_emits_right_to_left (self : MessageUnpack) (stackBuffer pool : Nat → PdMessage)
    (inletIndex : Int) (message : PdMessage) :
    (UnpackCall.emissions (self.processMessage stackBuffer pool inletIndex message)).Pairwise
        (fun a b => b.1 < a.1)
    ∧ ∀ e ∈ UnpackCall.emissions (self.processMessage stackBuffer pool inletIndex message),
        0 ≤ e.1
        ∧ e.1 < ((min self.templateMessage.getNumElements message.getNumElements : Nat)
            : Int) := by
  unfold MessageUnpack.processMessage
  simp only []
  rw [unpack_numElements]
  exact slotLoop_emissions self stackBuffer pool message _

/-- The type tag at an index is `FLOAT` only for a float stored there. -/
theorem getType_float {m : PdMessage} {i : Nat} (h : m.getType i = .FLOAT) :
    ∃ f, m.getElement i = some (.float f) := by
  unfold PdMessage.getType at h
  cases he : m.getElement i with
  | none => rw [he] at h; exact absurd h (by simp)
  | some e =>
    rw [he] at h
    cases e <;> first | exact ⟨_, rfl⟩ | exact absurd h (by simp [MessageElement.getType])

/-- The type tag at an index is `SYMBOL` only for a symbol stored there. -/
theorem getType_symbol {m : PdMessage} {i : Nat} (h : m.getType i = .SYMBOL) :
    ∃ s, m.getElement i = some (.symbol s) := by
  unfold PdMessage.getType at h
  cases he : m.getElement i with
  | none => rw [he] at h; exact absurd h (by simp)
  | some e =>
    rw [he] at h
    cases e <;> first | exact ⟨_, rfl⟩ | exact absurd h (by simp [MessageElement.getType])

/-- C22: take a slot `i` of the template, below the template length and the message length,
of type float or symbol.  When the element `i` of the message has the type of the slot, outlet
`i` sends exactly one message, whose first element is that element, and no error is logged for
the slot; when it has another type, outlet `i` sends nothing and exactly one error, naming
both types, is logged for the slot.  Every slot below both lengths gets what its own pass of
the loop makes, whatever the other slots hold. -/
theorem unpack_typed_slot (self : MessageUnpack) (stackBuffer pool : Nat → PdMessage)
    (inletIndex : Int) (message : PdMessage) (i : Nat)
    (hi : i < min self.templateMessage.getNumElements message.getNumElements)
    (ht : self.templateMessage.getType i = .FLOAT ∨ self.templateMessage.getType i = .SYMBOL) :
    (message.getType i = self.templateMessage.getType i →
      ∃ m, emissionsAt i
            (UnpackCall.emissions (self.processMessage stackBuffer pool inletIndex message))
          = [m]
        ∧ m.getElement 0 = message.getElement i
        ∧ UnpackCall.errorsOf i (self.processMessage stackBuffer pool inletIndex message) = [])
    ∧ (message.getType i ≠ self.templateMessage.getType i →
      emissionsAt i
          (UnpackCall.emissions (self.processMessage stackBuffer pool inletIndex message)) = []
      ∧ UnpackCall.errorsOf i (self.processMessage stackBuffer pool inletIndex message)
          = [(self.templateMessage.getType i, message.getType i)])
    ∧ (∀ j, j < min self.templateMessage.getNumElements message.getNumElements →
      emissionsAt j
          (UnpackCall.emissions (self.processMessage stackBuffer pool inletIndex message))
        = emissionsAt j (UnpackCall.emissions (self.processSlot stackBuffer pool message j))
      ∧ UnpackCall.errorsOf j (self.processMessage stackBuffer pool inletIndex message)
        = UnpackCall.errorsOf j (self.processSlot stackBuffer pool message j)) := by
  have hall : ∀ j, j < min self.templateMessage.getNumElements message.getNumElements →
      emissionsAt j
          (UnpackCall.emissions (self.processMessage stackBuffer pool inletIndex message))
        = emissionsAt j (UnpackCall.emissions (self.processSlot stackBuffer pool message j))
      ∧ UnpackCall.errorsOf j (self.processMessage stackBuffer pool inletIndex message)
        = UnpackCall.errorsOf j (self.processSlot stackBuffer pool message j) := by
    intro j hj
    unfold MessageUnpack.processMessage
    simp only []
    rw [unpack_numElements]
    exact (slotLoop_slot self stackBuffer pool message j _).1 hj
  refine ⟨fun hsame => ?_, fun hdiff => ?_, hall⟩
  · rw [(hall i hi).1, (hall i hi).2]
    rcases ht with ht | ht
    · obtain ⟨f, hf⟩ := getType_float (hsame.trans ht)
      refine ⟨PdMessage.initWithTimestampAndFloat message.getTimestamp (message.getFloat i),
        ?_, ?_, ?_⟩
      · simp [MessageUnpack.processSlot, ht, hsame, UnpackCall.emissions, emissionsAt]
      · simp [PdMessage.initWithTimestampAndFloat, PdMessage.getElement, PdMessage.getFloat] at hf ⊢
        rw [hf]
      · simp [MessageUnpack.processSlot, ht, hsame, UnpackCall.errorsOf]
    · obtain ⟨s, hs⟩ := getType_symbol (hsame.trans ht)
      refine ⟨((pool i).setSymbol 0 (message.getSymbol i)).setTimestamp message.getTimestamp,
        ?_, ?_, ?_⟩
      · simp [MessageUnpack.processSlot, ht, hsame, UnpackCall.emissions, emissionsAt]
      · simp [PdMessage.setSymbol, PdMessage.setTimestamp, PdMessage.getElement,
          PdMessage.getSymbol] at hs ⊢
        rw [hs]
      · simp [MessageUnpack.processSlot, ht, hsame, UnpackCall.errorsOf]
  · rw [(hall i hi).1, (hall i hi).2]
    have hne : ¬ (self.templateMessage.getType i = message.getType i
        ∨ self.templateMessage.getType i = .ANYTHING) := by
      rintro (h | h)
      · exact hdiff h.symm
      · rcases ht with ht | ht <;> rw [ht] at h <;> exact absurd h (by simp)
    unfold MessageUnpack.processSlot
    simp only []
    rw [if_neg hne]
    simp [UnpackCall.emissions, UnpackCall.errorsOf, emissionsAt]

theorem unpack_typed_slot_witness :
    emissionsAt 0 (UnpackCall.emissions (unpackFloatSymbol.processMessage
        (fun _ => ⟨0, []⟩) (fun _ => ⟨0, [.bang]⟩) 0 ⟨7, [.float (157 / 50), .float 2]⟩))
      = [⟨7, [.float (157 / 50)]⟩]
    ∧ emissionsAt 1 (UnpackCall.emissions (unpackFloatSymbol.processMessage
        (fun _ => ⟨0, []⟩) (fun _ => ⟨0, [.bang]⟩) 0 ⟨7, [.float (157 / 50), .float 2]⟩))
      = []
    ∧ UnpackCall.errorsOf 1 (unpackFloatSymbol.processMessage
        (fun _ => ⟨0, []⟩) (fun _ => ⟨0, [.bang]⟩) 0 ⟨7, [.float (157 / 50), .float 2]⟩)
      = [(.SYMBOL, .FLOAT)]
    ∧ UnpackCall.errorsOf 0 (unpackFloatSymbol.processMessage
        (fun _ => ⟨0, []⟩) (fun _ => ⟨0, [.bang]⟩) 0 ⟨7, [.float (157 / 50), .float 2]⟩)
      = [] := by
  have h0 := unpack_typed_slot unpackFloatSymbol (fun _ => ⟨0, []⟩) (fun _ => ⟨0, [.bang]⟩) 0
    ⟨7, [.float (157 / 50), .float 2]⟩ 0 (by decide) (Or.inl rfl)
  have h1 := unpack_typed_slot unpackFloatSymbol (fun _ => ⟨0, []⟩) (fun _ => ⟨0, [.bang]⟩) 0
    ⟨7, [.float (157 / 50), .float 2]⟩ 1 (by decide) (Or.inr rfl)
  simp only [Nat.cast_zero] at h0
  simp only [Nat.cast_one] at h1
  obtain ⟨m, hm, _, he0⟩ := h0.1 rfl
  have hd : PdMessage.getType ⟨7, [.float (157 / 50), .float 2]⟩ 1
      ≠ unpackFloatSymbol.templateMessage.getType 1 := by
    simp [PdMessage.getType, PdMessage.getElement, unpackFloatSymbol, MessageElement.getType]
  refine ⟨?_, (h1.2.1 hd).1, (h1.2.1 hd).2, he0⟩
  have e0 := (h0.2.2 0 (by decide)).1
  simp only [Nat.cast_zero] at e0
  rw [e0]
  simp [MessageUnpack.processSlot, unpackFloatSymbol, PdMessage.getType, PdMessage.getElement,
    MessageElement.getType, UnpackCall.emissions, emissionsAt,
    PdMessage.initWithTimestampAndFloat, PdMessage.getTimestamp, PdMessage.getFloat]

/-- C29 on the code: an unpack object with two slots of type anything gets the symbol `a` with
the timestamp 5.  The message it sends from outlet 0 is the stack buffer with the symbol written
to it: its timestamp is what the buffer held, 0 for a buffer that held 0, not the timestamp 5
of the incoming message.  For an incoming bang the buffer is sent as it is. -/
theorem unpack_anything_symbol_not_timestamped :
    (∀ stackBuffer pool : Nat → PdMessage,
      unpackAnything.processMessage stackBuffer pool 0 ⟨5, [.symbol "a"]⟩
        = [.sendMessage 0 ((stackBuffer 0).setSymbol 0 "a")])
    ∧ (∀ stackBuffer : Nat → PdMessage,
      ((stackBuffer 0).setSymbol 0 "a").getTimestamp = (stackBuffer 0).getTimestamp)
    ∧ (∀ stackBuffer pool : Nat → PdMessage,
      unpackAnything.processMessage stackBuffer pool 0 ⟨5, [.bang]⟩
        = [.sendMessage 0 (stackBuffer 0)])
    ∧ UnpackCall.emissions (unpackAnything.processMessage (fun _ => ⟨0, [.bang]⟩)
          (fun _ => ⟨0, [.bang]⟩) 0 ⟨5, [.symbol "a"]⟩)
        = [(0, ⟨0, [.symbol "a"]⟩)]
    ∧ (⟨0, [.symbol "a"]⟩ : PdMessage).getTimestamp
        ≠ (⟨5, [.symbol "a"]⟩ : PdMessage).getTimestamp := by
  refine ⟨fun _ _ => rfl, fun _ => rfl, fun _ _ => rfl, rfl, ?_⟩
  simp [PdMessage.getTimestamp]

/-! ## `MessagePow` -/

/-- C23 on the code: a pow object with exponent 2 gets the float 3, then the float -1, with
the timestamp 5 at inlet 0.  Both times the message sent from outlet 0 is the stack buffer as
it was found, and the incoming message is rewritten to the single float `powf(3, 2)`, or 0,
with the timestamp 5. -/
theorem pow_sends_uninitialised_message :
    (∀ (powf : ℚ → ℚ → ℚ) (stackBuffer : PdMessage),
      MessagePow.processMessage powf stackBuffer ⟨2⟩ 0 ⟨5, [.float 3]⟩
        = (⟨2⟩, ⟨5, [.float (powf 3 2)]⟩, [(0, stackBuffer)]))
    ∧ (∀ (powf : ℚ → ℚ → ℚ) (stackBuffer : PdMessage),
      MessagePow.processMessage powf stackBuffer ⟨2⟩ 0 ⟨5, [.float (-1)]⟩
        = (⟨2⟩, ⟨5, [.float 0]⟩, [(0, stackBuffer)]))
    ∧ (MessagePow.processMessage (fun x _ => x * x) ⟨0, [.bang]⟩ ⟨2⟩ 0 ⟨5, [.float 3]⟩).2.2
        = [(0, ⟨0, [.bang]⟩)] := by
  refine ⟨fun powf stackBuffer => ?_, fun powf stackBuffer => ?_, ?_⟩ <;>
    simp [MessagePow.processMessage, PdMessage.isFloat, PdMessage.getElement,
      PdMessage.getFloat, PdMessage.getTimestamp, PdMessage.initWithTimestampAndFloat]

/-! ## `MessageMoses`: the right inlet -/

/-- C28: a message at inlet 1 of a moses object whose first element is a float sends nothing
and makes that float the threshold; a message whose first element is no float, at any inlet,
and any message at an inlet other than 0 and 1, sends nothing and leaves the threshold as it
is. -/
theorem moses_right_inlet_sets_threshold (self : MessageMoses) (inletIndex : Int)
    (message : PdMessage) :
    (∀ (f : ℚ) (rest : List MessageElement), inletIndex = 1 →
      message.elements = .float f :: rest →
      self.processMessage inletIndex message = ({ constant := f }, []))
    ∧ (message.isFloat 0 = false → self.processMessage inletIndex message = (self, []))
    ∧ (inletIndex ≠ 0 → inletIndex ≠ 1 → self.processMessage inletIndex message = (self, []))
    ∧ (message.isFloat 0 = false ↔ ∀ (f : ℚ) (rest : List MessageElement),
        message.elements ≠ .float f :: rest) := by
  refine ⟨?_, ?_, ?_, ?_⟩
  · intro f rest hi he
    subst hi
    simp [MessageMoses.processMessage, PdMessage.isFloat, PdMessage.getElement,
      PdMessage.getFloat, he]
  · intro hf
    unfold MessageMoses.processMessage
    rw [hf]
    by_cases h0 : inletIndex = 0
    · simp [h0]
    · by_cases h1 : inletIndex = 1 <;> simp [h0, h1]
  · intro h0 h1
    simp [MessageMoses.processMessage, h0, h1]
  · unfold PdMessage.isFloat PdMessage.getElement
    cases he : message.elements with
    | nil => simp
    | cons e rest =>
      cases e <;> simp

theorem moses_right_inlet_sets_threshold_witness :
    (⟨10⟩ : MessageMoses).processMessage 1 ⟨4, [.float 3, .bang]⟩ = (⟨3⟩, [])
    ∧ (⟨10⟩ : MessageMoses).processMessage 1 ⟨4, [.symbol "a"]⟩ = (⟨10⟩, [])
    ∧ (⟨10⟩ : MessageMoses).processMessage 0 ⟨4, [.bang]⟩ = (⟨10⟩, [])
    ∧ (⟨10⟩ : MessageMoses).processMessage 2 ⟨4, [.float 3]⟩ = (⟨10⟩, []) :=
  ⟨(moses_right_inlet_sets_threshold ⟨10⟩ 1 ⟨4, [.float 3, .bang]⟩).1 3 [.bang] rfl rfl,
   (moses_right_inlet_sets_threshold ⟨10⟩ 1 ⟨4, [.symbol "a"]⟩).2.1 rfl,
   (moses_right_inlet_sets_threshold ⟨10⟩ 0 ⟨4, [.bang]⟩).2.1 rfl,
   (moses_right_inlet_sets_threshold ⟨10⟩ 2 ⟨4, [.float 3]⟩).2.2.1 (by decide) (by decide)⟩

/-! ## The block clock and stale entries -/

/-- A returning run of `n` blocks is a returning first call followed by the other blocks. -/
theorem processBlocks_succ {W : Type} {env : ObjectWorld W} {fuel n : Nat} {g g' : PdGraph W}
    {tr : List MessageDestination} (h : g.processBlocks env fuel (n + 1) = some (g', tr)) :
    ∃ (g1 : PdGraph W) (tr1 tr2 : List MessageDestination),
      g.process env fuel = some (g1, tr1)
      ∧ g1.processBlocks env fuel n = some (g', tr2) ∧ tr = tr1 ++ tr2 := by
  unfold PdGraph.processBlocks at h
  cases h1 : g.process env fuel with
  | none => simp [h1] at h
  | some r1 =>
    obtain ⟨g1, tr1⟩ := r1
    simp only [h1] at h
    cases h2 : g1.processBlocks env fuel n with
    | none => simp [h2] at h
    | some r2 =>
      obtain ⟨g2, tr2⟩ := r2
      simp only [h2, Option.some.injEq, Prod.mk.injEq] at h
      obtain ⟨rfl, rfl⟩ := h
      exact ⟨g1, tr1, tr2, rfl, h2, rfl⟩

/-- A returning `process` has moved the block start by one block and kept the duration. -/
theorem process_clock {W : Type} {env : ObjectWorld W} {fuel : Nat} {g g' : PdGraph W}
    {tr : List MessageDestination} (h : g.process env fuel = some (g', tr)) :
    g'.blockStartTimestamp = g.blockStartTimestamp + g.blockDurationMs
    ∧ g'.blockDurationMs = g.blockDurationMs := by
  obtain ⟨g1, h1, rfl⟩ := process_some h
  exact ⟨rfl, (sendBlockMessages_frame env _ fuel g g1 tr h1).2.1⟩

/-- After `n` returning calls the block start has moved by `n` blocks. -/
theorem processBlocks_clock {W : Type} (env : ObjectWorld W) (fuel : Nat) :
    ∀ (n : Nat) (g g' : PdGraph W) (tr : List MessageDestination),
      g.processBlocks env fuel n = some (g', tr) →
      g'.blockStartTimestamp = g.blockStartTimestamp + n * g.blockDurationMs
      ∧ g'.blockDurationMs = g.blockDurationMs := by
  intro n
  induction n with
  | zero =>
    intro g g' tr h
    simp only [PdGraph.processBlocks, Option.some.injEq, Prod.mk.injEq] at h
    obtain ⟨rfl, _⟩ := h
    simp
  | succ n ih =>
    intro g g' tr h
    obtain ⟨g1, tr1, tr2, h1, h2, _⟩ := processBlocks_succ h
    have hc := process_clock h1
    have hn := ih g1 g' tr2 h2
    refine ⟨?_, hn.2.trans hc.2⟩
    rw [hn.1, hc.1, hc.2]
    push_cast
    ring

/-- C24: every returning call of `PdGraph::process` leaves `blockStartTimestamp` at its value
at the call plus `blockDurationMs`, whatever was delivered, and leaves `blockDurationMs` as it
was; the call returns when no delivery schedules a message before the next block start.  So
after `n` calls the block start has moved by `n` blocks, and with a duration that is not
negative the values of `blockStartTimestamp` over the calls never fall; the first one is 0. -/
theorem process_advances_block_start {W : Type} (env : ObjectWorld W) (g : PdGraph W) :
    (∀ (fuel : Nat) (g' : PdGraph W) (delivered : List MessageDestination),
      g.process env fuel = some (g', delivered) →
      g'.blockStartTimestamp = g.blockStartTimestamp + g.blockDurationMs
      ∧ g'.blockDurationMs = g.blockDurationMs)
    ∧ (NoScheduleBefore env (g.blockStartTimestamp + g.blockDurationMs) →
      (g.process env (g.messageCallbackQueue.length + 1)).isSome = true)
    ∧ (∀ (fuel n : Nat) (g' : PdGraph W) (delivered : List MessageDestination),
      g.processBlocks env fuel n = some (g', delivered) →
      g'.blockStartTimestamp = g.blockStartTimestamp + n * g.blockDurationMs)
    ∧ (∀ (fuel m n : Nat) (gm gn : PdGraph W) (dm dn : List MessageDestination),
      0 ≤ g.blockDurationMs → m ≤ n →
      g.processBlocks env fuel m = some (gm, dm) →
      g.processBlocks env fuel n = some (gn, dn) →
      gm.blockStartTimestamp ≤ gn.blockStartTimestamp)
    ∧ (∀ (blockDurationMs : ℚ) (world : W),
      (PdGraph.init blockDurationMs world).blockStartTimestamp = 0) := by
  refine ⟨fun fuel g' delivered h => process_clock h, fun henv => process_returns env g henv,
    fun fuel n g' delivered h => (processBlocks_clock env fuel n g g' delivered h).1, ?_,
    fun _ _ => rfl⟩
  intro fuel m n gm gn dm dn hd hmn hm hn
  rw [(processBlocks_clock env fuel m g gm dm hm).1,
    (processBlocks_clock env fuel n g gn dn hn).1]
  have hcast : (m : ℚ) ≤ (n : ℚ) := by exact_mod_cast hmn
  have := mul_le_mul_of_nonneg_right hcast hd
  linarith

theorem process_advances_block_start_witness :
    NoScheduleBefore quietWorld (twoInWindow.blockStartTimestamp + twoInWindow.blockDurationMs)
    ∧ (twoInWindow.process quietWorld (twoInWindow.messageCallbackQueue.length + 1)).isSome
        = true
    ∧ ∃ (g1 g3 : PdGraph Unit) (d1 d3 : List MessageDestination),
        twoInWindow.processBlocks quietWorld 3 1 = some (g1, d1)
        ∧ twoInWindow.processBlocks quietWorld 3 3 = some (g3, d3)
        ∧ g1.blockStartTimestamp = 10 ∧ g3.blockStartTimestamp = 30
        ∧ g1.blockStartTimestamp ≤ g3.blockStartTimestamp := by
  have hq : NoScheduleBefore quietWorld
      (twoInWindow.blockStartTimestamp + twoInWindow.blockDurationMs) := by
    intro w o i m o' i' m' h
    simp [quietWorld] at h
  have H := process_advances_block_start quietWorld twoInWindow
  have hs1 : (twoInWindow.processBlocks quietWorld 3 1).isSome = true := by
    norm_num [twoInWindow, PdGraph.processBlocks, PdGraph.process, PdGraph.sendBlockMessages,
      PdGraph.deliverHead, PdGraph.applyCalls, PdGraph.scheduleMessage, PdGraph.init,
      insertMessage, keyLt, bangAt, MessageRef.getTimestamp, PdMessage.getTimestamp,
      quietWorld, reserve, unreserve]
  have hs3 : (twoInWindow.processBlocks quietWorld 3 3).isSome = true := by
    norm_num [twoInWindow, PdGraph.processBlocks, PdGraph.process, PdGraph.sendBlockMessages,
      PdGraph.deliverHead, PdGraph.applyCalls, PdGraph.scheduleMessage, PdGraph.init,
      insertMessage, keyLt, bangAt, MessageRef.getTimestamp, PdMessage.getTimestamp,
      quietWorld, reserve, unreserve]
  obtain ⟨⟨g1, d1⟩, h1⟩ := Option.isSome_iff_exists.mp hs1
  obtain ⟨⟨g3, d3⟩, h3⟩ := Option.isSome_iff_exists.mp hs3
  have hstart : twoInWindow.blockStartTimestamp = 0 := rfl
  have hdur : twoInWindow.blockDurationMs = 10 := rfl
  refine ⟨hq, H.2.1 hq, g1, g3, d1, d3, h1, h3, ?_, ?_, ?_⟩
  · rw [H.2.2.1 3 1 g1 d1 h1, hstart, hdur]; norm_num
  · rw [H.2.2.1 3 3 g3 d3 h3, hstart, hdur]; norm_num
  · exact H.2.2.2.1 3 1 3 g1 g3 d1 d3 (by rw [hdur]; norm_num) (by decide) h1 h3

/-- An insertion keeps a queue in the order of its timestamps, whatever the sequence
numbers. -/
theorem insertMessage_sorted {q : List MessageDestination} {d : MessageDestination}
    (hq : q.Pairwise (fun a b => a.message.getTimestamp ≤ b.message.getTimestamp)) :
    (insertMessage q d).Pairwise
      (fun a b => a.message.getTimestamp ≤ b.message.getTimestamp) := by
  induction q with
  | nil => simp [insertMessage]
  | cons h t ih =>
    rw [List.pairwise_cons] at hq
    unfold insertMessage
    by_cases hk : keyLt d h
    · rw [if_pos hk]
      have hdh : d.message.getTimestamp ≤ h.message.getTimestamp := by
        rcases hk with hk | hk
        · exact le_of_lt hk
        · exact le_of_eq hk.1
      refine List.pairwise_cons.mpr ⟨?_, List.pairwise_cons.mpr hq⟩
      intro x hx
      rcases List.mem_cons.mp hx with rfl | hx
      · exact hdh
      · exact le_trans hdh (hq.1 x hx)
    · rw [if_neg hk]
      refine List.pairwise_cons.mpr ⟨?_, ih hq.2⟩
      intro x hx
      rcases mem_insertMessage.mp hx with rfl | hx
      · by_contra hlt
        exact hk (Or.inl (lt_of_not_le hlt))
      · exact hq.1 x hx

theorem applyCalls_sorted {W : Type} (cs : List GraphCall) :
    ∀ g : PdGraph W, g.QueueSorted → (g.applyCalls cs).QueueSorted := by
  induction cs with
  | nil => intro g h; exact h
  | cons c cs ih =>
    intro g h
    cases c with
    | scheduleMessage o i m =>
      exact ih _ (insertMessage_sorted h)
    | cancelMessage o i m =>
      exact ih _ h

/-- From a queue in the order of its timestamps without stale entries, when none of the
deliveries that the loop makes schedules a message before the block start: as the loop
leaves, the queue is in the order of its timestamps and holds no entry with a timestamp before
the end of the window. -/
theorem sendBlockMessages_sorted {W : Type} (env : ObjectWorld W) (next start : ℚ) :
    ∀ (fuel : Nat) (g g' : PdGraph W) (tr : List MessageDestination),
      g.blockStartTimestamp = start → g.QueueSorted → g.QueueFresh →
      PdGraph.sendBlockMessages env next fuel g = some (g', tr) →
      (∀ (o' : Nat) (i' : Int) (m' : MessageRef),
        GraphCall.scheduleMessage o' i' m' ∈ callsDuring env g.world tr →
        start ≤ m'.getTimestamp) →
      g'.QueueSorted ∧ ∀ x ∈ g'.messageCallbackQueue, next ≤ x.message.getTimestamp := by
  intro fuel
  induction fuel with
  | zero =>
    intro g g' tr _ _ _ h
    simp [PdGraph.sendBlockMessages] at h
  | succ fuel ih =>
    intro g g' tr hstart hsorted hfresh h htrace
    rcases sendBlockMessages_cases env next fuel g g' tr h with
      ⟨hq, hg, _⟩ | ⟨d, rest, hq, hout, hg, _⟩ | ⟨d, rest, tr', hq, hlo, hhi, hrec, ht⟩
    · rw [hg]
      refine ⟨hsorted, fun x hx => ?_⟩
      rw [hq] at hx
      exact absurd hx (List.not_mem_nil x)
    · rw [hg]
      refine ⟨hsorted, fun x hx => ?_⟩
      have hd : g.blockStartTimestamp ≤ d.message.getTimestamp :=
        hfresh d (by rw [hq]; exact List.mem_cons_self _ _)
      have hnext : next ≤ d.message.getTimestamp := by
        by_contra hlt
        exact hout ⟨hd, lt_of_not_le hlt⟩
      have hs := hsorted
      unfold PdGraph.QueueSorted at hs
      rw [hq, List.pairwise_cons] at hs
      rw [hq] at hx
      rcases List.mem_cons.mp hx with rfl | hx
      · exact hnext
      · exact le_trans hnext (hs.1 x hx)
    · rw [ht] at htrace
      have hs := hsorted
      unfold PdGraph.QueueSorted at hs
      rw [hq, List.pairwise_cons] at hs
      refine ih (g.deliverHead env d rest) g' tr'
        ((deliverHead_frame env g d rest).1.trans hstart) ?_ ?_ hrec ?_
      · rw [deliverHead_eq]
        exact applyCalls_sorted _ _ hs.2
      · intro x hx
        rw [(deliverHead_frame env g d rest).1]
        rcases deliverHead_mem env g d rest x hx with hx | ⟨_, hx⟩
        · exact hfresh x (by rw [hq]; exact List.mem_cons_of_mem _ hx)
        · rw [hstart]
          exact htrace _ _ _ (List.mem_append_left _ hx)
      · intro o' i' m' hm
        rw [deliverHead_world] at hm
        exact htrace _ _ _ (List.mem_append_right _ hm)

/-- With a stale entry at its head the queue is left alone by any number of calls: nothing is
delivered, and the world has seen the audio passes only. -/
theorem processBlocks_stale_head {W : Type} (env : ObjectWorld W) (fuel : Nat)
    (d : MessageDestination) (rest : List MessageDestination) :
    ∀ (n : Nat) (g : PdGraph W), g.messageCallbackQueue = d :: rest →
      d.message.getTimestamp < g.blockStartTimestamp → 0 ≤ g.blockDurationMs →
      ∃ g' : PdGraph W, g.processBlocks env (fuel + 1) n = some (g', [])
        ∧ g'.messageCallbackQueue = d :: rest
        ∧ g'.world = Nat.iterate env.processDsp n g.world := by
  intro n
  induction n with
  | zero =>
    intro g hq _ _
    exact ⟨g, rfl, hq, rfl⟩
  | succ n ih =>
    intro g hq hstale hdur
    have hnot : ¬ (g.blockStartTimestamp ≤ d.message.getTimestamp
        ∧ d.message.getTimestamp < g.blockStartTimestamp + g.blockDurationMs) :=
      fun hc => absurd hstale (not_lt.mpr hc.1)
    have h1 : g.process env (fuel + 1)
        = some ({ g with
                  world := env.processDsp g.world
                  blockStartTimestamp := g.blockStartTimestamp + g.blockDurationMs }, []) := by
      unfold PdGraph.process PdGraph.sendBlockMessages
      simp only [hq]
      rw [if_neg hnot]
      simp [hq]
    obtain ⟨g', h2, hq', hw'⟩ := ih
      ({ g with
         world := env.processDsp g.world
         blockStartTimestamp := g.blockStartTimestamp + g.blockDurationMs }) hq
      (lt_of_lt_of_le hstale (le_add_of_nonneg_right hdur)) hdur
    refine ⟨g', ?_, hq', ?_⟩
    · unfold PdGraph.processBlocks
      rw [h1]
      simp only [h2, List.append_nil]
    · rw [hw', Function.iterate_succ_apply]

/-- C30: take a queue in the order of its timestamps in which no timestamp lies before
`blockStartTimestamp`.  When none of the deliveries of a returning call of `process` has
scheduled a message before `blockStartTimestamp`, the queue that the call leaves is in the
order of its timestamps and holds no timestamp before the new `blockStartTimestamp`; the call
does return when the delivery of a message of the block schedules nothing before the next
block start.  With an entry dated before `blockStartTimestamp` at the head of the queue, and a
duration that is not negative, every call returns at once: whatever the number of calls,
nothing is delivered, no `sendMessage` call reaches the world, and the queue is as it was, the
head and the entries behind it included. -/
theorem process_leaves_no_stale_entry {W : Type} (env : ObjectWorld W) (g : PdGraph W) :
    (g.QueueSorted → g.QueueFresh →
      ∀ (fuel : Nat) (g' : PdGraph W) (delivered : List MessageDestination),
        g.process env fuel = some (g', delivered) →
        (∀ (o' : Nat) (i' : Int) (m' : MessageRef),
          GraphCall.scheduleMessage o' i' m' ∈ callsDuring env g.world delivered →
          g.blockStartTimestamp ≤ m'.getTimestamp) →
        g'.QueueSorted
        ∧ ∀ d ∈ g'.messageCallbackQueue, g'.blockStartTimestamp ≤ d.message.getTimestamp)
    ∧ (SchedulesPastWindow env g.blockStartTimestamp
          (g.blockStartTimestamp + g.blockDurationMs) →
        (g.process env (g.messageCallbackQueue.length + 1)).isSome = true)
    ∧ (∀ (d : MessageDestination) (rest : List MessageDestination),
        g.messageCallbackQueue = d :: rest →
        d.message.getTimestamp < g.blockStartTimestamp → 0 ≤ g.blockDurationMs →
        ∀ fuel n : Nat, ∃ g' : PdGraph W,
          g.processBlocks env (fuel + 1) n = some (g', [])
          ∧ g'.messageCallbackQueue = d :: rest
          ∧ g'.world = Nat.iterate env.processDsp n g.world) := by
  refine ⟨?_, process_returns_window env g, ?_⟩
  · intro hsorted hfresh fuel g' delivered h htrace
    obtain ⟨g1, h1, rfl⟩ := process_some h
    exact sendBlockMessages_sorted env _ g.blockStartTimestamp fuel g g1 delivered rfl
      hsorted hfresh h1 htrace
  · intro d rest hq hstale hdur fuel n
    exact processBlocks_stale_head env fuel d rest n g hq hstale hdur

/-- C30 on two messages of the first block, at 0 ms and 5 ms, and objects that record the
`sendMessage` calls, the first delivery scheduling a message at 12 ms: the call leaves that
message queued, at or after the new block start of 10 ms.  On the queue with a message dated
-1 ms at its head, four calls deliver nothing, leave the record of calls empty and the queue as
it was. -/
theorem process_leaves_no_stale_entry_witness :
    (∃ g' : PdGraph (List SendRecord),
      recordedTwoInWindow.process delayWorld 3
        = some (g', [⟨7, 0, bangAt 1 0, 0⟩, ⟨8, 1, bangAt 2 5, 1⟩])
      ∧ g'.messageCallbackQueue = [⟨9, 0, bangAt 3 12, 2⟩]
      ∧ g'.blockStartTimestamp = 10
      ∧ ∀ d ∈ g'.messageCallbackQueue, g'.blockStartTimestamp ≤ d.message.getTimestamp)
    ∧ (∃ g' : PdGraph (List SendRecord), staleHead.processBlocks delayWorld 1 4 = some (g', [])
      ∧ g'.messageCallbackQueue = [⟨7, 0, bangAt 1 (-1), 0⟩, ⟨8, 0, bangAt 2 0, 1⟩]
      ∧ g'.world = []) := by
  have hsorted : recordedTwoInWindow.QueueSorted := by
    unfold PdGraph.QueueSorted
    rw [recordedTwoInWindow_queue]
    norm_num [bangAt, MessageRef.getTimestamp, PdMessage.getTimestamp]
  have hrun : ∃ g' : PdGraph (List SendRecord),
      recordedTwoInWindow.process delayWorld 3
        = some (g', [⟨7, 0, bangAt 1 0, 0⟩, ⟨8, 1, bangAt 2 5, 1⟩])
      ∧ g'.messageCallbackQueue = [⟨9, 0, bangAt 3 12, 2⟩]
      ∧ g'.blockStartTimestamp = 10 := by
    norm_num [recordedTwoInWindow, PdGraph.process, PdGraph.sendBlockMessages,
      PdGraph.deliverHead, PdGraph.applyCalls, PdGraph.scheduleMessage, PdGraph.init,
      insertMessage, keyLt, bangAt, MessageRef.getTimestamp, PdMessage.getTimestamp,
      delayWorld, reserve, unreserve]
  have htrace : ∀ (o' : Nat) (i' : Int) (m' : MessageRef),
      GraphCall.scheduleMessage o' i' m'
        ∈ callsDuring delayWorld recordedTwoInWindow.world
            [⟨7, 0, bangAt 1 0, 0⟩, ⟨8, 1, bangAt 2 5, 1⟩] →
      recordedTwoInWindow.blockStartTimestamp ≤ m'.getTimestamp := by
    intro o' i' m' hm
    norm_num [callsDuring, delayWorld, bangAt, MessageRef.getTimestamp,
      PdMessage.getTimestamp] at hm
    rw [hm.2.2]
    norm_num [recordedTwoInWindow, PdGraph.init, PdGraph.scheduleMessage, bangAt,
      MessageRef.getTimestamp, PdMessage.getTimestamp]
  have hstale : staleHead.messageCallbackQueue
      = [⟨7, 0, bangAt 1 (-1), 0⟩, ⟨8, 0, bangAt 2 0, 1⟩] := by
    norm_num [staleHead, PdGraph.scheduleMessage, PdGraph.init, insertMessage, keyLt, bangAt,
      MessageRef.getTimestamp, PdMessage.getTimestamp]
  obtain ⟨g', hg', hqueue, hstart⟩ := hrun
  refine ⟨⟨g', hg', hqueue, hstart,
    ((process_leaves_no_stale_entry delayWorld recordedTwoInWindow).1 hsorted
      recordedTwoInWindow_fresh 3 g' _ hg' htrace).2⟩, ?_⟩
  obtain ⟨g'', h1, h2, h3⟩ := (process_leaves_no_stale_entry delayWorld staleHead).2.2 _ _ hstale
    (by norm_num [staleHead, PdGraph.scheduleMessage, PdGraph.init, bangAt,
      MessageRef.getTimestamp, PdMessage.getTimestamp])
    (by norm_num [staleHead, PdGraph.scheduleMessage, PdGraph.init]) 0 4
  exact ⟨g'', h1, h2, h3.trans rfl⟩

/-! ## A second planning, the audio pass, and the operations that end at the root -/

/-- C25 on the code: the first call of `computeDspProcessOrder` on the chain `osc~` to `*~` to
`dac~` leaves the signal execution list `dac~`, `*~`, `osc~` and the three objects flagged as
ordered; a second call on the graph as the first call left it, with the same node list and the
same connections, leaves an empty signal execution list, and a third call does so too. -/
theorem computeDspProcessOrder_second_call_differs :
    ∃ st1 st2 st3 : Patch,
      chainPatch.computeDspProcessOrder 5 0 = some st1
      ∧ (st1.objects 0).dspNodeList = [3, 2, 1]
      ∧ (st1.objects 1).isOrdered = true ∧ (st1.objects 2).isOrdered = true
      ∧ (st1.objects 3).isOrdered = true
      ∧ (st1.objects 0).nodeList = (chainPatch.objects 0).nodeList
      ∧ (st1.objects 3).incomingMessageConnectionsListAtInlet 0
          = (chainPatch.objects 3).incomingMessageConnectionsListAtInlet 0
      ∧ st1.computeDspProcessOrder 5 0 = some st2
      ∧ (st2.objects 0).dspNodeList = []
      ∧ st2.computeDspProcessOrder 5 0 = some st3
      ∧ (st3.objects 0).dspNodeList = [] :=
  ⟨_, _, _, rfl, rfl, rfl, rfl, rfl, rfl, rfl, rfl, rfl, rfl, rfl⟩

theorem dspLoop_spec {W : Type} (objectProcessDsp : W → Nat → W) :
    ∀ (l : List Nat) (w : W),
      Patch.dspLoop objectProcessDsp l w = (l.foldl objectProcessDsp w, l) := by
  intro l
  induction l with
  | nil => intro w; rfl
  | cons o rest ih =>
    intro w
    unfold Patch.dspLoop
    simp only [ih, List.foldl_cons]

/-- C26: on a graph that is switched on, `PdGraph::processDsp` calls `processDsp()` on the
elements of `dspNodeList` from index 0 upwards, once for each place in the list, so the calls
are the list itself and an object is called as often as it is in the list; on a graph that is
switched off it calls no object and leaves the world as it is.  A graph is switched on from
its construction until `setSwitch(false)`. -/
theorem processDsp_runs_dspNodeList {W : Type} (objectProcessDsp : W → Nat → W) (st : Patch)
    (graph : Nat) (w : W) :
    ((st.objects graph).switched = true →
      (st.processDsp objectProcessDsp graph w).2 = (st.objects graph).dspNodeList
      ∧ (st.processDsp objectProcessDsp graph w).1
          = (st.objects graph).dspNodeList.foldl objectProcessDsp w
      ∧ ∀ o : Nat, (st.processDsp objectProcessDsp graph w).2.count o
          = (st.objects graph).dspNodeList.count o)
    ∧ ((st.objects graph).switched = false →
      st.processDsp objectProcessDsp graph w = (w, []))
    ∧ (st.setSwitch graph false).processDsp objectProcessDsp graph w = (w, [])
    ∧ (st.setSwitch graph true).processDsp objectProcessDsp graph w
        = ((st.objects graph).dspNodeList.foldl objectProcessDsp w,
            (st.objects graph).dspNodeList)
    ∧ newGraphObject.switched = true := by
  refine ⟨fun h => ?_, fun h => ?_, ?_, ?_, rfl⟩
  · unfold Patch.processDsp
    rw [if_pos h, dspLoop_spec]
    exact ⟨rfl, rfl, fun _ => rfl⟩
  · unfold Patch.processDsp
    rw [h]
    simp
  · simp [Patch.processDsp, Patch.setSwitch]
  · simp [Patch.processDsp, Patch.setSwitch, dspLoop_spec]

theorem processDsp_runs_dspNodeList_witness :
    (twoDspNodes.objects 0).switched = true
    ∧ (twoDspNodes.processDsp (fun (w : List Nat) o => w ++ [o]) 0 []).2 = [1, 2]
    ∧ (twoDspNodes.processDsp (fun (w : List Nat) o => w ++ [o]) 0 []).1 = [1, 2]
    ∧ ((twoDspNodes.setSwitch 0 false).objects 0).switched = false
    ∧ (twoDspNodes.setSwitch 0 false).processDsp (fun (w : List Nat) o => w ++ [o]) 0 []
        = ([], []) :=
  ⟨rfl,
   ((processDsp_runs_dspNodeList (fun (w : List Nat) o => w ++ [o]) twoDspNodes 0 []).1
      rfl).1.trans rfl,
   ((processDsp_runs_dspNodeList (fun (w : List Nat) o => w ++ [o]) twoDspNodes 0 []).1
      rfl).2.1.trans rfl,
   rfl,
   (processDsp_runs_dspNodeList (fun (w : List Nat) o => w ++ [o])
      (twoDspNodes.setSwitch 0 false) 0 []).2.1 rfl⟩

theorem connectToReceivers_objects_of_ne (s x : Nat) (hs : x ≠ s) :
    ∀ (l : List Nat) (st : Patch), x ∉ l →
      (Patch.connectToReceivers s l st).objects x = st.objects x := by
  intro l
  induction l with
  | nil => intro st _; rfl
  | cons r rest ih =>
    intro st hx
    have hr : x ≠ r := fun e => hx (e ▸ List.mem_cons_self _ _)
    have hrest : x ∉ rest := fun h => hx (List.mem_cons_of_mem _ h)
    unfold Patch.connectToReceivers
    split
    · rw [ih _ hrest, connect_objects_of_ne _ _ _ _ _ _ hs hr]
    · exact ih st hrest

/-- Registering a send leaves every object alone that is neither the send nor a registered
receive. -/
theorem registerMessageSend_objects_of_ne (depth : Nat) (st : Patch) (s x : Nat)
    (hs : x ≠ s) (hx : x ∉ st.messageReceiveList) :
    (st.registerMessageSend depth s).objects x = st.objects x := by
  rw [registerMessageSend_depth]
  unfold Patch.registerMessageSend
  split
  · rfl
  · exact connectToReceivers_objects_of_ne s x hs _ _ hx

theorem scheduleMessageAt_root {W L : Type} (g : PdGraph W) (o : Nat) (i : Int)
    (m : MessageRef) : ∀ chain : List L,
    g.scheduleMessageAt chain o i m = (chain, g.scheduleMessage o i m) := by
  intro chain
  induction chain with
  | nil => rfl
  | cons self parents ih =>
    unfold PdGraph.scheduleMessageAt
    simp only [ih]

theorem cancelMessageAt_root {W L : Type} (g : PdGraph W) (o : Nat) (i : Int)
    (m : MessageRef) : ∀ chain : List L,
    g.cancelMessageAt chain o i m = (chain, g.cancelMessage o i m) := by
  intro chain
  induction chain with
  | nil => rfl
  | cons self parents ih =>
    unfold PdGraph.cancelMessageAt
    simp only [ih]

theorem getGlobalDspBufferAtInlet_root {L : Type} (root : GlobalDspBuffers) (i : Int) :
    ∀ chain : List L,
    root.getGlobalDspBufferAtInlet chain i = root.globalDspInputBuffers + i * root.blockSize := by
  intro chain
  induction chain with
  | nil => rfl
  | cons self parents ih =>
    unfold GlobalDspBuffers.getGlobalDspBufferAtInlet
    exact ih

theorem getGlobalDspBufferAtOutlet_root {L : Type} (root : GlobalDspBuffers) (i : Int) :
    ∀ chain : List L,
    root.getGlobalDspBufferAtOutlet chain i
      = root.globalDspOutputBuffers + i * root.blockSize := by
  intro chain
  induction chain with
  | nil => rfl
  | cons self parents ih =>
    unfold GlobalDspBuffers.getGlobalDspBufferAtOutlet
    exact ih

/-- C27: on a graph at any depth below the root, `scheduleMessage` and `cancelMessage` leave
the states of the graph and of the graphs between it and the root as they are and do to the
root what the same call on the root does; `getGlobalDspBufferAtInlet` and
`getGlobalDspBufferAtOutlet` return what the root returns, computed with the buffers and the
block size of the root; `registerMessageSend` and `registerMessageReceive` leave the patch that
the same call on the root leaves, in which every object that is neither the registered object
nor a registered receive or send, so every graph, is as it was. -/
theorem child_graph_delegates_to_root {W L : Type} (g : PdGraph W) (chain : List L)
    (root : GlobalDspBuffers) (st : Patch) (depth : Nat) :
    (∀ (o : Nat) (i : Int) (m : MessageRef),
      g.scheduleMessageAt chain o i m = (chain, (g.scheduleMessageAt ([] : List L) o i m).2))
    ∧ (∀ (o : Nat) (i : Int) (m : MessageRef),
      g.cancelMessageAt chain o i m = (chain, (g.cancelMessageAt ([] : List L) o i m).2))
    ∧ (∀ i : Int,
      root.getGlobalDspBufferAtInlet chain i = root.getGlobalDspBufferAtInlet ([] : List L) i
      ∧ root.getGlobalDspBufferAtOutlet chain i
          = root.getGlobalDspBufferAtOutlet ([] : List L) i)
    ∧ (∀ s : Nat, st.registerMessageSend depth s = st.registerMessageSend 0 s)
    ∧ (∀ r : Nat, st.registerMessageReceive depth r = st.registerMessageReceive 0 r)
    ∧ (∀ s x : Nat, x ≠ s → x ∉ st.messageReceiveList →
      (st.registerMessageSend depth s).objects x = st.objects x)
    ∧ (∀ r x : Nat, x ≠ r → x ∉ st.messageSendList →
      (st.registerMessageReceive depth r).objects x = st.objects x) := by
  refine ⟨fun o i m => scheduleMessageAt_root g o i m chain,
    fun o i m => cancelMessageAt_root g o i m chain,
    fun i => ⟨getGlobalDspBufferAtInlet_root root i chain,
      getGlobalDspBufferAtOutlet_root root i chain⟩,
    fun s => registerMessageSend_depth depth st s,
    fun r => registerMessageReceive_depth depth st r,
    fun s x hs hx => registerMessageSend_objects_of_ne depth st s x hs hx,
    fun r x hr hx => registerMessageReceive_objects_of_ne depth st r x hr hx⟩

theorem child_graph_delegates_to_root_witness :
    (oneAtFive.scheduleMessageAt ["inner", "outer"] 8 1 (bangAt 2 7)).1 = ["inner", "outer"]
    ∧ (oneAtFive.scheduleMessageAt ["inner", "outer"] 8 1 (bangAt 2 7)).2
        = oneAtFive.scheduleMessage 8 1 (bangAt 2 7)
    ∧ (0 : Nat) ≠ 1 ∧ (0 : Nat) ∉ threeReceivesRegistered.messageReceiveList
    ∧ (threeReceivesRegistered.registerMessageSend 2 1).objects 0
        = threeReceivesRegistered.objects 0
    ∧ (threeReceivesRegistered.registerMessageSend 2 1).outgoingCount 1 3 = 1
    ∧ (threeReceivesRegistered.registerMessageSend 2 1).outgoingCount 1 5 = 1 := by
  have H := child_graph_delegates_to_root oneAtFive ["inner", "outer"] ⟨0, 0, 64⟩
    threeReceivesRegistered 2
  have hlist : threeReceivesRegistered.messageReceiveList = [3, 4, 5] := rfl
  have hmem : (0 : Nat) ∉ threeReceivesRegistered.messageReceiveList := by
    rw [hlist]; decide
  refine ⟨?_, ?_, by decide, hmem, H.2.2.2.2.2.1 1 0 (by decide) hmem, ?_, ?_⟩
  · rw [H.1 8 1 (bangAt 2 7)]
  · rw [H.1 8 1 (bangAt 2 7)]
    rfl
  · rw [H.2.2.2.1 1]
    rfl
  · rw [H.2.2.2.1 1]
    rfl

/-! ## The print sinks during construction -/

theorem setPrintFunctions_eq (depth : Nat) (st : Patch) (printFunction : String) :
    st.setPrintFunctions printFunction
      = (st.setPrintErr depth printFunction).setPrintStd depth printFunction := by
  induction depth with
  | zero => rfl
  | succ d ih => rw [ih]; rfl

theorem connectToReceivers_sinks (s : Nat) :
    ∀ (l : List Nat) (st : Patch), (Patch.connectToReceivers s l st).sinks = st.sinks := by
  intro l
  induction l with
  | nil => intro st; rfl
  | cons r rest ih =>
    intro st
    unfold Patch.connectToReceivers
    split
    · rw [ih]; rfl
    · exact ih st

theorem registerMessageSend_sinks (depth : Nat) (st : Patch) (s : Nat) :
    (st.registerMessageSend depth s).sinks = st.sinks := by
  rw [registerMessageSend_depth]
  unfold Patch.registerMessageSend
  split
  · rfl
  · rw [connectToReceivers_sinks]; rfl

theorem registerMessageReceive_sinks (depth : Nat) (st : Patch) (r : Nat) :
    (st.registerMessageReceive depth r).sinks = st.sinks := by
  rw [registerMessageReceive_depth, registerMessageReceive_root]
  split <;> rfl

theorem addObject_sinks (st : Patch) (depth graph node : Nat) :
    (st.addObject depth graph node).sinks = st.sinks := by
  unfold Patch.addObject
  simp only []
  split
  · rfl
  · split
    · rfl
    · split
      · rw [registerMessageSend_sinks]; rfl
      · split
        · rw [registerMessageReceive_sinks]; rfl
        · rfl

theorem connectAt_sinks {st st1 : Patch} {graph : Nat} {f o t i : Int} {u : Unit}
    (h : st.connectAt graph f o t i = .done u st1) : st1.sinks = st.sinks := by
  unfold Patch.connectAt at h
  simp only [] at h
  split at h
  · simp only [Run.done.injEq, true_and] at h
    subst h
    rfl
  · simp at h

theorem visitAll_sinks {visit : Nat → Patch → Option (List Nat × Patch)}
    (hv : ∀ (o : Nat) (st : Patch) (l : List Nat) (st' : Patch),
      visit o st = some (l, st') → st'.sinks = st.sinks) :
    ∀ (l : List Nat) (st : Patch) (out : List Nat) (st' : Patch),
      visitAll visit l st = some (out, st') → st'.sinks = st.sinks := by
  intro l
  induction l with
  | nil =>
    intro st out st' h
    simp only [visitAll, Option.some.injEq, Prod.mk.injEq] at h
    obtain ⟨_, rfl⟩ := h
    rfl
  | cons o rest ih =>
    intro st out st' h
    unfold visitAll at h
    cases h1 : visit o st with
    | none => simp [h1] at h
    | some r1 =>
      obtain ⟨l1, st1⟩ := r1
      simp only [h1] at h
      cases h2 : visitAll visit rest st1 with
      | none => simp [h2] at h
      | some r2 =>
        obtain ⟨l2, st2⟩ := r2
        simp only [h2, Option.some.injEq, Prod.mk.injEq] at h
        obtain ⟨_, rfl⟩ := h
        exact (ih st1 l2 st2 h2).trans (hv o st l1 st1 h1)

theorem planWith_sinks {visit : Nat → Patch → Option (List Nat × Patch)}
    (hv : ∀ (o : Nat) (st : Patch) (l : List Nat) (st' : Patch),
      visit o st = some (l, st') → st'.sinks = st.sinks)
    {graph : Nat} {st st' : Patch} (h : Patch.planWith visit graph st = some st') :
    st'.sinks = st.sinks := by
  unfold Patch.planWith at h
  simp only [] at h
  cases hw : visitAll visit
      ((st.objects graph).nodeList.filter (fun o => (st.objects o).isLeafNode)) st with
  | none => simp [hw] at h
  | some r =>
    obtain ⟨l, st1⟩ := r
    simp only [hw, Option.some.injEq] at h
    subst h
    show st1.sinks = st.sinks
    exact visitAll_sinks hv _ _ _ _ hw

theorem getProcessOrder_sinks : ∀ (fuel : Nat) (path : List Nat) (o : Nat) (st : Patch)
    (l : List Nat) (st' : Patch),
    Patch.getProcessOrder fuel path o st = some (l, st') → st'.sinks = st.sinks := by
  intro fuel
  induction fuel with
  | zero =>
    intro path o st l st' h
    simp [Patch.getProcessOrder] at h
  | succ fuel ih =>
    intro path o st l st' h
    rw [getProcessOrder_succ] at h
    cases h0 : (if (st.objects o).label = "pd" then
          Patch.planWith (Patch.getProcessOrder fuel path) o st else some st) with
    | none => simp [h0] at h
    | some st0 =>
      have hn0 : st0.sinks = st.sinks := by
        by_cases hl : (st.objects o).label = "pd"
        · rw [if_pos hl] at h0
          exact planWith_sinks (ih path) h0
        · rw [if_neg hl] at h0
          injection h0 with h0
          subst h0
          rfl
      simp only [h0] at h
      split at h
      · simp only [Option.some.injEq, Prod.mk.injEq] at h
        obtain ⟨_, rfl⟩ := h
        exact hn0
      · split at h
        · simp only [Option.some.injEq, Prod.mk.injEq] at h
          obtain ⟨_, rfl⟩ := h
          exact hn0
        · split at h
          · simp only [Option.some.injEq, Prod.mk.injEq] at h
            obtain ⟨_, rfl⟩ := h
            exact hn0
          · cases hw : visitAll (Patch.getProcessOrder fuel (o :: path))
                (st0.objects o).upstream st0 with
            | none => simp [hw] at h
            | some r =>
              obtain ⟨pl, st1⟩ := r
              simp only [hw, Option.some.injEq, Prod.mk.injEq] at h
              obtain ⟨_, rfl⟩ := h
              exact (visitAll_sinks (ih (o :: path)) _ _ _ _ hw).trans hn0

/-- Planning a graph leaves the print sinks alone. -/
theorem computeDspProcessOrder_sinks {fuel graph : Nat} {st st' : Patch}
    (h : st.computeDspProcessOrder fuel graph = some st') : st'.sinks = st.sinks :=
  planWith_sinks (getProcessOrder_sinks fuel []) h

/-- The start of the constructor sets both print sinks of the root to the default print
function, whatever the depth of the graph. -/
theorem enterGraph_sinks (st : Patch) (depth : Nat) :
    (st.enterGraph depth).2.sinks = ("defaultPrintFunction", "defaultPrintFunction") := by
  unfold Patch.enterGraph
  by_cases hd : depth = 0 <;> simp [hd, Patch.sinks, Patch.setPrintFunctions]

theorem sinksKeptOrDefault_step {a b c : Patch} (h1 : b.sinks = a.sinks)
    (h2 : b.SinksKeptOrDefault c) : a.SinksKeptOrDefault c := by
  rcases h2 with h2 | h2
  · exact Or.inl (h2.trans h1)
  · exact Or.inr h2

theorem sinksKeptOrDefault_of_default {a b c : Patch}
    (h1 : b.sinks = ("defaultPrintFunction", "defaultPrintFunction"))
    (h2 : b.SinksKeptOrDefault c) :
    c.sinks = ("defaultPrintFunction", "defaultPrintFunction")
    ∧ a.SinksKeptOrDefault c := by
  rcases h2 with h2 | h2
  · exact ⟨h2.trans h1, Or.inr (h2.trans h1)⟩
  · exact ⟨h2, Or.inr h2⟩

/-- What a finished construction does to the print sinks of the root, by induction on the
fuel: the loop over the records keeps them or leaves the default print function; the
constructor and `newInstance`, at any depth, leave the default print function. -/
theorem construction_sinks (env : PdEnvironment) (libraryDirectory : String) : ∀ (fuel : Nat),
    (∀ (directory : String) (depth graph : Nat) (records handled : List PdRecord) (st : Patch)
        (result : List PdRecord × List PdRecord) (st' : Patch),
        Patch.parseRecords env directory libraryDirectory fuel depth graph records handled st
          = some (.done result st') →
        st.SinksKeptOrDefault st')
    ∧ (∀ (directory : String) (depth : Nat) (records : List PdRecord) (st : Patch)
        (result : Nat × List PdRecord × List PdRecord) (st' : Patch),
        Patch.newGraph env directory libraryDirectory fuel depth records st
          = some (.done result st') →
        st'.sinks = ("defaultPrintFunction", "defaultPrintFunction"))
    ∧ (∀ (directory filename : String) (depth : Nat) (st : Patch) (result : Option Nat)
        (st' : Patch),
        Patch.newInstance env fuel directory filename libraryDirectory depth st
          = some (.done result st') →
        st'.sinks = ("defaultPrintFunction", "defaultPrintFunction")) := by
  intro fuel
  induction fuel with
  | zero =>
    refine ⟨?_, ?_, ?_⟩
    · intro directory depth graph records handled st result st' h
      simp [Patch.parseRecords] at h
    · intro directory depth records st result st' h
      simp [Patch.newGraph] at h
    · intro directory filename depth st result st' h
      simp [Patch.newInstance] at h
  | succ fuel ih =>
    obtain ⟨ihParse, ihGraph, ihInstance⟩ := ih
    refine ⟨?_, ?_, ?_⟩
    · intro directory depth graph records handled st result st' h
      cases records with
      | nil =>
        simp only [Patch.parseRecords, Option.some.injEq, Run.done.injEq] at h
        obtain ⟨_, rfl⟩ := h
        exact Or.inl rfl
      | cons record rest =>
        cases record with
        | canvas =>
          simp only [Patch.parseRecords] at h
          cases hn : Patch.newGraph env directory libraryDirectory fuel (depth + 1) rest st with
          | none => simp [hn] at h
          | some r =>
            cases r with
            | nullDereference printed => simp [hn] at h
            | done res st1 =>
              obtain ⟨child, hh, rest2⟩ := res
              simp only [hn] at h
              have hd := ihGraph _ _ _ _ _ _ hn
              exact (sinksKeptOrDefault_of_default
                (b := (st1.addNode graph child).addDspNode graph child) hd
                (ihParse _ _ _ _ _ _ _ _ h)).2
        | hashN objectType =>
          simp only [Patch.parseRecords] at h
          exact sinksKeptOrDefault_step
            (b := st.printErr "WARNING | Unrecognised #N object type") rfl
            (ihParse _ _ _ _ _ _ _ _ h)
        | obj objectLabel objectInitString =>
          simp only [Patch.parseRecords, Patch.newObject] at h
          by_cases hr : env.recognises objectLabel = true
          · simp only [hr, if_true] at h
            exact sinksKeptOrDefault_step
              (b := (st.allocate (env.construct objectLabel objectInitString)).2.addObject depth
                graph (st.allocate (env.construct objectLabel objectInitString)).1)
              (addObject_sinks _ depth graph _) (ihParse _ _ _ _ _ _ _ _ h)
          · have hr' : env.recognises objectLabel = false := by
              cases hb : env.recognises objectLabel
              · rfl
              · exact absurd hb hr
            simp only [hr', Bool.false_eq_true, if_false] at h
            cases hn : Patch.newInstance env fuel directory
                (env.joinPaths objectInitString ".pd") libraryDirectory (depth + 1)
                (st.printErr "Object not recognised.\n") with
            | none => simp [hn] at h
            | some r =>
              cases r with
              | nullDereference printed => simp [hn] at h
              | done res st2 =>
                have hd := ihInstance _ _ _ _ _ _ hn
                cases res with
                | some pdNode =>
                  simp only [hn] at h
                  exact (sinksKeptOrDefault_of_default
                    (b := (st2.addNode graph pdNode).addDspNode graph pdNode) hd
                    (ihParse _ _ _ _ _ _ _ _ h)).2
                | none =>
                  simp only [hn] at h
                  cases hn2 : Patch.newInstance env fuel libraryDirectory
                      (env.joinPaths objectInitString ".pd") libraryDirectory (depth + 1)
                      st2 with
                  | none => simp [hn2] at h
                  | some r2 =>
                    cases r2 with
                    | nullDereference printed => simp [hn2] at h
                    | done res3 st3 =>
                      have hd3 := ihInstance _ _ _ _ _ _ hn2
                      cases res3 with
                      | some pdNode =>
                        simp only [hn2] at h
                        exact (sinksKeptOrDefault_of_default
                          (b := (st3.addNode graph pdNode).addDspNode graph pdNode) hd3
                          (ihParse _ _ _ _ _ _ _ _ h)).2
                      | none =>
                        simp only [hn2, Option.some.injEq, Run.done.injEq] at h
                        obtain ⟨_, rfl⟩ := h
                        exact Or.inr hd3
        | msg objectInitString =>
          simp only [Patch.parseRecords] at h
          exact sinksKeptOrDefault_step
            (b := (st.allocate (env.construct "msg" objectInitString)).2.addObject depth graph
              (st.allocate (env.construct "msg" objectInitString)).1)
            (addObject_sinks _ depth graph _) (ihParse _ _ _ _ _ _ _ _ h)
        | connect f o t i =>
          simp only [Patch.parseRecords] at h
          cases hc : st.connectAt graph f o t i with
          | nullDereference printed => simp [hc] at h
          | done u st1 =>
            simp only [hc] at h
            exact sinksKeptOrDefault_step (connectAt_sinks hc) (ihParse _ _ _ _ _ _ _ _ h)
        | floatatom =>
          simp only [Patch.parseRecords] at h
          exact sinksKeptOrDefault_step
            (b := (st.allocate (env.construct "float" "0.0")).2.addNode graph
              (st.allocate (env.construct "float" "0.0")).1) rfl
            (ihParse _ _ _ _ _ _ _ _ h)
        | symbolatom =>
          simp only [Patch.parseRecords] at h
          exact ihParse _ _ _ _ _ _ _ _ h
        | restore =>
          simp only [Patch.parseRecords, Option.some.injEq, Run.done.injEq] at h
          obtain ⟨_, rfl⟩ := h
          exact Or.inl rfl
        | text =>
          simp only [Patch.parseRecords] at h
          exact ihParse _ _ _ _ _ _ _ _ h
        | declare =>
          simp only [Patch.parseRecords] at h
          exact ihParse _ _ _ _ _ _ _ _ h
        | hashX objectType =>
          simp only [Patch.parseRecords] at h
          exact sinksKeptOrDefault_step
            (b := st.printErr "WARNING | Unrecognised #X object type on line") rfl
            (ihParse _ _ _ _ _ _ _ _ h)
        | other hashType =>
          simp only [Patch.parseRecords] at h
          exact sinksKeptOrDefault_step
            (b := st.printErr "WARNING | Unrecognised hash type on line") rfl
            (ihParse _ _ _ _ _ _ _ _ h)
    · intro directory depth records st result st' h
      simp only [Patch.newGraph] at h
      cases hp : Patch.parseRecords env directory libraryDirectory fuel depth
          (st.enterGraph depth).1 records [] (st.enterGraph depth).2 with
      | none => simp [hp] at h
      | some r =>
        cases r with
        | nullDereference printed => simp [hp] at h
        | done res st1 =>
          obtain ⟨handled0, rest0⟩ := res
          simp only [hp, Option.some.injEq, Run.done.injEq] at h
          obtain ⟨_, rfl⟩ := h
          exact (sinksKeptOrDefault_of_default (a := st) (enterGraph_sinks st depth)
            (ihParse _ _ _ _ _ _ _ _ hp)).1
    · intro directory filename depth st result st' h
      simp only [Patch.newInstance] at h
      split at h
      · rename_i rest hfile
        cases hn : Patch.newGraph env directory libraryDirectory fuel depth rest st with
        | none => simp [hn] at h
        | some r =>
          cases r with
          | nullDereference printed => simp [hn] at h
          | done res st1 =>
            obtain ⟨pdGraph, hh, rest2⟩ := res
            simp only [hn] at h
            have hd := ihGraph _ _ _ _ _ _ hn
            cases hc : st1.computeDspProcessOrder fuel pdGraph with
            | none => simp [hc] at h
            | some st2 =>
              simp only [hc, Option.some.injEq, Run.done.injEq] at h
              obtain ⟨_, rfl⟩ := h
              exact (computeDspProcessOrder_sinks hc).trans hd
      · simp at h

/-- C31 on the code: the constructor of a graph with a parent calls `setPrintErr` and
`setPrintStd` with the default print function, and both calls end at the root.  So whenever
the construction of a child graph returns, for an inline canvas (the constructor) as for an
abstraction (`newInstance`), both print sinks of the root are the default print function,
whatever the host had installed there; they are so from the start of the constructor on. -/
theorem child_graph_resets_root_print_sinks (env : PdEnvironment)
    (directory libraryDirectory : String) (fuel depth : Nat) (st : Patch) :
    (∀ (records : List PdRecord) (result : Nat × List PdRecord × List PdRecord) (st' : Patch),
      Patch.newGraph env directory libraryDirectory fuel (depth + 1) records st
        = some (.done result st') →
      st'.printErrFunction = "defaultPrintFunction"
      ∧ st'.printStdFunction = "defaultPrintFunction")
    ∧ (∀ (filename : String) (result : Option Nat) (st' : Patch),
      Patch.newInstance env fuel directory filename libraryDirectory (depth + 1) st
        = some (.done result st') →
      st'.printErrFunction = "defaultPrintFunction"
      ∧ st'.printStdFunction = "defaultPrintFunction")
    ∧ (st.enterGraph (depth + 1)).2.printErrFunction = "defaultPrintFunction"
    ∧ (st.enterGraph (depth + 1)).2.printStdFunction = "defaultPrintFunction"
    ∧ (st.enterGraph (depth + 1)).2
        = ((st.allocate newGraphObject).2.setPrintErr (depth + 1)
            "defaultPrintFunction").setPrintStd (depth + 1) "defaultPrintFunction" := by
  have H := construction_sinks env libraryDirectory fuel
  refine ⟨fun records result st' h => ?_, fun filename result st' h => ?_, rfl, rfl, ?_⟩
  · have hs := H.2.1 directory (depth + 1) records st result st' h
    simp only [Patch.sinks, Prod.mk.injEq] at hs
    exact hs
  · have hs := H.2.2 directory filename (depth + 1) st result st' h
    simp only [Patch.sinks, Prod.mk.injEq] at hs
    exact hs
  · rw [← setPrintFunctions_eq]
    rfl

theorem child_graph_resets_root_print_sinks_witness :
    hostPatch.printErrFunction = "hostPrintErr"
    ∧ hostPatch.printStdFunction = "hostPrintStd"
    ∧ (∃ st' : Patch,
        Patch.newGraph sampleEnvironment "patches" "lib" 9 1 [.obj "+" "1", .restore] hostPatch
          = some (.done (1, [.obj "+" "1", .restore], []) st')
        ∧ st'.printErrFunction = "defaultPrintFunction"
        ∧ st'.printStdFunction = "defaultPrintFunction")
    ∧ (∃ st' : Patch,
        Patch.newInstance sampleEnvironment 10 "patches" "main.pd" "lib" 1 hostPatch
          = some (.done (some 1) st')
        ∧ st'.printErrFunction = "defaultPrintFunction"
        ∧ st'.printStdFunction = "defaultPrintFunction") :=
  ⟨rfl, rfl,
   ⟨_, rfl, (child_graph_resets_root_print_sinks sampleEnvironment "patches" "lib" 9 0
      hostPatch).1 [.obj "+" "1", .restore] (1, [.obj "+" "1", .restore], []) _ rfl⟩,
   ⟨_, rfl, (child_graph_resets_root_print_sinks sampleEnvironment "patches" "lib" 10 0
      hostPatch).2.1 "main.pd" (some 1) _ rfl⟩⟩

end ZenGarden
